import Mathlib

/-!
# Chat-Application-Logger: a shallow embedding of the logging core

The development embeds `src/src/chat_logger.cpp`, `src/src/http_server.cpp` and
`src/src/main.cpp` as pure functions over explicit state.

Conventions of the embedding.

* `std::string` is `Str = List Char`; one `Char` stands for one byte.
* `std::chrono::system_clock::time_point` is an `Int`: the number of clock ticks
  since the epoch (nanoseconds, so `ticksPerMilli = 10^6`).
* A `std::queue<Message>` is a `List Message`, front of the queue first.
* The `unordered_map` of queues is an association list; its iteration order is
  the list order, and a new key goes to the end.
* The file system is an association list from path to content.  Directory
  creation is taken to succeed.
* What a call reads from its surroundings (the clock, whether an output file
  opens, the local-time formatting) is passed in an `Env`.
* Mutexes are not modelled: every operation is one atomic step.
-/

namespace ChatLog

/-- A `std::string`. -/
abbrev Str := List Char

/-! ## Text helpers -/

/-- Clock ticks of `system_clock` per millisecond. -/
def ticksPerMilli : Int := 1000000

/-- Clock ticks of `system_clock` per second. -/
def ticksPerSecond : Int := 1000000000

/-- Decimal text of a `size_t`, as `operator<<` prints it. -/
def showNat (n : Nat) : Str := Nat.toDigits 10 n

/-- Decimal text of a signed integer, as `operator<<` prints it. -/
def showInt : Int → Str
  | Int.ofNat n => showNat n
  | Int.negSucc n => '-' :: showNat (n + 1)

/-- The `isspace` of the C locale. -/
def isSpace (c : Char) : Bool :=
  c = ' ' || c = '\t' || c = '\n' || c = Char.ofNat 11 || c = Char.ofNat 12 || c = '\r'

/-- First index at which `pat` occurs in the text, scanning from its start. -/
def findFirst (pat : Str) : Str → Option Nat
  | [] => if pat = [] then some 0 else none
  | c :: t =>
    if pat.isPrefixOf (c :: t) then some 0
    else (findFirst pat t).map (fun i => i + 1)

/-- The call `s.find(pat, pos)` of `std::string`; `none` is `npos`. -/
def strFind (s pat : Str) (pos : Nat) : Option Nat :=
  if pos > s.length then none
  else (findFirst pat (s.drop pos)).map (fun i => i + pos)

/-- The call `s.substr(pos, n)` of `std::string` for `pos ≤ s.length`. -/
def substr (s : Str) (pos n : Nat) : Str := (s.drop pos).take n

/-! ## The fragment of `std::regex` (ECMAScript grammar) the program uses

Every pattern in the source is a concatenation of literal text and greedy
repetitions of a single character class, with at most one capture group, which
encloses one repetition.  Matching is leftmost, and a repetition first takes
as many characters as it can and gives them back one at a time.
-/

/-- A character class of a pattern. -/
inductive CharClass where
  /-- The class `[^c]`. -/
  | notChar (c : Char)
  /-- The class `\s`. -/
  | space
  /-- The class `\d`. -/
  | digit

/-- Whether a character belongs to a class. -/
def CharClass.test : CharClass → Char → Bool
  | CharClass.notChar c, x => x != c
  | CharClass.space, x => isSpace x
  | CharClass.digit, x => x.isDigit

/-- One element of a pattern. -/
inductive RegexItem where
  /-- Literal text. -/
  | lit (s : Str)
  /-- A greedy repetition `cls*` (`min = 0`) or `cls+` (`min = 1`); `capture`
  says whether it is enclosed in the capture group. -/
  | rep (cls : CharClass) (min : Nat) (capture : Bool)

/-- Backtracking over the length given to a repetition: the lengths
`k, k - 1, …, min` are tried in that order and the first one after which the
rest of the pattern matches is kept. -/
def tryLengths (cont : Str → Option (Nat × Option Str)) (s : Str) (min : Nat) :
    Nat → Option (Nat × Nat × Option Str)
  | 0 => if min = 0 then (cont s).map (fun r => (0, r)) else none
  | k + 1 =>
    if k + 1 < min then none
    else
      match cont (s.drop (k + 1)) with
      | some r => some (k + 1, r)
      | none => tryLengths cont s min k

/-- Match a pattern at the start of the text: the length matched and the text
of the capture group. -/
def matchItems : List RegexItem → Str → Option (Nat × Option Str)
  | [] => fun _ => some (0, none)
  | RegexItem.lit l :: rest => fun s =>
    if l.isPrefixOf s then
      (matchItems rest (s.drop l.length)).map (fun r => (l.length + r.1, r.2))
    else none
  | RegexItem.rep cls min cap :: rest => fun s =>
    match tryLengths (matchItems rest) s min (s.takeWhile cls.test).length with
    | some (k, n, c) => some (k + n, if cap then some (s.take k) else c)
    | none => none

/-- The call `regex_search`: the leftmost match, as the matched text and the
text of the capture group. -/
def regexSearch (re : List RegexItem) : Str → Option (Str × Str)
  | [] => (matchItems re []).map (fun r => ([], r.2.getD []))
  | c :: t =>
    match matchItems re (c :: t) with
    | some r => some ((c :: t).take r.1, r.2.getD [])
    | none => regexSearch re t

/-- The matches an `sregex_iterator` walks through, left to right and without
overlap; `skip` counts the characters still covered by the previous match.
(No pattern of the program matches the empty text.) -/
def regexIterFrom (re : List RegexItem) : Nat → Str → List (Str × Str)
  | _, [] => []
  | skip + 1, _ :: t => regexIterFrom re skip t
  | 0, c :: t =>
    match matchItems re (c :: t) with
    | some r => ((c :: t).take r.1, r.2.getD []) :: regexIterFrom re (r.1 - 1) t
    | none => regexIterFrom re 0 t

/-- All matches of a pattern in a text, each as the matched text and the text of
the capture group. -/
def regexIter (re : List RegexItem) (s : Str) : List (Str × Str) :=
  regexIterFrom re 0 s

/-! ## Messages -/

/-- The record `Message`: sender, text and time. -/
structure Message where
  username : Str
  content : Str
  timestamp : Int
deriving DecidableEq, Repr

/-- The timestamp in whole milliseconds (`duration_cast`, which truncates). -/
def Message.millis (m : Message) : Int := Int.tdiv m.timestamp ticksPerMilli

/-- The method `Message::toJson`. -/
def Message.toJson (m : Message) : Str :=
  "\x7b".toList
    ++ "\"username\":\"".toList ++ m.username ++ "\",".toList
    ++ "\"content\":\"".toList ++ m.content ++ "\",".toList
    ++ "\"timestamp\":".toList ++ showInt m.millis
    ++ "\x7d".toList

/-- The pattern `"username":"([^"]*)"`. -/
def username_regex : List RegexItem :=
  [RegexItem.lit "\"username\":\"".toList, RegexItem.rep (CharClass.notChar '"') 0 true,
   RegexItem.lit "\"".toList]

/-- The pattern `"content":"([^"]*)"`. -/
def content_regex : List RegexItem :=
  [RegexItem.lit "\"content\":\"".toList, RegexItem.rep (CharClass.notChar '"') 0 true,
   RegexItem.lit "\"".toList]

/-- The pattern `"timestamp":(\d+)`. -/
def timestamp_regex : List RegexItem :=
  [RegexItem.lit "\"timestamp\":".toList, RegexItem.rep CharClass.digit 1 true]

/-- The call `stoll` on a run of decimal digits; `none` stands for the
`out_of_range` exception thrown when the value exceeds `LLONG_MAX`. -/
def stoll (digits : Str) : Option Int :=
  let v : Nat := digits.foldl (fun acc c => acc * 10 + (c.toNat - 48)) 0
  if v ≤ 2 ^ 63 - 1 then some (Int.ofNat v) else none

/-- Reduction of an integer into the range of a signed 64-bit integer (signed
overflow is taken to wrap). -/
def wrap64 (x : Int) : Int := (x + 2 ^ 63) % 2 ^ 64 - 2 ^ 63

/-- The function `Message::fromJson`; `none` stands for an exception.  The
clock reading taken by the constructor is overwritten and so left out. -/
def Message.fromJson (json : Str) : Option Message :=
  let user : Str :=
    match regexSearch username_regex json with
    | some r => r.2
    | none => []
  let content : Str :=
    match regexSearch content_regex json with
    | some r => r.2
    | none => []
  let timestamp_ms : Option Int :=
    match regexSearch timestamp_regex json with
    | some r => stoll r.2
    | none => some 0
  match timestamp_ms with
  | some ms => some { username := user, content := content, timestamp := wrap64 (ms * ticksPerMilli) }
  | none => none

/-! ## What a call reads from its surroundings -/

/-- The surroundings of one call. -/
structure Env where
  /-- The successive readings of `system_clock::now()` taken during the call,
  numbered from 0. -/
  clock : Nat → Int
  /-- Whether an `ofstream` on the given path opens. -/
  canOpen : Str → Bool
  /-- The text `put_time(localtime(t), "%Y%m%d_%H%M%S")` for a `time_t`. -/
  stamp : Int → Str
  /-- The text `put_time(localtime(t), "%Y-%m-%d %H:%M:%S")` for a `time_t`. -/
  pretty : Int → Str

/-- The conversion `system_clock::to_time_t`: whole seconds. -/
def toTimeT (tp : Int) : Int := Int.tdiv tp ticksPerSecond

/-- The function `formatTimestamp`. -/
def formatTimestamp (env : Env) (tp : Int) : Str := env.pretty (toTimeT tp)

/-! ## The file system -/

/-- The files, as pairs of path and content. -/
abbrev Files := List (Str × Str)

/-- The content of a file, if it exists. -/
def readFile : Files → Str → Option Str
  | [], _ => none
  | (q, d) :: fs, p => if q = p then some d else readFile fs p

/-- Write through an `ofstream` opened in the default mode: the file is
created or truncated. -/
def writeFile : Files → Str → Str → Files
  | [], p, c => [(p, c)]
  | (q, d) :: fs, p, c => if q = p then (q, c) :: fs else (q, d) :: writeFile fs p c

/-- Write through an `ofstream` opened with `ios::app`: the file is created, or
the text is added to its end. -/
def appendFile : Files → Str → Str → Files
  | [], p, c => [(p, c)]
  | (q, d) :: fs, p, c => if q = p then (q, d ++ c) :: fs else (q, d) :: appendFile fs p c

/-! ## The bounded queue of one user -/

/-- The class `UserMessageQueue`. -/
structure UserMessageQueue where
  messages : List Message
  maxSize : Nat
  username : Str
deriving DecidableEq, Repr

namespace UserMessageQueue

/-- The constructor. -/
def new (user : Str) (max_size : Nat) : UserMessageQueue :=
  { messages := [], maxSize := max_size, username := user }

/-- The method `addMessage`; `now` is the clock reading taken by the
constructor of `Message`. -/
def addMessage (q : UserMessageQueue) (now : Int) (content : Str) : UserMessageQueue :=
  let pushed := q.messages ++ [{ username := q.username, content := content, timestamp := now }]
  { q with messages := if pushed.length > q.maxSize then pushed.tail else pushed }

/-- The loop of `getAllMessages`: the front of the temporary queue is pushed to
the back of the result and popped, until the temporary queue is empty. -/
def drainInto (result : List Message) : List Message → List Message
  | [] => result
  | front :: temp => drainInto (result ++ [front]) temp

/-- The method `getAllMessages`. -/
def getAllMessages (q : UserMessageQueue) : List Message := drainInto [] q.messages

/-- The method `size`. -/
def size (q : UserMessageQueue) : Nat := q.messages.length

/-- The method `empty`. -/
def empty (q : UserMessageQueue) : Bool := q.messages.isEmpty

/-- The method `clear`. -/
def clear (q : UserMessageQueue) : UserMessageQueue := { q with messages := [] }

/-- The name of the log file written at clock reading `now`. -/
def logFileName (env : Env) (logDir username : Str) (now : Int) : Str :=
  logDir ++ "/".toList ++ username ++ "_".toList ++ env.stamp (toTimeT now) ++ ".log".toList

/-- The header of a log file. -/
def logHeader (env : Env) (username : Str) (now : Int) (count : Nat) : Str :=
  "=== Chat Log for User: ".toList ++ username ++ " ===\n".toList
    ++ "Generated at: ".toList ++ formatTimestamp env now ++ "\n".toList
    ++ "Total messages: ".toList ++ showNat count ++ "\n".toList
    ++ "========================================\n\n".toList

/-- The line of a log file for one message. -/
def logLine (env : Env) (msg : Message) : Str :=
  "[".toList ++ formatTimestamp env msg.timestamp ++ "] ".toList
    ++ msg.username ++ ": ".toList ++ msg.content ++ "\n".toList

/-- The loop of `writeToFile` over the temporary queue. -/
def logLines (env : Env) : List Message → Str
  | [] => []
  | front :: temp => logLine env front ++ logLines env temp

/-- The footer of a log file. -/
def logFooter : Str := "\n=== End of Log ===\n".toList

/-- Everything one call of `writeToFile` sends to the file. -/
def logText (env : Env) (username : Str) (now : Int) (msgs : List Message) : Str :=
  logHeader env username now msgs.length ++ logLines env msgs ++ logFooter

/-- The method `writeToFile`, as its effect on the files; `now` is the clock
reading it takes.  It returns nothing, also when the file does not open. -/
def writeToFile (q : UserMessageQueue) (env : Env) (now : Int) (logDir : Str)
    (fs : Files) : Files :=
  if q.messages.isEmpty then fs
  else if env.canOpen (logFileName env logDir q.username now) then
    appendFile fs (logFileName env logDir q.username now) (logText env q.username now q.messages)
  else fs

end UserMessageQueue

/-! ## The logger -/

/-- The map `userQueues`. -/
abbrev QueueMap := List (Str × UserMessageQueue)

/-- The call `userQueues.find(username)`. -/
def findQueue : QueueMap → Str → Option UserMessageQueue
  | [], _ => none
  | (k, q) :: rest, username => if k = username then some q else findQueue rest username

/-- A method call through `userQueues[username]->` on a present key. -/
def modifyQueue (f : UserMessageQueue → UserMessageQueue) : QueueMap → Str → QueueMap
  | [], _ => []
  | (k, q) :: rest, username =>
    if k = username then (k, f q) :: rest else (k, q) :: modifyQueue f rest username

/-- The class `ChatLogger`.  The member `jsonFilePath` is set once, by the
constructor, from `logDirectory`; it is the function `ChatLogger.jsonFilePath`. -/
structure ChatLogger where
  userQueues : QueueMap
  maxMessagesPerUser : Nat
  logDirectory : Str
deriving DecidableEq, Repr

/-- The logger together with the files it reads and writes. -/
structure Sys where
  logger : ChatLogger
  files : Files
deriving DecidableEq, Repr

namespace ChatLogger

/-- The member `jsonFilePath`. -/
def jsonFilePath (lg : ChatLogger) : Str := lg.logDirectory ++ "/chat_data.json".toList

/-- The creation of a queue for a key that has none. -/
def ensureQueue (lg : ChatLogger) (username : Str) : ChatLogger :=
  match findQueue lg.userQueues username with
  | none =>
    { lg with userQueues :=
        lg.userQueues ++ [(username, UserMessageQueue.new username lg.maxMessagesPerUser)] }
  | some _ => lg

/-- The inner loop of `saveToJson` over the messages of one user. -/
def messagesJson : Bool → List Message → Str
  | _, [] => []
  | first_msg, msg :: rest =>
    (if first_msg then [] else ",\n".toList) ++ "        ".toList ++ msg.toJson
      ++ messagesJson false rest

/-- The outer loop of `saveToJson` over the users. -/
def usersJson : Bool → QueueMap → Str
  | _, [] => []
  | first_user, (name, q) :: rest =>
    (if first_user then [] else ",\n".toList)
      ++ "    \x7b\n      \"username\": \"".toList ++ name ++ "\",\n".toList
      ++ "      \"messages\": [\n".toList
      ++ messagesJson true q.getAllMessages
      ++ "\n      ]\n    \x7d".toList
      ++ usersJson false rest

/-- The text `saveToJson` writes. -/
def snapshotText (lg : ChatLogger) : Str :=
  "\x7b\n  \"users\": [\n".toList ++ usersJson true lg.userQueues ++ "\n  ]\n\x7d".toList

/-- The method `saveToJson`. -/
def saveToJson (env : Env) (sys : Sys) : Sys :=
  if env.canOpen sys.logger.jsonFilePath then
    { sys with files := writeFile sys.files sys.logger.jsonFilePath sys.logger.snapshotText }
  else sys

/-- The pattern `"username":\s*"([^"]*)"` of `loadFromJson`. -/
def user_regex : List RegexItem :=
  [RegexItem.lit "\"username\":".toList, RegexItem.rep CharClass.space 0 false,
   RegexItem.lit "\"".toList, RegexItem.rep (CharClass.notChar '"') 0 true,
   RegexItem.lit "\"".toList]

/-- The pattern `\{[^}]*"username":[^}]*"content":[^}]*"timestamp":[^}]*\}` of
`loadFromJson`. -/
def message_regex : List RegexItem :=
  [RegexItem.lit "\x7b".toList, RegexItem.rep (CharClass.notChar '\x7d') 0 false,
   RegexItem.lit "\"username\":".toList, RegexItem.rep (CharClass.notChar '\x7d') 0 false,
   RegexItem.lit "\"content\":".toList, RegexItem.rep (CharClass.notChar '\x7d') 0 false,
   RegexItem.lit "\"timestamp\":".toList, RegexItem.rep (CharClass.notChar '\x7d') 0 false,
   RegexItem.lit "\x7d".toList]

/-- The first loop of `loadFromJson`: a queue for every user name found. -/
def loadUsers : List (Str × Str) → ChatLogger → ChatLogger
  | [], lg => lg
  | m :: rest, lg => loadUsers rest (lg.ensureQueue m.2)

/-- The second loop of `loadFromJson` over the message fragments found; `n`
counts the clock readings taken so far.  A fragment on which `fromJson` throws
is skipped; the others are handed to `addMessage` by their content alone. -/
def loadMessages (env : Env) : List (Str × Str) → Nat → ChatLogger → ChatLogger
  | [], _, lg => lg
  | m :: rest, n, lg =>
    match Message.fromJson m.1 with
    | none => loadMessages env rest n lg
    | some msg =>
      match findQueue lg.userQueues msg.username with
      | some _ =>
        loadMessages env rest (n + 2)
          { lg with userQueues :=
              (modifyQueue (fun q => q.addMessage (env.clock (n + 1)) msg.content)
                lg.userQueues msg.username) }
      | none => loadMessages env rest (n + 1) lg

/-- The method `loadFromJson`. -/
def loadFromJson (env : Env) (sys : Sys) : Sys :=
  match readFile sys.files sys.logger.jsonFilePath with
  | none => sys
  | some json_content =>
    { sys with logger :=
        (loadMessages env (regexIter message_regex json_content) 0
          (loadUsers (regexIter user_regex json_content) sys.logger)) }

/-- The constructor: the members are set and the snapshot, if any, is loaded. -/
def new (env : Env) (max_messages : Nat) (log_dir : Str) (fs : Files) : Sys :=
  loadFromJson env
    { logger := { userQueues := [], maxMessagesPerUser := max_messages, logDirectory := log_dir },
      files := fs }

/-- The size of the queue reached through `userQueues[username]`. -/
def queueSize (lg : ChatLogger) (username : Str) : Nat :=
  match findQueue lg.userQueues username with
  | some q => q.size
  | none => 0

/-- The method `logMessage`. -/
def logMessage (env : Env) (sys : Sys) (username message : Str) : Sys :=
  let lg1 := sys.logger.ensureQueue username
  let lg2 : ChatLogger :=
    { lg1 with userQueues :=
        modifyQueue (fun q => q.addMessage (env.clock 0) message) lg1.userQueues username }
  let saved := saveToJson env { sys with logger := lg2 }
  if lg2.queueSize username ≥ lg2.maxMessagesPerUser then
    let fs :=
      match findQueue lg2.userQueues username with
      | some q => q.writeToFile env (env.clock 1) lg2.logDirectory saved.files
      | none => saved.files
    { logger := { lg2 with userQueues := modifyQueue UserMessageQueue.clear lg2.userQueues username },
      files := fs }
  else saved

/-- The method `writeUserToFile`. -/
def writeUserToFile (env : Env) (sys : Sys) (username : Str) : Sys :=
  match findQueue sys.logger.userQueues username with
  | some q => { sys with files := q.writeToFile env (env.clock 0) sys.logger.logDirectory sys.files }
  | none => sys

/-- The loop of `writeAllToFiles`; `n` counts the clock readings taken so far. -/
def writeQueues (env : Env) (logDir : Str) : QueueMap → Nat → Files → Files
  | [], _, fs => fs
  | (_, q) :: rest, n, fs =>
    if !q.empty then
      writeQueues env logDir rest (n + 1) (q.writeToFile env (env.clock n) logDir fs)
    else writeQueues env logDir rest n fs

/-- The method `writeAllToFiles`. -/
def writeAllToFiles (env : Env) (sys : Sys) : Sys :=
  { sys with files := writeQueues env sys.logger.logDirectory sys.logger.userQueues 0 sys.files }

/-- The method `getUserMessages`. -/
def getUserMessages (lg : ChatLogger) (username : Str) : List Message :=
  match findQueue lg.userQueues username with
  | some q => q.getAllMessages
  | none => []

/-- The method `getAllUsers`. -/
def getAllUsers (lg : ChatLogger) : List Str := lg.userQueues.map Prod.fst

/-- The method `clearUserMessages`. -/
def clearUserMessages (sys : Sys) (username : Str) : Sys :=
  match findQueue sys.logger.userQueues username with
  | some _ =>
    { sys with logger :=
        { sys.logger with
          userQueues := modifyQueue UserMessageQueue.clear sys.logger.userQueues username } }
  | none => sys

/-- The method `getUserMessageCount`. -/
def getUserMessageCount (lg : ChatLogger) (username : Str) : Nat :=
  match findQueue lg.userQueues username with
  | some q => q.size
  | none => 0

/-- The method `clearAllData`. -/
def clearAllData (env : Env) (sys : Sys) : Sys :=
  saveToJson env { sys with logger := { sys.logger with userQueues := [] } }

end ChatLogger

/-! ## The operations of the logger as a transition system -/

/-- A state-changing call on the logger. -/
inductive Op where
  | logMessage (username message : Str)
  | clearUserMessages (username : Str)
  | clearAllData
  | writeUserToFile (username : Str)
  | writeAllToFiles

/-- The effect of one call, made in the given surroundings. -/
def Op.apply (env : Env) (sys : Sys) : Op → Sys
  | Op.logMessage username message => ChatLogger.logMessage env sys username message
  | Op.clearUserMessages username => ChatLogger.clearUserMessages sys username
  | Op.clearAllData => ChatLogger.clearAllData env sys
  | Op.writeUserToFile username => ChatLogger.writeUserToFile env sys username
  | Op.writeAllToFiles => ChatLogger.writeAllToFiles env sys

/-- The effect of a sequence of calls, each with its own surroundings. -/
def runOps : List (Env × Op) → Sys → Sys
  | [], sys => sys
  | (env, op) :: rest, sys => runOps rest (op.apply env sys)

/-- Consecutive `logMessage` calls for one key, each with its own surroundings
and content. -/
def logAll (username : Str) : List (Env × Str) → Sys → Sys
  | [], sys => sys
  | (env, message) :: rest, sys =>
    logAll username rest (ChatLogger.logMessage env sys username message)

/-- The entry that a `logMessage` call with the given surroundings and content
appends for a key. -/
def entryOf (username : Str) (call : Env × Str) : Message :=
  { username := username, content := call.2, timestamp := call.1.clock 0 }

/-- The queue a `logMessage` call works on: the queue of the key, or a new one
when the key has none. -/
def queueOr (lg : ChatLogger) (username : Str) : UserMessageQueue :=
  match findQueue lg.userQueues username with
  | some q => q
  | none => UserMessageQueue.new username lg.maxMessagesPerUser

/-- The capacity invariant of a logger: its capacity is `capacity`, and every
queue found in the map has that bound and holds at most that many entries. -/
def QueuesBounded (capacity : Nat) (lg : ChatLogger) : Prop :=
  lg.maxMessagesPerUser = capacity ∧
    ∀ key q, findQueue lg.userQueues key = some q →
      q.maxSize = capacity ∧ q.messages.length ≤ capacity

/-- The files other than the snapshot file. -/
def rotationFiles (sys : Sys) : Files :=
  sys.files.filter (fun f => f.1 != sys.logger.jsonFilePath)

/-! ## The HTTP server -/

/-- The method `createHttpResponse`. -/
def createHttpResponse (content contentType : Str) (statusCode : Int) : Str :=
  let statusText : Str := if statusCode = 200 then "OK".toList else "Not Found".toList
  "HTTP/1.1 ".toList ++ showInt statusCode ++ " ".toList ++ statusText ++ "\r\n".toList
    ++ "Content-Type: ".toList ++ contentType ++ "\r\n".toList
    ++ "Content-Length: ".toList ++ showNat content.length ++ "\r\n".toList
    ++ "Connection: close\r\n".toList
    ++ "\r\n".toList
    ++ content

/-- The lines successive `getline` calls read from a stream holding the given
text, `cur` being the part of the current line already read.  A call on an
exhausted stream fails, so a text ending in a newline has no last empty line. -/
def getlinesFrom (cur : Str) : Str → List Str
  | [] => if cur = [] then [] else [cur]
  | c :: t => if c = '\n' then cur :: getlinesFrom [] t else getlinesFrom (cur ++ [c]) t

/-- The lines successive `getline` calls read from a stream. -/
def getlines (s : Str) : List Str := getlinesFrom [] s

/-- The extraction `stream >> word`: the word read and what is left. -/
def readWord (s : Str) : Str × Str :=
  let s1 := s.dropWhile isSpace
  (s1.takeWhile (fun c => !isSpace c), s1.dropWhile (fun c => !isSpace c))

/-- The header loop of `parseRequest`: lines are read up to and including the
first one that is empty or a lone carriage return. -/
def skipHeaders : List Str → List Str
  | [] => []
  | line :: rest => if line ≠ [] ∧ line ≠ ['\r'] then skipHeaders rest else rest

/-- The body loop of `parseRequest`. -/
def bodyOf : List Str → Str
  | [] => []
  | bodyLine :: rest => bodyLine ++ "\n".toList ++ bodyOf rest

/-- The removal of the query string from a path. -/
def stripQuery (path : Str) : Str :=
  match strFind path ['?'] 0 with
  | some queryPos => substr path 0 queryPos
  | none => path

/-- The method `parseRequest`: the method, the path and the body. -/
def parseRequest (request : Str) : Str × Str × Str :=
  match getlines request with
  | [] => ([], [], [])
  | line :: rest =>
    let method := (readWord line).1
    let path := (readWord (readWord line).2).1
    (method, stripQuery path, bodyOf (skipHeaders rest))

/-- A route handler: from the surroundings and the body to the text returned,
with its effect on the logger and the files. -/
abbrev Handler := Env → Str → Sys → Str × Sys

/-- The call `routes.find(path)`. -/
def findRoute : List (Str × Handler) → Str → Option Handler
  | [], _ => none
  | (p, h) :: rest, path => if p = path then some h else findRoute rest path

/-- The body of the 404 response. -/
def notFoundBody : Str :=
  "<html><body><h1>404 Not Found</h1><p>The requested path was not found.</p></body></html>".toList

/-- The request text `handleClient` builds from what the peer sends: at most
4095 bytes are received into the zeroed buffer, and the `std::string` made from
the buffer ends before the first zero byte. -/
def requestOf (incoming : Str) : Str :=
  (incoming.take 4095).takeWhile (fun c => c != Char.ofNat 0)

/-- The method `handleClient`: `incoming` is what the peer sends; the result is
the response sent, if any, and the state afterwards.  When nothing is received
the connection is closed without a response. -/
def handleClient (routes : List (Str × Handler)) (env : Env) (incoming : Str) (sys : Sys) :
    Option Str × Sys :=
  if (incoming.take 4095).length = 0 then (none, sys)
  else
    let parsed := parseRequest (requestOf incoming)
    match findRoute routes parsed.2.1 with
    | some handler =>
      let result := handler env parsed.2.2 sys
      (some (createHttpResponse result.1 "text/html".toList 200), result.2)
    | none => (some (createHttpResponse notFoundBody "text/html".toList 404), sys)

/-! ## The routes of `main` -/

/-- The function `parseJson`. -/
def parseJson (body field : Str) : Str :=
  let searchFor := "\"".toList ++ field ++ "\":\"".toList
  match strFind body searchFor 0 with
  | none => []
  | some pos0 =>
    let pos := pos0 + searchFor.length
    let stop :=
      match strFind body "\"".toList pos with
      | some e => e
      | none => body.length
    substr body pos (stop - pos)

/-- The text returned by `/api/send` on success. -/
def sendSuccess : Str :=
  "\x7b\"success\":true,\"message\":\"Message sent successfully\"\x7d".toList

/-- The text returned by `/api/send` on failure. -/
def sendFailure : Str :=
  "\x7b\"success\":false,\"error\":\"Missing username or message\"\x7d".toList

/-- The handler of `/api/send`. -/
def sendHandler : Handler := fun env body sys =>
  let username := parseJson body "username".toList
  let message := parseJson body "message".toList
  if !username.isEmpty && !message.isEmpty then
    (sendSuccess, ChatLogger.logMessage env sys username message)
  else (sendFailure, sys)

/-- The text returned by `/api/clear`. -/
def clearSuccess : Str :=
  "\x7b\"success\":true,\"message\":\"All data cleared successfully\"\x7d".toList

/-- The handler of `/api/clear`. -/
def clearHandler : Handler := fun env _ sys =>
  (clearSuccess, ChatLogger.clearAllData env sys)

/-! ## Sample surroundings and states -/

/-- Surroundings in which every file opens, the clock reads `t`, then `t + 1`
and so on, and local time is printed as the decimal number of seconds. -/
def sampleEnv (t : Int) : Env :=
  { clock := fun n => t + n, canOpen := fun _ => true, stamp := showInt, pretty := showInt }

/-- Surroundings like `sampleEnv` in which only the snapshot file of the
directory `logs` opens. -/
def failingEnv (t : Int) : Env :=
  { clock := fun n => t + n, canOpen := fun p => p = "logs/chat_data.json".toList,
    stamp := showInt, pretty := showInt }

/-- The state after the first three calls of the scenario with capacity 3: a
logger constructed on a directory without files, then `logMessage` for `alice`
with `hi`, `there` and `you`. -/
def afterThree (dir : Str) (e0 e1 e2 e3 : Env) : Sys :=
  ChatLogger.logMessage e3
    (ChatLogger.logMessage e2
      (ChatLogger.logMessage e1 (ChatLogger.new e0 3 dir []) "alice".toList "hi".toList)
      "alice".toList "there".toList)
    "alice".toList "you".toList

/-- The state after the fourth call of the scenario: `logMessage` for `alice`
with `next`. -/
def afterFour (dir : Str) (e0 e1 e2 e3 e4 : Env) : Sys :=
  ChatLogger.logMessage e4 (afterThree dir e0 e1 e2 e3) "alice".toList "next".toList

/-- The messages a reader of a snapshot text finds in it: the fragments matched
by the message pattern of `loadFromJson`, each decoded by `Message::fromJson`. -/
def listedMessages (text : Str) : List Message :=
  (regexIter ChatLogger.message_regex text).filterMap (fun m => Message.fromJson m.1)

/-- A logger of the given capacity on the directory `logs`, without queues or
files. -/
def emptySys (capacity : Nat) : Sys :=
  { logger := { userQueues := [], maxMessagesPerUser := capacity, logDirectory := "logs".toList },
    files := [] }

/-! ## Further parts of `main` and of the server -/

/-- The entry `routes.find(path)` points to: the registered path and its
handler. -/
def findRouteEntry : List (Str × Handler) → Str → Option (Str × Handler)
  | [], _ => none
  | (p, h) :: rest, path => if p = path then some (p, h) else findRouteEntry rest path

/-- The flush of `signalHandler`: `writeAllToFiles`, then `saveToJson`.  The
stop of the server and the exit of the process are left out. -/
def signalHandler (env : Env) (sys : Sys) : Sys :=
  ChatLogger.saveToJson env (ChatLogger.writeAllToFiles env sys)

/-- The number a run of decimal digits stands for. -/
def decimalValue (digits : Str) : Nat :=
  digits.foldl (fun acc c => acc * 10 + (c.toNat - 48)) 0

/-! ## The parts of a request, read off the raw text -/

/-- The request line: the text before the first newline of the request. -/
def requestLine (request : Str) : Str := request.takeWhile (fun c => c != '\n')

/-- The text after the request line and the newline that ends it. -/
def afterRequestLine (request : Str) : Str := (request.dropWhile (fun c => c != '\n')).tail

/-- The path token of a request: the second blank-separated word of the request
line. -/
def pathToken (request : Str) : Str := (readWord (readWord (requestLine request)).2).1

/-- The bytes that remain after the first blank line of a text, a blank line
being one that is empty or a lone carriage return; `cur` is the part of the
current line already passed.  Nothing remains when the text ends first. -/
def bytesAfterBlank (cur : Str) : Str → Str
  | [] => []
  | c :: t =>
    if c = '\n' then
      if cur = [] ∨ cur = ['\r'] then t else bytesAfterBlank [] t
    else bytesAfterBlank (cur ++ [c]) t

/-- The bytes of a request that remain after the first blank line ending the
headers. -/
def bodyBytes (request : Str) : Str := bytesAfterBlank [] (afterRequestLine request)

/-- What follows the method in a request of 4095 bytes with the method `GET`: the
path `/api/send`, 2019 header lines `a`, the blank line, and a body of 33 bytes
that ends the request. -/
def longRequestTail : Str :=
  " /api/send HTTP/1.1\n".toList ++ (List.replicate 2019 "a\n".toList).flatten ++ "\n".toList
    ++ "\x7b\"username\":\"bob\",\"message\":\"hi\"\x7d".toList

/-! ## Sequences of `logMessage` calls and the rotation writes they make -/

/-- Consecutive `logMessage` calls, each with its surroundings, key and content. -/
def logSeq : List (Env × Str × Str) → Sys → Sys
  | [], sys => sys
  | (env, username, message) :: rest, sys =>
    logSeq rest (ChatLogger.logMessage env sys username message)

/-- One write to a rotation file: the path, the key whose queue is written, the
entries written and the text that goes to the file. -/
structure RotationWrite where
  path : Str
  username : Str
  entries : List Message
  text : Str

/-- The rotation write a `logMessage` call makes, if any: the queue of the key
has reached the capacity after the append, is not empty, and the file opens. -/
def rotationWrite (env : Env) (sys : Sys) (username message : Str) : List RotationWrite :=
  if ((queueOr sys.logger username).addMessage (env.clock 0) message).size
        ≥ sys.logger.maxMessagesPerUser ∧
      ((queueOr sys.logger username).addMessage (env.clock 0) message).messages ≠ [] ∧
      env.canOpen (UserMessageQueue.logFileName env sys.logger.logDirectory
        ((queueOr sys.logger username).addMessage (env.clock 0) message).username
        (env.clock 1)) = true then
    [{ path := UserMessageQueue.logFileName env sys.logger.logDirectory
          ((queueOr sys.logger username).addMessage (env.clock 0) message).username
          (env.clock 1),
       username := username,
       entries := ((queueOr sys.logger username).addMessage (env.clock 0) message).messages,
       text := UserMessageQueue.logText env
          ((queueOr sys.logger username).addMessage (env.clock 0) message).username
          (env.clock 1)
          ((queueOr sys.logger username).addMessage (env.clock 0) message).messages }]
  else []

/-- The rotation writes of a sequence of `logMessage` calls, in the order made. -/
def rotationWrites : List (Env × Str × Str) → Sys → List RotationWrite
  | [], _ => []
  | (env, username, message) :: rest, sys =>
    rotationWrite env sys username message
      ++ rotationWrites rest (ChatLogger.logMessage env sys username message)

/-- The effect of a list of rotation writes on the files. -/
def applyWrites (fs : Files) (ws : List RotationWrite) : Files :=
  ws.foldl (fun files w => appendFile files w.path w.text) fs

/-- The entries written for a key by a list of rotation writes, in the order
written. -/
def rotatedEntries (key : Str) (ws : List RotationWrite) : List Message :=
  (ws.filter (fun w => w.username = key)).flatMap (fun w => w.entries)

/-- The entries the calls of a sequence append for a key, in call order. -/
def appendedEntries (key : Str) (calls : List (Env × Str × Str)) : List Message :=
  (calls.filter (fun c => c.2.1 = key)).map (fun c => entryOf key (c.1, c.2.2))

/-- The state every `logMessage` call starts from in a run from an empty logger
of capacity at least 1: each queue, present or yet to be made, has the bound of
the logger and the name of its key, and holds fewer entries than the bound. -/
def BelowCapacity (sys : Sys) : Prop :=
  ∀ key, (queueOr sys.logger key).maxSize = sys.logger.maxMessagesPerUser ∧
    (queueOr sys.logger key).username = key ∧
    (queueOr sys.logger key).messages.length < sys.logger.maxMessagesPerUser

/-- Every rotation write attempted along a sequence of `logMessage` calls finds
its file opening: whenever a call brings the queue of its key to the capacity,
the rotation file of that call opens. -/
def RotationsSucceed : List (Env × Str × Str) → Sys → Prop
  | [], _ => True
  | (env, username, message) :: rest, sys =>
    (((queueOr sys.logger username).addMessage (env.clock 0) message).size
          ≥ sys.logger.maxMessagesPerUser →
        env.canOpen (UserMessageQueue.logFileName env sys.logger.logDirectory username
          (env.clock 1)) = true) ∧
      RotationsSucceed rest (ChatLogger.logMessage env sys username message)

/-! ## The text of `/api/messages` -/

/-- The text `escapeJson` puts in place of one character. -/
def ChatLogger.escapeChar (c : Char) : Str :=
  if c = '"' then "\\\"".toList
  else if c = '\\' then "\\\\".toList
  else if c = '\n' then "\\n".toList
  else if c = '\r' then "\\r".toList
  else if c = '\t' then "\\t".toList
  else [c]

/-- The method `escapeJson`: the loop over the characters of the text. -/
def ChatLogger.escapeJson : Str → Str
  | [] => []
  | c :: rest => ChatLogger.escapeChar c ++ ChatLogger.escapeJson rest

/-- What `getAllMessagesJson` writes for one message. -/
def ChatLogger.messageBlock (env : Env) (msg : Message) : Str :=
  "        \x7b\n".toList
    ++ "          \"username\": \"".toList ++ ChatLogger.escapeJson msg.username ++ "\",\n".toList
    ++ "          \"content\": \"".toList ++ ChatLogger.escapeJson msg.content ++ "\",\n".toList
    ++ "          \"timestamp\": ".toList ++ showInt msg.millis ++ ",\n".toList
    ++ "          \"formatted_time\": \"".toList ++ formatTimestamp env msg.timestamp
    ++ "\"\n".toList
    ++ "        \x7d".toList

/-- The inner loop of `getAllMessagesJson` over the messages of one user. -/
def ChatLogger.allMessagesJson (env : Env) : Bool → List Message → Str
  | _, [] => []
  | first_msg, msg :: rest =>
    (if first_msg then [] else ",\n".toList) ++ ChatLogger.messageBlock env msg
      ++ ChatLogger.allMessagesJson env false rest

/-- The outer loop of `getAllMessagesJson` over the users. -/
def ChatLogger.allUsersJson (env : Env) : Bool → QueueMap → Str
  | _, [] => []
  | first_user, (name, q) :: rest =>
    (if first_user then [] else ",\n".toList)
      ++ "    \x7b\n      \"username\": \"".toList ++ ChatLogger.escapeJson name ++ "\",\n".toList
      ++ "      \"messages\": [\n".toList
      ++ ChatLogger.allMessagesJson env true q.getAllMessages
      ++ "\n      ]\n    \x7d".toList
      ++ ChatLogger.allUsersJson env false rest

/-- The method `getAllMessagesJson`. -/
def ChatLogger.getAllMessagesJson (env : Env) (lg : ChatLogger) : Str :=
  "\x7b\n  \"users\": [\n".toList ++ ChatLogger.allUsersJson env true lg.userQueues
    ++ "\n  ]\n\x7d".toList

/-- The handler `main` registers for `/api/messages`: the body of the request
is not looked at and the logger is left as it is. -/
def messagesHandler : Handler :=
  fun env _ sys => (ChatLogger.getAllMessagesJson env sys.logger, sys)

/-- The common shape of a document that lists the users in the order of the
map and, for each user, the messages in the order of the queue; `nameText` and
`msgText` say how a user name and a message are written. -/
def listingMessages (msgText : Message → Str) : Bool → List Message → Str
  | _, [] => []
  | first, msg :: rest =>
    (if first then [] else ",\n".toList) ++ msgText msg ++ listingMessages msgText false rest

/-- The users of the common shape, see `listingMessages`. -/
def listingUsers (nameText : Str → Str) (msgText : Message → Str) : Bool → QueueMap → Str
  | _, [] => []
  | first, (name, q) :: rest =>
    (if first then [] else ",\n".toList)
      ++ "    \x7b\n      \"username\": \"".toList ++ nameText name ++ "\",\n".toList
      ++ "      \"messages\": [\n".toList
      ++ listingMessages msgText true q.messages
      ++ "\n      ]\n    \x7d".toList
      ++ listingUsers nameText msgText false rest

/-- The whole document of the common shape, see `listingMessages`. -/
def listing (nameText : Str → Str) (msgText : Message → Str) (lg : ChatLogger) : Str :=
  "\x7b\n  \"users\": [\n".toList ++ listingUsers nameText msgText true lg.userQueues
    ++ "\n  ]\n\x7d".toList

/-- Whether a character is a hexadecimal digit. -/
def isHexDigit (c : Char) : Bool :=
  c.isDigit || (decide ('a' ≤ c) && decide (c ≤ 'f')) || (decide ('A' ≤ c) && decide (c ≤ 'F'))

/-- Whether a text, put between double quotes, is a JSON string literal
(RFC 8259): no double quote and no character below 0x20 outside an escape, and
every backslash followed by one of the characters `"`, `\`, `/`, `b`, `f`, `n`,
`r`, `t`, or by `u` and four hexadecimal digits. -/
def jsonStringBody : Str → Bool
  | [] => true
  | '\\' :: 'u' :: a :: b :: c :: d :: rest =>
    isHexDigit a && isHexDigit b && isHexDigit c && isHexDigit d && jsonStringBody rest
  | '\\' :: e :: rest =>
    (e = '"' || e = '\\' || e = '/' || e = 'b' || e = 'f' || e = 'n' || e = 'r' || e = 't')
      && jsonStringBody rest
  | c :: rest => c != '"' && c != '\\' && decide (32 ≤ c.toNat) && jsonStringBody rest

/-! ## The state of the HTTP server that `stop` works on -/

/-- The members of `HttpServer` that `stop` reads or writes, and the
descriptors handed to `close` so far.  The port and the routes are left out:
`stop` does not touch them. -/
structure HttpServer where
  /-- The flag `running`. -/
  running : Bool
  /-- The member `serverSocket`; `-1` when there is none. -/
  serverSocket : Int
  /-- Whether `serverThread.joinable()` holds. -/
  threadJoinable : Bool
  /-- The descriptors passed to `close`, in the order of the calls. -/
  closed : List Int
deriving DecidableEq, Repr

/-- The constructor of `HttpServer`. -/
def HttpServer.new : HttpServer :=
  { running := false, serverSocket := -1, threadJoinable := false, closed := [] }

/-- The method `HttpServer::stop`.  The server thread leaves its loop once the
flag is false, so that `join` returns. -/
def HttpServer.stop (s : HttpServer) : HttpServer :=
  if !s.running then s
  else
    let s1 : HttpServer := { s with running := false }
    let s2 : HttpServer :=
      if s1.serverSocket ≠ -1 then
        { s1 with closed := s1.closed ++ [s1.serverSocket], serverSocket := -1 }
      else s1
    if s2.threadJoinable then { s2 with threadJoinable := false } else s2

/-! ## The class `Queue<T>` of `queue.hpp` -/

/-- The class `Queue<T>`: the deque `data_`, front first, and the display
size. -/
structure Queue (α : Type) where
  data_ : List α
  maxDisplaySize_ : Nat

namespace Queue

variable {α : Type}

/-- The constructor. -/
def new (maxDisplay : Nat) : Queue α := { data_ := [], maxDisplaySize_ := maxDisplay }

/-- The method `enqueue`. -/
def enqueue (q : Queue α) (item : α) : Queue α := { q with data_ := q.data_ ++ [item] }

/-- The method `dequeue`: the front element and the queue without it, or the
`runtime_error` thrown on an empty queue. -/
def dequeue (q : Queue α) : Except String (α × Queue α) :=
  match q.data_ with
  | [] => Except.error "Queue underflow"
  | front :: rest => Except.ok (front, { q with data_ := rest })

/-- The method `peek`, which is `const`: the front element, or the
`runtime_error` thrown on an empty queue. -/
def peek (q : Queue α) : Except String α :=
  match q.data_ with
  | [] => Except.error "Queue is empty"
  | front :: _ => Except.ok front

/-- The method `size`. -/
def size (q : Queue α) : Nat := q.data_.length

/-- The method `empty`. -/
def empty (q : Queue α) : Bool := q.data_.isEmpty

/-- Successive calls of `enqueue`, one for each item. -/
def enqueueAll (q : Queue α) : List α → Queue α
  | [] => q
  | x :: rest => enqueueAll (q.enqueue x) rest

/-- Successive calls of `dequeue`, as many as stated: the values returned, in
the order of the calls, and the queue left; an error as soon as a call
throws. -/
def dequeueMany : Nat → Queue α → Except String (List α × Queue α)
  | 0, q => Except.ok ([], q)
  | n + 1, q =>
    match q.dequeue with
    | Except.error e => Except.error e
    | Except.ok (x, q1) =>
      match dequeueMany n q1 with
      | Except.error e => Except.error e
      | Except.ok (xs, q2) => Except.ok (x :: xs, q2)

end Queue

/-! ## Calls on one bounded queue -/

/-- A state-changing call on a `UserMessageQueue`. -/
inductive QueueCall where
  | addMessage (now : Int) (content : Str)
  | clear

/-- The effect of a sequence of calls on a `UserMessageQueue`. -/
def UserMessageQueue.runCalls : List QueueCall → UserMessageQueue → UserMessageQueue
  | [], q => q
  | QueueCall.addMessage now content :: rest, q =>
    UserMessageQueue.runCalls rest (q.addMessage now content)
  | QueueCall.clear :: rest, q => UserMessageQueue.runCalls rest q.clear

/-! ## Base64 (`server.cpp`) -/

/-- The text `B64_CHARS`. -/
def B64_CHARS : Str :=
  "ABCDEFGHIJKLMNOPQRSTUVWXYZabcdefghijklmnopqrstuvwxyz0123456789+/".toList

/-- Reduction of an integer into the range of a 32-bit `int` (signed overflow
and the shift of a negative value are taken to wrap, as two's complement
hardware does). -/
def wrap32 (x : Int) : Int := (x + 2 ^ 31) % 2 ^ 32 - 2 ^ 31

/-- The character `B64_CHARS[i]` for an index `i` between 0 and 63. -/
def b64At (i : Int) : Char := B64_CHARS.getD i.toNat 'A'

/-- The loop `while (valb >= 0)` of `base64_encode`: one character for every
six bits at hand.  The expression `(val >> valb) & 0x3F` is the quotient by
`2 ^ valb`, rounded down, taken modulo 64.  Every round lowers `valb` by 6, so
that `valb + 1` rounds are never used up. -/
def encodeEmit (val : Int) : Nat → Int → Str → Int × Str
  | 0, valb, out => (valb, out)
  | fuel + 1, valb, out =>
    if valb ≥ 0 then
      encodeEmit val fuel (valb - 6) (out ++ [b64At ((val / 2 ^ valb.toNat) % 64)])
    else (valb, out)

/-- The loop `for (unsigned char c : in)` of `base64_encode` on the state
`val`, `valb`, `out`; a character of the input stands for the byte that is its
code. -/
def encodeLoop : Int → Int → Str → Str → Int × Int × Str
  | val, valb, out, [] => (val, valb, out)
  | val, valb, out, c :: rest =>
    let val1 := wrap32 (wrap32 (val * 256) + (c.toNat : Int))
    let valb1 := valb + 8
    let r := encodeEmit val1 (valb1.toNat + 1) valb1 out
    encodeLoop val1 r.1 r.2 rest

/-- The loop `while (out.size() % 4) out.push_back('=')`; three rounds are
never used up. -/
def padLoop : Nat → Str → Str
  | 0, out => out
  | fuel + 1, out => if out.length % 4 ≠ 0 then padLoop fuel (out ++ ['=']) else out

/-- The end of `base64_encode`, after the loop over the input: the character
for the bits left over, if any, and the padding. -/
def encodeTail (val valb : Int) (out : Str) : Str :=
  padLoop 3
    (if valb > -6 then out ++ [b64At ((wrap32 (val * 256) / 2 ^ (valb + 8).toNat) % 64)]
     else out)

/-- The function `base64_encode`. -/
def base64_encode (input : Str) : Str :=
  let r := encodeLoop 0 (-6) [] input
  encodeTail r.1 r.2.1 r.2.2

/-- The table `T` of `base64_decode`: `-1` everywhere, then `T[B64_CHARS[i]] = i`
for `i` from 0 to 63 in turn. -/
def tableT : Char → Int :=
  (List.range 64).foldl (fun T i => Function.update T (B64_CHARS.getD i 'A') (i : Int))
    (fun _ => -1)

/-- The loop of `base64_decode` on the state `val`, `valb`, `out`; the byte
`(val >> valb) & 0xFF` is written as the character with that code. -/
def decodeLoop : Int → Int → Str → Str → Str
  | _, _, out, [] => out
  | val, valb, out, c :: rest =>
    if tableT c = -1 then out
    else
      let val1 := wrap32 (wrap32 (val * 64) + tableT c)
      let valb1 := valb + 6
      if valb1 ≥ 0 then
        decodeLoop val1 (valb1 - 8)
          (out ++ [Char.ofNat ((val1 / 2 ^ valb1.toNat) % 256).toNat]) rest
      else decodeLoop val1 valb1 out rest

/-- The function `base64_decode`. -/
def base64_decode (input : Str) : Str := decodeLoop 0 (-8) [] input

/-- The usual description of Base64, by groups of three bytes: a full group
gives four characters, a last group of two bytes three characters and one
`=`, a last group of one byte two characters and two `=`. -/
def base64Groups : Str → Str
  | [] => []
  | [a] => [b64At (a.toNat / 4 : Nat), b64At (a.toNat % 4 * 16 : Nat), '=', '=']
  | [a, b] =>
    [b64At (a.toNat / 4 : Nat), b64At (a.toNat % 4 * 16 + b.toNat / 16 : Nat),
     b64At (b.toNat % 16 * 4 : Nat), '=']
  | a :: b :: c :: rest =>
    [b64At (a.toNat / 4 : Nat), b64At (a.toNat % 4 * 16 + b.toNat / 16 : Nat),
     b64At (b.toNat % 16 * 4 + c.toNat / 64 : Nat), b64At (c.toNat % 64 : Nat)]
      ++ base64Groups rest

/-! ## What a pattern matches, stated without the search -/

/-- The texts a pattern matches as a whole: literal text matches itself, a
repetition matches any run of characters of its class that has at least `min`
characters. -/
def Parses : List RegexItem → Str → Prop
  | [], w => w = []
  | RegexItem.lit l :: re, w => ∃ w1, w = l ++ w1 ∧ Parses re w1
  | RegexItem.rep cls min _ :: re, w =>
    ∃ u w1, w = u ++ w1 ∧ (∀ c ∈ u, cls.test c = true) ∧ min ≤ u.length ∧ Parses re w1

/-- No occurrence of the text `L` begins inside `J` when `J` is followed by
`s`. -/
def QuietBefore (L J s : Str) : Prop :=
  ∀ k, k < J.length → L.isPrefixOf (J.drop k ++ s) = false

/-- The text of `Message::toJson` between its braces. -/
def Message.body (m : Message) : Str :=
  "\"username\":".toList ++ (('"' :: (m.username ++ "\",".toList))
    ++ ("\"content\":".toList ++ (('"' :: (m.content ++ "\",".toList))
      ++ ("\"timestamp\":".toList ++ showInt m.millis))))

/-- A text in front of a message of the snapshot that holds no closing brace
and in which none of the patterns of `fromJson` finds its opening text. -/
def Pending (P : Str) : Prop :=
  '\x7d' ∉ P ∧
    ∀ s, QuietBefore "\"username\":\"".toList P s ∧ QuietBefore "\"content\":\"".toList P s ∧
      QuietBefore "\"timestamp\":".toList P s

/-- An entry as `logMessage` leaves it in the queue of the key `k`, with a
content free of double quotes and a time at or after the epoch. -/
def CleanEntry (k : Str) (m : Message) : Prop :=
  m.username = k ∧ '"' ∉ m.content ∧ 0 ≤ m.timestamp ∧ m.timestamp < 2 ^ 63

/-- A state of the logger whose keys are distinct and hold neither a double
quote nor a closing brace, and whose queues are within the capacity and hold
entries of their key with contents free of double quotes. -/
def SnapshotClean (lg : ChatLogger) : Prop :=
  (lg.userQueues.map Prod.fst).Nodup ∧
    ∀ e ∈ lg.userQueues, '"' ∉ e.1 ∧ '\x7d' ∉ e.1 ∧
      e.2.messages.length ≤ lg.maxMessagesPerUser ∧ ∀ m ∈ e.2.messages, CleanEntry e.1 m

/-- Whether the content of an entry is free of closing braces. -/
def braceFree (m : Message) : Bool := decide ('\x7d' ∉ m.content)

/-- A fragment found by the message pattern that `fromJson` reads as the given
entry (up to the time). -/
def ReadsAs (f : Str × Str) (m : Message) : Prop :=
  ∃ t, Message.fromJson f.1 = some { username := m.username, content := m.content, timestamp := t }

/-- The entries of all queues whose content is free of closing braces, in the
order of the snapshot. -/
def survivors : QueueMap → List Message
  | [] => []
  | e :: rest => e.2.messages.filter braceFree ++ survivors rest

/-- The user names the snapshot text holds behind `"username":`, in the order of
the text: for every user the key, then the user name of each of its entries. -/
def listedNames : QueueMap → List Str
  | [] => []
  | e :: rest => (e.1 :: e.2.messages.map (fun m => m.username)) ++ listedNames rest

open ChatLogger UserMessageQueue

/-! ## Lemmas on the queue map and the files -/

theorem drainInto_eq (result temp : List Message) :
    drainInto result temp = result ++ temp := by
  induction temp generalizing result with
  | nil => simp [drainInto]
  | cons m ms ih => simp [drainInto, ih]

theorem getAllMessages_eq (q : UserMessageQueue) : q.getAllMessages = q.messages := by
  simp [getAllMessages, drainInto_eq]

theorem findQueue_append (m : QueueMap) (k key : Str) (q : UserMessageQueue) :
    findQueue (m ++ [(k, q)]) key =
      match findQueue m key with
      | some r => some r
      | none => if k = key then some q else none := by
  induction m with
  | nil => simp [findQueue]
  | cons p rest ih =>
    obtain ⟨k1, q1⟩ := p
    by_cases h : k1 = key
    · simp [findQueue, h]
    · simp [findQueue, h, ih]

theorem findQueue_modify_same (f : UserMessageQueue → UserMessageQueue) (m : QueueMap)
    (key : Str) : findQueue (modifyQueue f m key) key = (findQueue m key).map f := by
  induction m with
  | nil => simp [findQueue, modifyQueue]
  | cons p rest ih =>
    obtain ⟨k1, q1⟩ := p
    by_cases h : k1 = key
    · simp [findQueue, modifyQueue, h]
    · simp [findQueue, modifyQueue, h, ih]

theorem findQueue_modify_other (f : UserMessageQueue → UserMessageQueue) (m : QueueMap)
    (key other : Str) (hne : other ≠ key) :
    findQueue (modifyQueue f m key) other = findQueue m other := by
  induction m with
  | nil => simp [findQueue, modifyQueue]
  | cons p rest ih =>
    obtain ⟨k1, q1⟩ := p
    by_cases h : k1 = key
    · subst h
      have : ¬ k1 = other := fun e => hne e.symm
      simp [findQueue, modifyQueue, this]
    · by_cases h2 : k1 = other
      · subst h2
        simp [findQueue, modifyQueue, h]
      · simp [findQueue, modifyQueue, h, h2, ih]

theorem readFile_writeFile_same (fs : Files) (p c : Str) :
    readFile (writeFile fs p c) p = some c := by
  induction fs with
  | nil => simp [readFile, writeFile]
  | cons f rest ih =>
    obtain ⟨q, d⟩ := f
    by_cases h : q = p
    · simp [readFile, writeFile, h]
    · simp [readFile, writeFile, h, ih]

theorem readFile_appendFile_fresh (fs : Files) (p c : Str) (h : readFile fs p = none) :
    readFile (appendFile fs p c) p = some c := by
  induction fs with
  | nil => simp [readFile, appendFile]
  | cons f rest ih =>
    obtain ⟨q, d⟩ := f
    by_cases hq : q = p
    · simp [readFile, hq] at h
    · simp [readFile, hq] at h
      simp [readFile, appendFile, hq, ih h]

theorem filter_writeFile_same (fs : Files) (p c : Str) :
    (writeFile fs p c).filter (fun f => f.1 != p) = fs.filter (fun f => f.1 != p) := by
  induction fs with
  | nil => simp [writeFile]
  | cons f rest ih =>
    obtain ⟨q, d⟩ := f
    by_cases h : q = p
    · simp [writeFile, h]
    · simp [writeFile, h, ih]

theorem filter_appendFile_other (fs : Files) (p n c : Str) (hne : n ≠ p) :
    (appendFile fs n c).filter (fun f => f.1 != p) =
      appendFile (fs.filter (fun f => f.1 != p)) n c := by
  induction fs with
  | nil => simp [appendFile, hne]
  | cons f rest ih =>
    obtain ⟨q, d⟩ := f
    by_cases h : q = n
    · subst h
      simp [appendFile, hne]
    · by_cases h2 : q = p
      · subst h2
        simp [appendFile, h, ih]
      · simp [appendFile, h, h2, ih]

theorem logFileName_ne_jsonFilePath (env : Env) (lg : ChatLogger) (username : Str) (now : Int) :
    logFileName env lg.logDirectory username now ≠ lg.jsonFilePath := by
  intro h
  have h2 := congrArg (fun l => l.reverse.head?) h
  simp [logFileName, jsonFilePath] at h2

/-! ## Lemmas on `logMessage` -/

theorem findQueue_ensureQueue_same (lg : ChatLogger) (key : Str) :
    findQueue (lg.ensureQueue key).userQueues key = some (queueOr lg key) := by
  unfold ensureQueue queueOr
  cases h : findQueue lg.userQueues key with
  | none => simp [findQueue_append, h]
  | some q => simp [h]

theorem findQueue_ensureQueue_other (lg : ChatLogger) (key other : Str) (hne : other ≠ key) :
    findQueue (lg.ensureQueue key).userQueues other = findQueue lg.userQueues other := by
  unfold ensureQueue
  cases h : findQueue lg.userQueues key with
  | none =>
    have : ¬ key = other := fun e => hne e.symm
    cases h2 : findQueue lg.userQueues other <;> simp [findQueue_append, h2, this]
  | some q => simp

theorem ensureQueue_max (lg : ChatLogger) (key : Str) :
    (lg.ensureQueue key).maxMessagesPerUser = lg.maxMessagesPerUser := by
  unfold ensureQueue
  cases findQueue lg.userQueues key <;> rfl

theorem ensureQueue_dir (lg : ChatLogger) (key : Str) :
    (lg.ensureQueue key).logDirectory = lg.logDirectory := by
  unfold ensureQueue
  cases findQueue lg.userQueues key <;> rfl

theorem saveToJson_logger (env : Env) (sys : Sys) : (saveToJson env sys).logger = sys.logger := by
  unfold saveToJson
  split <;> rfl

theorem saveToJson_files_filter (env : Env) (sys : Sys) :
    (saveToJson env sys).files.filter
        (fun f => f.1 != sys.logger.logDirectory ++ "/chat_data.json".toList) =
      sys.files.filter (fun f => f.1 != sys.logger.logDirectory ++ "/chat_data.json".toList) := by
  unfold saveToJson
  split
  · simp [jsonFilePath, filter_writeFile_same]
  · rfl

theorem writeToFile_filter (q : UserMessageQueue) (env : Env) (now : Int) (dir : Str)
    (fs : Files) :
    (q.writeToFile env now dir fs).filter (fun f => f.1 != dir ++ "/chat_data.json".toList) =
      q.writeToFile env now dir (fs.filter (fun f => f.1 != dir ++ "/chat_data.json".toList)) := by
  unfold writeToFile
  split
  · rfl
  · split
    · exact filter_appendFile_other fs _ _ _
        (logFileName_ne_jsonFilePath env
          { userQueues := [], maxMessagesPerUser := 0, logDirectory := dir } q.username now)
    · rfl

theorem logMessage_max (env : Env) (sys : Sys) (key message : Str) :
    (logMessage env sys key message).logger.maxMessagesPerUser = sys.logger.maxMessagesPerUser := by
  unfold logMessage
  simp only [ensureQueue_max]
  split
  · rfl
  · simp [saveToJson_logger, ensureQueue_max]

theorem logMessage_dir (env : Env) (sys : Sys) (key message : Str) :
    (logMessage env sys key message).logger.logDirectory = sys.logger.logDirectory := by
  unfold logMessage
  simp only [ensureQueue_max]
  split
  · simp [ensureQueue_dir]
  · simp [saveToJson_logger, ensureQueue_dir]

theorem logMessage_find_same (env : Env) (sys : Sys) (key message : Str) :
    findQueue (logMessage env sys key message).logger.userQueues key =
      some (if ((queueOr sys.logger key).addMessage (env.clock 0) message).size
              ≥ sys.logger.maxMessagesPerUser
            then ((queueOr sys.logger key).addMessage (env.clock 0) message).clear
            else (queueOr sys.logger key).addMessage (env.clock 0) message) := by
  unfold logMessage
  simp only [ensureQueue_max, queueSize, findQueue_modify_same, findQueue_ensureQueue_same,
    Option.map_some']
  split
  · simp [findQueue_modify_same, findQueue_ensureQueue_same]
  · simp [saveToJson_logger, findQueue_modify_same, findQueue_ensureQueue_same]

theorem logMessage_find_other (env : Env) (sys : Sys) (key message other : Str)
    (hne : other ≠ key) :
    findQueue (logMessage env sys key message).logger.userQueues other =
      findQueue sys.logger.userQueues other := by
  unfold logMessage
  simp only [ensureQueue_max]
  split
  · simp [findQueue_modify_other _ _ _ _ hne, findQueue_ensureQueue_other _ _ _ hne]
  · simp [saveToJson_logger, findQueue_modify_other _ _ _ _ hne,
      findQueue_ensureQueue_other _ _ _ hne]

theorem logMessage_rotationFiles (env : Env) (sys : Sys) (key message : Str) :
    rotationFiles (logMessage env sys key message) =
      if ((queueOr sys.logger key).addMessage (env.clock 0) message).size
          ≥ sys.logger.maxMessagesPerUser
      then ((queueOr sys.logger key).addMessage (env.clock 0) message).writeToFile env
        (env.clock 1) sys.logger.logDirectory (rotationFiles sys)
      else rotationFiles sys := by
  have h := saveToJson_files_filter env
    { sys with logger :=
        { sys.logger.ensureQueue key with userQueues :=
            (modifyQueue (fun q => q.addMessage (env.clock 0) message)
              (sys.logger.ensureQueue key).userQueues key) } }
  unfold logMessage
  simp only [ensureQueue_max, queueSize, findQueue_modify_same, findQueue_ensureQueue_same,
    Option.map_some', ensureQueue_dir] at h ⊢
  split
  · simp only [rotationFiles, jsonFilePath, writeToFile_filter, h]
  · simp only [rotationFiles, jsonFilePath, saveToJson_logger, ensureQueue_dir, h]

/-! ## Filling a queue up to its capacity -/

theorem addMessage_maxSize (q : UserMessageQueue) (now : Int) (c : Str) :
    (q.addMessage now c).maxSize = q.maxSize := rfl

theorem addMessage_username (q : UserMessageQueue) (now : Int) (c : Str) :
    (q.addMessage now c).username = q.username := rfl

theorem addMessage_messages_of_lt (q : UserMessageQueue) (now : Int) (c : Str)
    (h : q.messages.length < q.maxSize) :
    (q.addMessage now c).messages =
      q.messages ++ [{ username := q.username, content := c, timestamp := now }] := by
  unfold addMessage
  have : ¬ (q.messages ++ [({ username := q.username, content := c, timestamp := now } : Message)]).length
      > q.maxSize := by
    simp only [List.length_append, List.length_singleton]
    omega
  simp only [this, if_false]

theorem queueOr_of_find (lg : ChatLogger) (key : Str) (q : UserMessageQueue)
    (h : findQueue lg.userQueues key = some q) : queueOr lg key = q := by
  simp [queueOr, h]

theorem logMessage_below (env : Env) (sys : Sys) (key message : Str)
    (hmax : (queueOr sys.logger key).maxSize = sys.logger.maxMessagesPerUser)
    (hlt : (queueOr sys.logger key).messages.length + 1 < sys.logger.maxMessagesPerUser) :
    queueOr (logMessage env sys key message).logger key =
        { queueOr sys.logger key with
          messages := (queueOr sys.logger key).messages ++
            [{ username := (queueOr sys.logger key).username, content := message,
               timestamp := env.clock 0 }] } ∧
      rotationFiles (logMessage env sys key message) = rotationFiles sys := by
  have hadd := addMessage_messages_of_lt (queueOr sys.logger key) (env.clock 0) message
    (by omega)
  have hsize : ¬ ((queueOr sys.logger key).addMessage (env.clock 0) message).size
      ≥ sys.logger.maxMessagesPerUser := by
    simp only [UserMessageQueue.size, hadd, List.length_append, List.length_singleton]
    omega
  constructor
  · apply queueOr_of_find
    rw [logMessage_find_same, if_neg hsize]
    congr 1
    cases hq : queueOr sys.logger key
    simp only [hq] at hadd
    simp only [addMessage] at hadd ⊢
    simp only [UserMessageQueue.mk.injEq, and_true, true_and]
    exact hadd
  · rw [logMessage_rotationFiles, if_neg hsize]

theorem logAll_below (key : Str) (calls : List (Env × Str)) :
    ∀ sys : Sys,
      (queueOr sys.logger key).maxSize = sys.logger.maxMessagesPerUser →
      (queueOr sys.logger key).username = key →
      (queueOr sys.logger key).messages.length + calls.length < sys.logger.maxMessagesPerUser →
      queueOr (logAll key calls sys).logger key =
          { queueOr sys.logger key with
            messages := (queueOr sys.logger key).messages ++ calls.map (entryOf key) } ∧
        (logAll key calls sys).logger.maxMessagesPerUser = sys.logger.maxMessagesPerUser ∧
        (logAll key calls sys).logger.logDirectory = sys.logger.logDirectory ∧
        rotationFiles (logAll key calls sys) = rotationFiles sys := by
  induction calls with
  | nil =>
    intro sys _ _ _
    simp [logAll]
  | cons call rest ih =>
    intro sys hmax huser hlen
    obtain ⟨env, message⟩ := call
    simp only [List.length_cons] at hlen
    have hstep := logMessage_below env sys key message hmax (by omega)
    have hm := logMessage_max env sys key message
    have hd := logMessage_dir env sys key message
    have ih2 := ih (logMessage env sys key message)
      (by rw [hstep.1, hm]; exact hmax)
      (by rw [hstep.1]; exact huser)
      (by rw [hstep.1, hm]; simp only [List.length_append, List.length_singleton]; omega)
    simp only [logAll]
    refine ⟨?_, ?_, ?_, ?_⟩
    · rw [ih2.1, hstep.1]
      simp [entryOf, huser]
    · rw [ih2.2.1, hm]
    · rw [ih2.2.2.1, hd]
    · rw [ih2.2.2.2, hstep.2]

theorem logAll_append (key : Str) (calls more : List (Env × Str)) (sys : Sys) :
    logAll key (calls ++ more) sys = logAll key more (logAll key calls sys) := by
  induction calls generalizing sys with
  | nil => rfl
  | cons call rest ih =>
    obtain ⟨env, message⟩ := call
    simp [logAll, ih]

theorem logMessage_rotate (env : Env) (sys : Sys) (key message : Str)
    (hmax : (queueOr sys.logger key).maxSize = sys.logger.maxMessagesPerUser)
    (hfull : (queueOr sys.logger key).messages.length + 1 = sys.logger.maxMessagesPerUser)
    (hopen : env.canOpen (logFileName env sys.logger.logDirectory (queueOr sys.logger key).username
      (env.clock 1)) = true) :
    (queueOr (logMessage env sys key message).logger key).messages = [] ∧
      rotationFiles (logMessage env sys key message) =
        appendFile (rotationFiles sys)
          (logFileName env sys.logger.logDirectory (queueOr sys.logger key).username (env.clock 1))
          (logText env (queueOr sys.logger key).username (env.clock 1)
            ((queueOr sys.logger key).messages ++
              [{ username := (queueOr sys.logger key).username, content := message,
                 timestamp := env.clock 0 }])) := by
  have hadd := addMessage_messages_of_lt (queueOr sys.logger key) (env.clock 0) message
    (by omega)
  have hsize : ((queueOr sys.logger key).addMessage (env.clock 0) message).size
      ≥ sys.logger.maxMessagesPerUser := by
    simp only [UserMessageQueue.size, hadd, List.length_append, List.length_singleton]
    omega
  constructor
  · rw [queueOr_of_find _ _ _ (logMessage_find_same env sys key message), if_pos hsize]
    rfl
  · rw [logMessage_rotationFiles, if_pos hsize]
    unfold writeToFile
    simp only [hadd, addMessage_username]
    simp [hopen]

theorem getUserMessageCount_eq (lg : ChatLogger) (key : Str) :
    getUserMessageCount lg key = (queueOr lg key).messages.length := by
  unfold getUserMessageCount queueOr
  cases findQueue lg.userQueues key <;> rfl

theorem getUserMessages_eq (lg : ChatLogger) (key : Str) :
    getUserMessages lg key = (queueOr lg key).messages := by
  unfold getUserMessages queueOr
  cases findQueue lg.userQueues key
  · rfl
  · simp [getAllMessages_eq]

theorem queueOr_of_empty (lg : ChatLogger) (key : Str)
    (h : ∀ q, findQueue lg.userQueues key = some q →
      q = UserMessageQueue.new key lg.maxMessagesPerUser) :
    queueOr lg key = UserMessageQueue.new key lg.maxMessagesPerUser := by
  unfold queueOr
  cases hq : findQueue lg.userQueues key with
  | none => rfl
  | some q => exact h q hq

theorem new_no_files (env : Env) (capacity : Nat) (dir : Str) :
    ChatLogger.new env capacity dir [] =
      { logger := { userQueues := [], maxMessagesPerUser := capacity, logDirectory := dir },
        files := [] } := rfl

/-! ## Rotation at capacity -/

/-- C1. Capacity 3 on a logger constructed on a directory without files, the
rotation file opening at the third call: after `logMessage` for `alice` with
`hi`, `there`, `you` the queue of `alice` has size 0 and the only file besides
the snapshot is one rotation file, holding the header, the lines of the three
entries in that order and the footer; after a further `logMessage` with `next`
the queue of `alice` has size 1, `getUserMessages` for `alice` returns one entry,
of content `next`, and `getUserMessages` for `bob` returns the empty sequence. -/
theorem scenario_capacity_three (dir : Str) (e0 e1 e2 e3 e4 : Env)
    (hopen : e3.canOpen (logFileName e3 dir "alice".toList (e3.clock 1)) = true) :
    getUserMessageCount (afterThree dir e0 e1 e2 e3).logger "alice".toList = 0 ∧
    rotationFiles (afterThree dir e0 e1 e2 e3) =
      [(logFileName e3 dir "alice".toList (e3.clock 1),
        logHeader e3 "alice".toList (e3.clock 1) 3
          ++ (logLine e3 ⟨"alice".toList, "hi".toList, e1.clock 0⟩
            ++ (logLine e3 ⟨"alice".toList, "there".toList, e2.clock 0⟩
              ++ (logLine e3 ⟨"alice".toList, "you".toList, e3.clock 0⟩ ++ [])))
          ++ logFooter)] ∧
    getUserMessageCount (afterFour dir e0 e1 e2 e3 e4).logger "alice".toList = 1 ∧
    getUserMessages (afterFour dir e0 e1 e2 e3 e4).logger "alice".toList =
      [⟨"alice".toList, "next".toList, e4.clock 0⟩] ∧
    getUserMessages (afterFour dir e0 e1 e2 e3 e4).logger "bob".toList = [] := by
  have h2 := logAll_below "alice".toList [(e1, "hi".toList), (e2, "there".toList)]
    (ChatLogger.new e0 3 dir []) rfl rfl (show 0 + 2 < 3 by decide)
  have hq0 : queueOr (ChatLogger.new e0 3 dir []).logger "alice".toList =
      UserMessageQueue.new "alice".toList 3 := rfl
  obtain ⟨hq2, hm2, hd2, hf2⟩ := h2
  rw [hq0] at hq2
  have h3 := logMessage_rotate e3
    (logAll "alice".toList [(e1, "hi".toList), (e2, "there".toList)] (ChatLogger.new e0 3 dir []))
    "alice".toList "you".toList (by rw [hq2, hm2]; rfl) (by rw [hq2, hm2]; rfl)
    (by rw [hq2, hd2]; exact hopen)
  have hs3 : logMessage e3
      (logAll "alice".toList [(e1, "hi".toList), (e2, "there".toList)]
        (ChatLogger.new e0 3 dir []))
      "alice".toList "you".toList = afterThree dir e0 e1 e2 e3 := rfl
  rw [hs3] at h3
  obtain ⟨hq3, hf3⟩ := h3
  rw [hq2, hd2, hf2] at hf3
  have hm3 : (afterThree dir e0 e1 e2 e3).logger.maxMessagesPerUser = 3 := by
    rw [← hs3, logMessage_max, hm2]; rfl
  have hfind3 := logMessage_find_same e3
    (logAll "alice".toList [(e1, "hi".toList), (e2, "there".toList)] (ChatLogger.new e0 3 dir []))
    "alice".toList "you".toList
  rw [hs3, hq2, hm2] at hfind3
  have hq3full : queueOr (afterThree dir e0 e1 e2 e3).logger "alice".toList =
      UserMessageQueue.new "alice".toList 3 := by
    rw [queueOr_of_find _ _ _ hfind3]
    rfl
  have h4 := logMessage_below e4 (afterThree dir e0 e1 e2 e3) "alice".toList "next".toList
    (by rw [hq3full, hm3]; rfl) (by rw [hq3full, hm3]; decide)
  have hs4 : logMessage e4 (afterThree dir e0 e1 e2 e3) "alice".toList "next".toList =
      afterFour dir e0 e1 e2 e3 e4 := rfl
  rw [hs4, hq3full] at h4
  refine ⟨?_, ?_, ?_, ?_, ?_⟩
  · rw [getUserMessageCount_eq, hq3]; rfl
  · rw [hf3]; rfl
  · rw [getUserMessageCount_eq, h4.1]; rfl
  · rw [getUserMessages_eq, h4.1]; rfl
  · unfold getUserMessages
    rw [← hs4, logMessage_find_other _ _ _ _ _ (by decide), ← hs3,
      logMessage_find_other _ _ _ _ _ (by decide)]
    simp only [logAll]
    rw [logMessage_find_other _ _ _ _ _ (by decide), logMessage_find_other _ _ _ _ _ (by decide)]
    rfl

/-- Witness of C1: the scenario in surroundings where every file opens. -/
theorem scenario_capacity_three_witness :
    (sampleEnv 3).canOpen
        (logFileName (sampleEnv 3) "logs".toList "alice".toList ((sampleEnv 3).clock 1)) = true ∧
    (getUserMessageCount
        (afterThree "logs".toList (sampleEnv 0) (sampleEnv 1) (sampleEnv 2) (sampleEnv 3)).logger
        "alice".toList = 0 ∧
      rotationFiles
          (afterThree "logs".toList (sampleEnv 0) (sampleEnv 1) (sampleEnv 2) (sampleEnv 3)) =
        [(logFileName (sampleEnv 3) "logs".toList "alice".toList ((sampleEnv 3).clock 1),
          logHeader (sampleEnv 3) "alice".toList ((sampleEnv 3).clock 1) 3
            ++ (logLine (sampleEnv 3) ⟨"alice".toList, "hi".toList, (sampleEnv 1).clock 0⟩
              ++ (logLine (sampleEnv 3) ⟨"alice".toList, "there".toList, (sampleEnv 2).clock 0⟩
                ++ (logLine (sampleEnv 3) ⟨"alice".toList, "you".toList, (sampleEnv 3).clock 0⟩
                  ++ [])))
            ++ logFooter)] ∧
      getUserMessageCount
        (afterFour "logs".toList (sampleEnv 0) (sampleEnv 1) (sampleEnv 2) (sampleEnv 3)
          (sampleEnv 4)).logger "alice".toList = 1 ∧
      getUserMessages
          (afterFour "logs".toList (sampleEnv 0) (sampleEnv 1) (sampleEnv 2) (sampleEnv 3)
            (sampleEnv 4)).logger "alice".toList =
        [⟨"alice".toList, "next".toList, (sampleEnv 4).clock 0⟩] ∧
      getUserMessages
          (afterFour "logs".toList (sampleEnv 0) (sampleEnv 1) (sampleEnv 2) (sampleEnv 3)
            (sampleEnv 4)).logger "bob".toList = []) :=
  ⟨rfl, scenario_capacity_three "logs".toList (sampleEnv 0) (sampleEnv 1) (sampleEnv 2)
    (sampleEnv 3) (sampleEnv 4) rfl⟩

/-- C2 (amended). For every key and every capacity of at least 1 (the calls
`calls ++ [last]` are as many as the capacity), starting from a state in which
the key has no queue or an empty one, and with the rotation file opening at the
last call: after these consecutive `logMessage` calls the queue of the key has
size 0 and the files other than the snapshot have changed by exactly one write,
which appends the header, the lines of the appended entries in append order and
the footer to the file named from the key and the second of the rotation; when
no file of that name existed before, the file holds exactly that text. -/
theorem logAll_capacity_rotates (key : Str) (sys : Sys) (calls : List (Env × Str))
    (last : Env × Str)
    (hempty : ∀ q, findQueue sys.logger.userQueues key = some q →
      q = UserMessageQueue.new key sys.logger.maxMessagesPerUser)
    (hcap : (calls ++ [last]).length = sys.logger.maxMessagesPerUser)
    (hopen : last.1.canOpen
      (logFileName last.1 sys.logger.logDirectory key (last.1.clock 1)) = true) :
    getUserMessageCount (logAll key (calls ++ [last]) sys).logger key = 0 ∧
    rotationFiles (logAll key (calls ++ [last]) sys) =
      appendFile (rotationFiles sys)
        (logFileName last.1 sys.logger.logDirectory key (last.1.clock 1))
        (logHeader last.1 key (last.1.clock 1) sys.logger.maxMessagesPerUser
          ++ logLines last.1 ((calls ++ [last]).map (entryOf key)) ++ logFooter) ∧
    (readFile (rotationFiles sys)
        (logFileName last.1 sys.logger.logDirectory key (last.1.clock 1)) = none →
      readFile (rotationFiles (logAll key (calls ++ [last]) sys))
          (logFileName last.1 sys.logger.logDirectory key (last.1.clock 1)) =
        some (logHeader last.1 key (last.1.clock 1) sys.logger.maxMessagesPerUser
          ++ logLines last.1 ((calls ++ [last]).map (entryOf key)) ++ logFooter)) := by
  have hq0 := queueOr_of_empty sys.logger key hempty
  simp only [List.length_append, List.length_singleton] at hcap
  have hbelow := logAll_below key calls sys (by rw [hq0]; rfl) (by rw [hq0]; rfl)
    (by rw [hq0]; simp only [UserMessageQueue.new, List.length_nil]; omega)
  obtain ⟨hq1, hm1, hd1, hf1⟩ := hbelow
  rw [hq0] at hq1
  obtain ⟨env, message⟩ := last
  have hrot := logMessage_rotate env (logAll key calls sys) key message
    (by rw [hq1, hm1]; rfl)
    (by rw [hq1, hm1]; simp only [UserMessageQueue.new, List.nil_append, List.length_map]; omega)
    (by rw [hq1, hd1]; exact hopen)
  have hstep : logMessage env (logAll key calls sys) key message =
      logAll key (calls ++ [(env, message)]) sys := by
    rw [logAll_append]; rfl
  rw [hstep, hq1, hd1, hf1] at hrot
  obtain ⟨hq2, hf2⟩ := hrot
  have htext : logText env key (env.clock 1)
      ((UserMessageQueue.new key sys.logger.maxMessagesPerUser).messages
          ++ calls.map (entryOf key)
        ++ [{ username := key, content := message, timestamp := env.clock 0 }]) =
      logHeader env key (env.clock 1) sys.logger.maxMessagesPerUser
        ++ logLines env ((calls ++ [(env, message)]).map (entryOf key)) ++ logFooter := by
    simp only [logText, UserMessageQueue.new, List.nil_append, List.length_append,
      List.length_map, List.length_singleton, hcap, List.map_append, List.map_cons, List.map_nil,
      entryOf]
  have hf3 : rotationFiles (logAll key (calls ++ [(env, message)]) sys) =
      appendFile (rotationFiles sys) (logFileName env sys.logger.logDirectory key (env.clock 1))
        (logHeader env key (env.clock 1) sys.logger.maxMessagesPerUser
          ++ logLines env ((calls ++ [(env, message)]).map (entryOf key)) ++ logFooter) := by
    rw [hf2, ← htext]; rfl
  refine ⟨?_, hf3, ?_⟩
  · rw [getUserMessageCount_eq, hq2]; rfl
  · intro hfresh
    rw [hf3]
    exact readFile_appendFile_fresh _ _ _ hfresh

/-- Witness of C2: capacity 2, two calls for `alice` on a logger without queues
or files. -/
theorem logAll_capacity_rotates_witness :
    (∀ q, findQueue (emptySys 2).logger.userQueues "alice".toList = some q →
      q = UserMessageQueue.new "alice".toList (emptySys 2).logger.maxMessagesPerUser) ∧
    ([(sampleEnv 0, "a".toList)] ++ [(sampleEnv 1, "b".toList)]).length =
      (emptySys 2).logger.maxMessagesPerUser ∧
    (sampleEnv 1).canOpen
      (logFileName (sampleEnv 1) (emptySys 2).logger.logDirectory "alice".toList
        ((sampleEnv 1).clock 1)) = true ∧
    (getUserMessageCount
        (logAll "alice".toList ([(sampleEnv 0, "a".toList)] ++ [(sampleEnv 1, "b".toList)])
          (emptySys 2)).logger "alice".toList = 0 ∧
      rotationFiles
          (logAll "alice".toList ([(sampleEnv 0, "a".toList)] ++ [(sampleEnv 1, "b".toList)])
            (emptySys 2)) =
        appendFile (rotationFiles (emptySys 2))
          (logFileName (sampleEnv 1) (emptySys 2).logger.logDirectory "alice".toList
            ((sampleEnv 1).clock 1))
          (logHeader (sampleEnv 1) "alice".toList ((sampleEnv 1).clock 1)
              (emptySys 2).logger.maxMessagesPerUser
            ++ logLines (sampleEnv 1)
              (([(sampleEnv 0, "a".toList)] ++ [(sampleEnv 1, "b".toList)]).map
                (entryOf "alice".toList))
            ++ logFooter) ∧
      (readFile (rotationFiles (emptySys 2))
          (logFileName (sampleEnv 1) (emptySys 2).logger.logDirectory "alice".toList
            ((sampleEnv 1).clock 1)) = none →
        readFile
            (rotationFiles
              (logAll "alice".toList ([(sampleEnv 0, "a".toList)] ++ [(sampleEnv 1, "b".toList)])
                (emptySys 2)))
            (logFileName (sampleEnv 1) (emptySys 2).logger.logDirectory "alice".toList
              ((sampleEnv 1).clock 1)) =
          some (logHeader (sampleEnv 1) "alice".toList ((sampleEnv 1).clock 1)
              (emptySys 2).logger.maxMessagesPerUser
            ++ logLines (sampleEnv 1)
              (([(sampleEnv 0, "a".toList)] ++ [(sampleEnv 1, "b".toList)]).map
                (entryOf "alice".toList))
            ++ logFooter))) :=
  ⟨(fun _ h => nomatch h), rfl, rfl,
    logAll_capacity_rotates "alice".toList (emptySys 2) [(sampleEnv 0, "a".toList)]
      (sampleEnv 1, "b".toList) (fun _ h => nomatch h) rfl rfl⟩

/-- Counterexample to C2 as stated.  With capacity 0 the zero calls write no
rotation file.  With capacity 1, a call for `alice` made in the same second as
an earlier rotation of `alice` starts from an empty queue and leaves it empty,
but the file it writes to then holds two entries, not exactly the one appended:
the text of the second rotation follows that of the first. -/
theorem logAll_capacity_rotates_counterexample :
    rotationFiles (logAll "alice".toList [] (emptySys 0)) = [] ∧
    getUserMessageCount
      (logAll "alice".toList [(sampleEnv 0, "a".toList)] (emptySys 1)).logger "alice".toList = 0 ∧
    getUserMessageCount
      (logAll "alice".toList [(sampleEnv 1, "b".toList)]
        (logAll "alice".toList [(sampleEnv 0, "a".toList)] (emptySys 1))).logger
      "alice".toList = 0 ∧
    rotationFiles
        (logAll "alice".toList [(sampleEnv 1, "b".toList)]
          (logAll "alice".toList [(sampleEnv 0, "a".toList)] (emptySys 1))) =
      [("logs/alice_0.log".toList,
        ("=== Chat Log for User: alice ===\nGenerated at: 0\nTotal messages: 1\n"
          ++ "========================================\n\n"
          ++ "[0] alice: a\n"
          ++ "\n=== End of Log ===\n"
          ++ "=== Chat Log for User: alice ===\nGenerated at: 0\nTotal messages: 1\n"
          ++ "========================================\n\n"
          ++ "[0] alice: b\n"
          ++ "\n=== End of Log ===\n").toList)] ∧
    readFile
        (rotationFiles
          (logAll "alice".toList [(sampleEnv 1, "b".toList)]
            (logAll "alice".toList [(sampleEnv 0, "a".toList)] (emptySys 1))))
        "logs/alice_0.log".toList ≠
      some (logHeader (sampleEnv 1) "alice".toList ((sampleEnv 1).clock 1) 1
        ++ logLines (sampleEnv 1) ([(sampleEnv 1, "b".toList)].map (entryOf "alice".toList))
        ++ logFooter) := by
  refine ⟨rfl, rfl, rfl, ?_, ?_⟩
  · decide!
  · decide!

/-! ## A failing rotation write, and the reload of a snapshot -/

/-- C3 (the code at the failing input). Capacity 3, the rotation file failing
to open: the third `logMessage` for `alice` empties the queue although no
rotation file was written, and after one more call the three entries are in no
file at all: the only file is the snapshot, which lists the fourth entry alone. -/
theorem rotation_failure_clears_queue :
    getUserMessages
        (logAll "alice".toList
          [(failingEnv 0, "hi".toList), (failingEnv 1, "there".toList),
           (failingEnv 2, "you".toList)] (emptySys 3)).logger "alice".toList = [] ∧
    rotationFiles
        (logAll "alice".toList
          [(failingEnv 0, "hi".toList), (failingEnv 1, "there".toList),
           (failingEnv 2, "you".toList)] (emptySys 3)) = [] ∧
    (logAll "alice".toList
        [(failingEnv 0, "hi".toList), (failingEnv 1, "there".toList),
         (failingEnv 2, "you".toList), (failingEnv 3, "next".toList)] (emptySys 3)).files =
      [("logs/chat_data.json".toList,
        ("\x7b\n  \"users\": [\n    \x7b\n      \"username\": \"alice\",\n"
          ++ "      \"messages\": [\n"
          ++ "        \x7b\"username\":\"alice\",\"content\":\"next\",\"timestamp\":0\x7d"
          ++ "\n      ]\n    \x7d\n  ]\n\x7d").toList)] := by
  refine ⟨?_, ?_, ?_⟩
  · decide!
  · decide!
  · decide!

/-- C4 (the code at the failing input). Capacity 3: `logMessage` for `alice`
with the content `say "hi"` at clock reading 1 s writes a snapshot; a logger
constructed on that snapshot at clock reading 5 s holds for `alice` one entry
whose content is cut at the quote and whose timestamp is the clock reading
taken while loading. -/
theorem snapshot_reload_changes_entries :
    getUserMessages
        (logMessage (sampleEnv 1000000000) (emptySys 3) "alice".toList
          "say \"hi\"".toList).logger "alice".toList =
      [⟨"alice".toList, "say \"hi\"".toList, 1000000000⟩] ∧
    getUserMessages
        (ChatLogger.new (sampleEnv 5000000000) 3 "logs".toList
          (logMessage (sampleEnv 1000000000) (emptySys 3) "alice".toList
            "say \"hi\"".toList).files).logger "alice".toList =
      [⟨"alice".toList, "say ".toList, 5000000001⟩] := by
  refine ⟨?_, ?_⟩
  · decide!
  · decide!

/-! ## The 404 response, `clearAllData` and `getUserMessages` -/

/-- C5. For every route table, state and received request whose path, after
the query string is stripped, has no entry in the route table: `handleClient`
sends the response with status line `HTTP/1.1 404 Not Found` and the static
HTML body, and the state is the one before, so every queue has the size it had.
The outcome is that of a server with an empty route table: no handler takes
part in it. -/
theorem handleClient_unknown_path (routes : List (Str × Handler)) (env : Env)
    (incoming : Str) (sys : Sys) (hrecv : incoming ≠ [])
    (hmiss : findRoute routes (parseRequest (requestOf incoming)).2.1 = none) :
    handleClient routes env incoming sys =
      (some (("HTTP/1.1 404 Not Found\r\nContent-Type: text/html\r\nContent-Length: 88\r\n"
          ++ "Connection: close\r\n\r\n").toList ++ notFoundBody), sys) ∧
    handleClient routes env incoming sys = handleClient [] env incoming sys ∧
    ∀ key, getUserMessageCount (handleClient routes env incoming sys).2.logger key =
      getUserMessageCount sys.logger key := by
  have hlen : ¬ (incoming.take 4095).length = 0 := by
    cases incoming with
    | nil => exact absurd rfl hrecv
    | cons c t => simp
  have hresp : createHttpResponse notFoundBody "text/html".toList 404 =
      ("HTTP/1.1 404 Not Found\r\nContent-Type: text/html\r\nContent-Length: 88\r\n"
          ++ "Connection: close\r\n\r\n").toList ++ notFoundBody := by
    decide!
  have h1 : handleClient routes env incoming sys =
      (some (createHttpResponse notFoundBody "text/html".toList 404), sys) := by
    unfold handleClient
    rw [if_neg hlen]
    simp only [hmiss]
  have h2 : handleClient [] env incoming sys =
      (some (createHttpResponse notFoundBody "text/html".toList 404), sys) := by
    unfold handleClient
    rw [if_neg hlen]
    simp only [findRoute]
  refine ⟨?_, ?_, ?_⟩
  · rw [h1, hresp]
  · rw [h1, h2]
  · intro key
    rw [h1]

/-- Witness of C5: a request for `/api/sen?x=1` on a table with the routes
`/api/send` and `/api/clear`. -/
theorem handleClient_unknown_path_witness :
    "GET /api/sen?x=1 HTTP/1.1\r\n\r\n".toList ≠ [] ∧
    findRoute [("/api/send".toList, sendHandler), ("/api/clear".toList, clearHandler)]
      (parseRequest (requestOf "GET /api/sen?x=1 HTTP/1.1\r\n\r\n".toList)).2.1 = none ∧
    (handleClient [("/api/send".toList, sendHandler), ("/api/clear".toList, clearHandler)]
        (sampleEnv 0) "GET /api/sen?x=1 HTTP/1.1\r\n\r\n".toList (emptySys 3) =
      (some (("HTTP/1.1 404 Not Found\r\nContent-Type: text/html\r\nContent-Length: 88\r\n"
          ++ "Connection: close\r\n\r\n").toList ++ notFoundBody), emptySys 3) ∧
    handleClient [("/api/send".toList, sendHandler), ("/api/clear".toList, clearHandler)]
        (sampleEnv 0) "GET /api/sen?x=1 HTTP/1.1\r\n\r\n".toList (emptySys 3) =
      handleClient [] (sampleEnv 0) "GET /api/sen?x=1 HTTP/1.1\r\n\r\n".toList (emptySys 3) ∧
    ∀ key, getUserMessageCount
        (handleClient [("/api/send".toList, sendHandler), ("/api/clear".toList, clearHandler)]
          (sampleEnv 0) "GET /api/sen?x=1 HTTP/1.1\r\n\r\n".toList (emptySys 3)).2.logger key =
      getUserMessageCount (emptySys 3).logger key) :=
  ⟨by decide, rfl,
    handleClient_unknown_path
      [("/api/send".toList, sendHandler), ("/api/clear".toList, clearHandler)] (sampleEnv 0)
      "GET /api/sen?x=1 HTTP/1.1\r\n\r\n".toList (emptySys 3) (by decide) rfl⟩

/-- The text `saveToJson` writes for a logger without queues. -/
theorem snapshotText_no_queues (capacity : Nat) (dir : Str) :
    snapshotText { userQueues := [], maxMessagesPerUser := capacity, logDirectory := dir } =
      "\x7b\n  \"users\": [\n\n  ]\n\x7d".toList := by
  simp [snapshotText, usersJson]

/-- C6. For every state and every key, after `clearAllData` the count of the
key is 0 and `getUserMessages` returns the empty sequence for it; the text
handed to the snapshot file is the document with the empty list of users, in
which the message pattern finds no message; and when the snapshot file opens,
that document is what the file holds. -/
theorem clearAllData_empties (env : Env) (sys : Sys) (key : Str) :
    getUserMessageCount (clearAllData env sys).logger key = 0 ∧
    getUserMessages (clearAllData env sys).logger key = [] ∧
    (clearAllData env sys).logger.userQueues = [] ∧
    snapshotText (clearAllData env sys).logger = "\x7b\n  \"users\": [\n\n  ]\n\x7d".toList ∧
    listedMessages (snapshotText (clearAllData env sys).logger) = [] ∧
    regexIter message_regex (snapshotText (clearAllData env sys).logger) = [] ∧
    (env.canOpen sys.logger.jsonFilePath = true →
      readFile (clearAllData env sys).files sys.logger.jsonFilePath =
        some "\x7b\n  \"users\": [\n\n  ]\n\x7d".toList) := by
  have hlg : (clearAllData env sys).logger = { sys.logger with userQueues := [] } := by
    unfold clearAllData
    rw [saveToJson_logger]
  have htext : snapshotText (clearAllData env sys).logger =
      "\x7b\n  \"users\": [\n\n  ]\n\x7d".toList := by
    rw [hlg]
    exact snapshotText_no_queues _ _
  refine ⟨?_, ?_, ?_, htext, ?_, ?_, ?_⟩
  · rw [hlg]; rfl
  · rw [hlg]; rfl
  · rw [hlg]
  · rw [htext]; decide!
  · rw [htext]; decide!
  · intro hopen
    unfold clearAllData saveToJson
    have hopen2 : env.canOpen
        (jsonFilePath ({ sys with logger := { sys.logger with userQueues := [] } } : Sys).logger)
          = true := hopen
    rw [if_pos hopen2]
    have hpath : jsonFilePath
        ({ sys with logger := { sys.logger with userQueues := [] } } : Sys).logger =
          sys.logger.jsonFilePath := rfl
    simp only [hpath]
    rw [readFile_writeFile_same]
    exact congrArg some (snapshotText_no_queues _ _)

/-- Witness of C6: `clearAllData`, with every file opening, on the state
reached by one `logMessage` for `alice` at capacity 3. -/
theorem clearAllData_empties_witness :
    getUserMessageCount
        (logMessage (sampleEnv 0) (emptySys 3) "alice".toList "hi".toList).logger
        "alice".toList = 1 ∧
    (sampleEnv 1).canOpen
      (logMessage (sampleEnv 0) (emptySys 3) "alice".toList "hi".toList).logger.jsonFilePath
        = true ∧
    readFile
        (clearAllData (sampleEnv 1)
          (logMessage (sampleEnv 0) (emptySys 3) "alice".toList "hi".toList)).files
        (logMessage (sampleEnv 0) (emptySys 3) "alice".toList "hi".toList).logger.jsonFilePath =
      some "\x7b\n  \"users\": [\n\n  ]\n\x7d".toList ∧
    getUserMessageCount
        (clearAllData (sampleEnv 1)
          (logMessage (sampleEnv 0) (emptySys 3) "alice".toList "hi".toList)).logger
        "alice".toList = 0 :=
  ⟨by decide!, rfl,
    (clearAllData_empties (sampleEnv 1)
      (logMessage (sampleEnv 0) (emptySys 3) "alice".toList "hi".toList)
      "alice".toList).2.2.2.2.2.2 rfl,
    (clearAllData_empties (sampleEnv 1)
      (logMessage (sampleEnv 0) (emptySys 3) "alice".toList "hi".toList) "alice".toList).1⟩

/-- C7. `getUserMessages` is a total function of the logger and the key, and
returns no new logger: for a key without a queue it gives the empty sequence,
and for a key with a queue it gives exactly the entries of that queue, in the
order of the queue, front first. -/
theorem getUserMessages_spec (lg : ChatLogger) (key : Str) :
    (findQueue lg.userQueues key = none → getUserMessages lg key = []) ∧
    (∀ q, findQueue lg.userQueues key = some q → getUserMessages lg key = q.messages) := by
  constructor
  · intro h
    simp [getUserMessages, h]
  · intro q h
    simp [getUserMessages, h, getAllMessages_eq]

/-- Witness of C7: after two `logMessage` calls for `alice` at capacity 3, the
queue of `alice` is found and `getUserMessages` returns its two entries in the
order of the calls, while `bob` has no queue and gets the empty sequence. -/
theorem getUserMessages_spec_witness :
    findQueue
        (logAll "alice".toList [(sampleEnv 0, "hi".toList), (sampleEnv 5, "there".toList)]
          (emptySys 3)).logger.userQueues "alice".toList =
      some ⟨[⟨"alice".toList, "hi".toList, 0⟩, ⟨"alice".toList, "there".toList, 5⟩], 3,
        "alice".toList⟩ ∧
    getUserMessages
        (logAll "alice".toList [(sampleEnv 0, "hi".toList), (sampleEnv 5, "there".toList)]
          (emptySys 3)).logger "alice".toList =
      [⟨"alice".toList, "hi".toList, 0⟩, ⟨"alice".toList, "there".toList, 5⟩] ∧
    findQueue
        (logAll "alice".toList [(sampleEnv 0, "hi".toList), (sampleEnv 5, "there".toList)]
          (emptySys 3)).logger.userQueues "bob".toList = none ∧
    getUserMessages
        (logAll "alice".toList [(sampleEnv 0, "hi".toList), (sampleEnv 5, "there".toList)]
          (emptySys 3)).logger "bob".toList = [] :=
  ⟨by decide!,
    (getUserMessages_spec
      (logAll "alice".toList [(sampleEnv 0, "hi".toList), (sampleEnv 5, "there".toList)]
        (emptySys 3)).logger "alice".toList).2 _ rfl,
    by decide!,
    (getUserMessages_spec
      (logAll "alice".toList [(sampleEnv 0, "hi".toList), (sampleEnv 5, "there".toList)]
        (emptySys 3)).logger "bob".toList).1 (by decide!)⟩

/-! ## The capacity invariant -/

theorem addMessage_length_le (q : UserMessageQueue) (now : Int) (c : Str)
    (h : q.messages.length ≤ q.maxSize) :
    (q.addMessage now c).messages.length ≤ q.maxSize := by
  unfold addMessage
  simp only
  split
  · simp only [List.length_tail, List.length_append, List.length_singleton]
    omega
  · omega

theorem queuesBounded_modify (capacity : Nat) (lg : ChatLogger) (key : Str)
    (f : UserMessageQueue → UserMessageQueue) (h : QueuesBounded capacity lg)
    (hf : ∀ q : UserMessageQueue, q.maxSize = capacity → q.messages.length ≤ capacity →
      (f q).maxSize = capacity ∧ (f q).messages.length ≤ capacity) :
    QueuesBounded capacity { lg with userQueues := modifyQueue f lg.userQueues key } := by
  refine ⟨h.1, ?_⟩
  intro other q hq
  by_cases hk : other = key
  · subst hk
    simp only [findQueue_modify_same] at hq
    cases hq0 : findQueue lg.userQueues other with
    | none => simp [hq0] at hq
    | some q0 =>
      simp only [hq0, Option.map_some', Option.some.injEq] at hq
      subst hq
      exact hf q0 (h.2 other q0 hq0).1 (h.2 other q0 hq0).2
  · simp only [findQueue_modify_other _ _ _ _ hk] at hq
    exact h.2 other q hq

theorem queuesBounded_ensureQueue (capacity : Nat) (lg : ChatLogger) (key : Str)
    (h : QueuesBounded capacity lg) : QueuesBounded capacity (lg.ensureQueue key) := by
  refine ⟨by rw [ensureQueue_max]; exact h.1, ?_⟩
  intro other q hq
  by_cases hk : other = key
  · subst hk
    rw [findQueue_ensureQueue_same] at hq
    simp only [Option.some.injEq] at hq
    subst hq
    unfold queueOr
    cases hq0 : findQueue lg.userQueues other with
    | none => exact ⟨h.1, Nat.zero_le _⟩
    | some q0 => exact h.2 other q0 hq0
  · rw [findQueue_ensureQueue_other _ _ _ hk] at hq
    exact h.2 other q hq

theorem queuesBounded_addMessage (capacity : Nat) (lg : ChatLogger) (key : Str) (now : Int)
    (c : Str) (h : QueuesBounded capacity lg) :
    QueuesBounded capacity
      { lg with userQueues := modifyQueue (fun q => q.addMessage now c) lg.userQueues key } := by
  apply queuesBounded_modify capacity lg key _ h
  intro q hmax hlen
  refine ⟨hmax, ?_⟩
  have := addMessage_length_le q now c (by omega)
  omega

theorem queuesBounded_clear (capacity : Nat) (lg : ChatLogger) (key : Str)
    (h : QueuesBounded capacity lg) :
    QueuesBounded capacity
      { lg with userQueues := modifyQueue UserMessageQueue.clear lg.userQueues key } := by
  apply queuesBounded_modify capacity lg key _ h
  intro q hmax _
  exact ⟨hmax, Nat.zero_le _⟩

theorem queuesBounded_loadUsers (capacity : Nat) (found : List (Str × Str)) :
    ∀ lg : ChatLogger, QueuesBounded capacity lg → QueuesBounded capacity (loadUsers found lg) := by
  induction found with
  | nil => intro lg h; exact h
  | cons m rest ih =>
    intro lg h
    exact ih _ (queuesBounded_ensureQueue capacity lg m.2 h)

theorem queuesBounded_loadMessages (capacity : Nat) (env : Env) (found : List (Str × Str)) :
    ∀ (n : Nat) (lg : ChatLogger), QueuesBounded capacity lg →
      QueuesBounded capacity (loadMessages env found n lg) := by
  induction found with
  | nil => intro n lg h; exact h
  | cons m rest ih =>
    intro n lg h
    unfold loadMessages
    split
    · exact ih n lg h
    · split
      · exact ih _ _ (queuesBounded_addMessage capacity lg _ _ _ h)
      · exact ih _ _ h

theorem queuesBounded_loadFromJson (capacity : Nat) (env : Env) (sys : Sys)
    (h : QueuesBounded capacity sys.logger) :
    QueuesBounded capacity (loadFromJson env sys).logger := by
  unfold loadFromJson
  split
  · exact h
  · exact queuesBounded_loadMessages capacity env _ 0 _
      (queuesBounded_loadUsers capacity _ _ h)

theorem queuesBounded_new (env : Env) (capacity : Nat) (dir : Str) (fs : Files) :
    QueuesBounded capacity (ChatLogger.new env capacity dir fs).logger := by
  unfold ChatLogger.new
  apply queuesBounded_loadFromJson
  exact ⟨rfl, fun key q hq => by simp [findQueue] at hq⟩

theorem queuesBounded_logMessage (capacity : Nat) (env : Env) (sys : Sys) (key message : Str)
    (h : QueuesBounded capacity sys.logger) :
    QueuesBounded capacity (logMessage env sys key message).logger := by
  have h1 := queuesBounded_addMessage capacity (sys.logger.ensureQueue key) key (env.clock 0)
    message (queuesBounded_ensureQueue capacity sys.logger key h)
  unfold logMessage
  simp only
  split
  · exact queuesBounded_clear capacity _ key h1
  · rw [saveToJson_logger]
    exact h1

theorem queuesBounded_apply (capacity : Nat) (env : Env) (sys : Sys) (op : Op)
    (h : QueuesBounded capacity sys.logger) : QueuesBounded capacity (op.apply env sys).logger := by
  cases op with
  | logMessage username message => exact queuesBounded_logMessage capacity env sys _ _ h
  | clearUserMessages username =>
    simp only [Op.apply, clearUserMessages]
    split
    · exact queuesBounded_clear capacity sys.logger username h
    · exact h
  | clearAllData =>
    simp only [Op.apply, clearAllData, saveToJson_logger]
    exact ⟨h.1, fun key q hq => by simp [findQueue] at hq⟩
  | writeUserToFile username =>
    simp only [Op.apply, writeUserToFile]
    split
    · exact h
    · exact h
  | writeAllToFiles => exact h

theorem queuesBounded_runOps (capacity : Nat) (script : List (Env × Op)) :
    ∀ sys : Sys, QueuesBounded capacity sys.logger →
      QueuesBounded capacity (runOps script sys).logger := by
  induction script with
  | nil => intro sys h; exact h
  | cons step rest ih =>
    intro sys h
    obtain ⟨env, op⟩ := step
    exact ih _ (queuesBounded_apply capacity env sys op h)

/-- C8. For every capacity, log directory and set of files (so for every
content of the snapshot file that the constructor loads), and for every
sequence of `logMessage`, `clearUserMessages`, `clearAllData`, `writeUserToFile`
and `writeAllToFiles` calls, each in surroundings of its own: in the state
reached, the queue of every key holds at most `capacity` entries, as counted by
`getUserMessageCount` and as returned by `getUserMessages`. -/
theorem capacity_invariant (env0 : Env) (capacity : Nat) (dir : Str) (fs : Files)
    (script : List (Env × Op)) (key : Str) :
    getUserMessageCount (runOps script (ChatLogger.new env0 capacity dir fs)).logger key
      ≤ capacity ∧
    (getUserMessages (runOps script (ChatLogger.new env0 capacity dir fs)).logger key).length
      ≤ capacity := by
  have h := queuesBounded_runOps capacity script _ (queuesBounded_new env0 capacity dir fs)
  have hq : (queueOr (runOps script (ChatLogger.new env0 capacity dir fs)).logger
      key).messages.length ≤ capacity := by
    unfold queueOr
    cases hf : findQueue (runOps script (ChatLogger.new env0 capacity dir fs)).logger.userQueues
      key with
    | none => exact Nat.zero_le _
    | some q => exact (h.2 key q hf).2
  rw [getUserMessageCount_eq, getUserMessages_eq]
  exact ⟨hq, hq⟩

/-! ## The handler of `/api/send`, and the snapshot after a rotation -/

/-- C9. The handler of `/api/send`, for every body, surroundings and state:
when the extracted `username` and `message` are both non-empty, it returns the
success text and the state is that of `logMessage` for them, in which the queue
of that user ends with the new entry unless the call has just rotated it; when
either is empty, it returns the failure text and the state, files included, is
unchanged. -/
theorem sendHandler_spec (env : Env) (body : Str) (sys : Sys) :
    (parseJson body "username".toList ≠ [] ∧ parseJson body "message".toList ≠ [] →
      sendHandler env body sys =
        (sendSuccess,
          logMessage env sys (parseJson body "username".toList)
            (parseJson body "message".toList)) ∧
      findQueue (sendHandler env body sys).2.logger.userQueues
          (parseJson body "username".toList) =
        some (if ((queueOr sys.logger (parseJson body "username".toList)).addMessage
                  (env.clock 0) (parseJson body "message".toList)).size
                ≥ sys.logger.maxMessagesPerUser
              then ((queueOr sys.logger (parseJson body "username".toList)).addMessage
                  (env.clock 0) (parseJson body "message".toList)).clear
              else (queueOr sys.logger (parseJson body "username".toList)).addMessage
                  (env.clock 0) (parseJson body "message".toList))) ∧
    (parseJson body "username".toList = [] ∨ parseJson body "message".toList = [] →
      sendHandler env body sys = (sendFailure, sys)) := by
  constructor
  · rintro ⟨hu, hm⟩
    have h : sendHandler env body sys =
        (sendSuccess,
          logMessage env sys (parseJson body "username".toList)
            (parseJson body "message".toList)) := by
      unfold sendHandler
      cases hu2 : parseJson body "username".toList with
      | nil => exact absurd hu2 hu
      | cons a as =>
        cases hm2 : parseJson body "message".toList with
        | nil => exact absurd hm2 hm
        | cons b bs => simp [hu2, hm2]
    refine ⟨h, ?_⟩
    rw [h]
    exact logMessage_find_same env sys _ _
  · intro h
    unfold sendHandler
    rcases h with h | h
    · rw [h]; rfl
    · rw [h]
      cases parseJson body "username".toList <;> rfl

/-- Witness of C9: a body with both fields, and a body without `message`. -/
theorem sendHandler_spec_witness :
    (parseJson "\x7b\"username\":\"al\",\"message\":\"hi\"\x7d\n".toList "username".toList ≠ [] ∧
      parseJson "\x7b\"username\":\"al\",\"message\":\"hi\"\x7d\n".toList "message".toList ≠ []) ∧
    sendHandler (sampleEnv 0) "\x7b\"username\":\"al\",\"message\":\"hi\"\x7d\n".toList
        (emptySys 3) =
      (sendSuccess,
        logMessage (sampleEnv 0) (emptySys 3)
          (parseJson "\x7b\"username\":\"al\",\"message\":\"hi\"\x7d\n".toList "username".toList)
          (parseJson "\x7b\"username\":\"al\",\"message\":\"hi\"\x7d\n".toList
            "message".toList)) ∧
    getUserMessages
        (sendHandler (sampleEnv 0) "\x7b\"username\":\"al\",\"message\":\"hi\"\x7d\n".toList
          (emptySys 3)).2.logger "al".toList = [⟨"al".toList, "hi".toList, 0⟩] ∧
    (parseJson "\x7b\"username\":\"al\"\x7d\n".toList "username".toList = [] ∨
      parseJson "\x7b\"username\":\"al\"\x7d\n".toList "message".toList = []) ∧
    sendHandler (sampleEnv 0) "\x7b\"username\":\"al\"\x7d\n".toList (emptySys 3) =
      (sendFailure, emptySys 3) :=
  ⟨by decide!,
    ((sendHandler_spec (sampleEnv 0) "\x7b\"username\":\"al\",\"message\":\"hi\"\x7d\n".toList
      (emptySys 3)).1 (by decide!)).1,
    by decide!,
    by decide!,
    (sendHandler_spec (sampleEnv 0) "\x7b\"username\":\"al\"\x7d\n".toList (emptySys 3)).2
      (by decide!)⟩

/-- C10 (the code at the failing input). Capacity 1, every file opening: after
the completed `logMessage` for `alice` with `hi`, the snapshot file lists the
entry, `getUserMessages` for `alice` returns the empty sequence, and the entry
is in the rotation file. -/
theorem snapshot_lists_rotated_entry :
    readFile (logMessage (sampleEnv 0) (emptySys 1) "alice".toList "hi".toList).files
        "logs/chat_data.json".toList =
      some ("\x7b\n  \"users\": [\n    \x7b\n      \"username\": \"alice\",\n"
        ++ "      \"messages\": [\n"
        ++ "        \x7b\"username\":\"alice\",\"content\":\"hi\",\"timestamp\":0\x7d"
        ++ "\n      ]\n    \x7d\n  ]\n\x7d").toList ∧
    (readFile (logMessage (sampleEnv 0) (emptySys 1) "alice".toList "hi".toList).files
        "logs/chat_data.json".toList).map listedMessages =
      some [⟨"alice".toList, "hi".toList, 0⟩] ∧
    getUserMessages (logMessage (sampleEnv 0) (emptySys 1) "alice".toList "hi".toList).logger
      "alice".toList = [] ∧
    readFile (logMessage (sampleEnv 0) (emptySys 1) "alice".toList "hi".toList).files
        "logs/alice_0.log".toList =
      some ("=== Chat Log for User: alice ===\nGenerated at: 0\nTotal messages: 1\n"
        ++ "========================================\n\n"
        ++ "[0] alice: hi\n"
        ++ "\n=== End of Log ===\n").toList := by
  refine ⟨?_, ?_, ?_, ?_⟩
  · decide!
  · decide!
  · decide!
  · decide!

/-! ## `clearUserMessages` and the snapshot -/

/-- C11 (the code at the failing input). Capacity 3, every file opening:
after `logMessage` for `alice` with `hi` and for `bob` with `yo`,
`clearUserMessages` for `alice` empties the queue of `alice`, leaves the queue
of `bob` and the files as they were and writes no rotation file, and the
snapshot file, which is not rewritten, still lists the entry of `alice`. -/
theorem clearUserMessages_keeps_snapshot :
    getUserMessages
        (clearUserMessages
          (logMessage (sampleEnv 1) (logMessage (sampleEnv 0) (emptySys 3) "alice".toList
            "hi".toList) "bob".toList "yo".toList) "alice".toList).logger "alice".toList = [] ∧
    getUserMessages
        (clearUserMessages
          (logMessage (sampleEnv 1) (logMessage (sampleEnv 0) (emptySys 3) "alice".toList
            "hi".toList) "bob".toList "yo".toList) "alice".toList).logger "bob".toList =
      [⟨"bob".toList, "yo".toList, 1⟩] ∧
    rotationFiles
        (clearUserMessages
          (logMessage (sampleEnv 1) (logMessage (sampleEnv 0) (emptySys 3) "alice".toList
            "hi".toList) "bob".toList "yo".toList) "alice".toList) = [] ∧
    (readFile
        (clearUserMessages
          (logMessage (sampleEnv 1) (logMessage (sampleEnv 0) (emptySys 3) "alice".toList
            "hi".toList) "bob".toList "yo".toList) "alice".toList).files
        "logs/chat_data.json".toList).map listedMessages =
      some [⟨"alice".toList, "hi".toList, 0⟩, ⟨"bob".toList, "yo".toList, 0⟩] := by
  refine ⟨?_, ?_, ?_, ?_⟩
  · decide!
  · decide!
  · decide!
  · decide!

/-! ## Decimal numerals -/

theorem decimal_foldl (ds : Str) (a : Nat) :
    ds.foldl (fun acc c => acc * 10 + (c.toNat - 48)) a =
      a * 10 ^ ds.length + ds.foldl (fun acc c => acc * 10 + (c.toNat - 48)) 0 := by
  induction ds generalizing a with
  | nil => simp
  | cons d ds ih =>
    simp only [List.foldl_cons, List.length_cons]
    rw [ih (a * 10 + (d.toNat - 48)), ih (0 * 10 + (d.toNat - 48))]
    ring

theorem digitChar_value (k : Nat) (h : k < 10) : (Nat.digitChar k).toNat - 48 = k := by
  interval_cases k <;> decide

theorem decimalValue_toDigitsCore (fuel : Nat) :
    ∀ (n : Nat) (ds : Str), n < fuel →
      decimalValue (Nat.toDigitsCore 10 fuel n ds) = n * 10 ^ ds.length + decimalValue ds := by
  induction fuel with
  | zero => intro n ds h; omega
  | succ fuel ih =>
    intro n ds h
    unfold Nat.toDigitsCore
    simp only
    split
    · rename_i h0
      have hn : n % 10 = n := by omega
      unfold decimalValue
      rw [List.foldl_cons, decimal_foldl, digitChar_value _ (Nat.mod_lt _ (by decide)), hn]
      ring
    · rename_i h0
      rw [ih (n / 10) _ (by omega)]
      unfold decimalValue
      rw [List.foldl_cons, decimal_foldl ds, digitChar_value _ (Nat.mod_lt _ (by decide))]
      simp only [List.length_cons]
      have hn : n = 10 * (n / 10) + n % 10 := (Nat.div_add_mod n 10).symm
      generalize n / 10 = a at hn ⊢
      generalize n % 10 = b at hn ⊢
      subst hn
      ring

theorem decimalValue_showNat (n : Nat) : decimalValue (showNat n) = n := by
  unfold showNat Nat.toDigits
  rw [decimalValue_toDigitsCore (n + 1) n [] (by omega)]
  simp [decimalValue]

/-! ## The response text -/

/-- C14. For code 200 and for code 404, `createHttpResponse` gives exactly the
status line `HTTP/1.1 200 OK` or `HTTP/1.1 404 Not Found`, the `Content-Type`
line with the given type, the `Content-Length` line with the decimal length of
the content, the line `Connection: close`, each ended by CRLF, then an empty
CRLF line, then the content unchanged; and the number printed in the
`Content-Length` line reads back as the length of the content. -/
theorem createHttpResponse_format (content contentType : Str) :
    createHttpResponse content contentType 200 =
      "HTTP/1.1 200 OK\r\n".toList
        ++ ("Content-Type: ".toList ++ contentType ++ "\r\n".toList)
        ++ ("Content-Length: ".toList ++ showNat content.length ++ "\r\n".toList)
        ++ "Connection: close\r\n".toList
        ++ "\r\n".toList
        ++ content ∧
    createHttpResponse content contentType 404 =
      "HTTP/1.1 404 Not Found\r\n".toList
        ++ ("Content-Type: ".toList ++ contentType ++ "\r\n".toList)
        ++ ("Content-Length: ".toList ++ showNat content.length ++ "\r\n".toList)
        ++ "Connection: close\r\n".toList
        ++ "\r\n".toList
        ++ content ∧
    decimalValue (showNat content.length) = content.length := by
  refine ⟨?_, ?_, decimalValue_showNat _⟩
  · have h : showInt 200 = "200".toList := by decide
    simp [createHttpResponse, h]
  · have h : showInt 404 = "404".toList := by decide
    simp [createHttpResponse, h]

/-! ## Loading a snapshot that holds fragments which do not parse -/

theorem loadMessages_skip (env : Env) (before after : List (Str × Str)) (bad : Str × Str)
    (hbad : Message.fromJson bad.1 = none) :
    ∀ (n : Nat) (lg : ChatLogger),
      loadMessages env (before ++ bad :: after) n lg = loadMessages env (before ++ after) n lg := by
  induction before with
  | nil =>
    intro n lg
    simp only [List.nil_append]
    rw [loadMessages, hbad]
  | cons m rest ih =>
    intro n lg
    simp only [List.cons_append]
    rw [loadMessages, loadMessages]
    split
    · exact ih n lg
    · split
      · exact ih _ _
      · exact ih _ _

theorem fromJson_eq_none_iff (json : Str) :
    Message.fromJson json = none ↔
      ∃ r, regexSearch timestamp_regex json = some r ∧ 2 ^ 63 - 1 < decimalValue r.2 := by
  unfold Message.fromJson
  cases h : regexSearch timestamp_regex json with
  | none => simp
  | some r =>
    simp only [stoll, Option.some.injEq, exists_eq_left']
    by_cases hv : decimalValue r.2 ≤ 2 ^ 63 - 1
    · have hv2 := hv
      unfold decimalValue at hv2
      simp only [hv2, if_true]
      constructor
      · intro hc; cases hc
      · intro hc; omega
    · have hv2 := hv
      unfold decimalValue at hv2
      simp only [hv2, if_false]
      constructor
      · intro _; omega
      · intro _; trivial

/-- C20. `loadFromJson` is a total function of the surroundings and the state:
for every content of the snapshot file it returns a state, with the files,
the capacity and the log directory it was given.  `Message::fromJson` raises
an error exactly when the digits after `"timestamp":` exceed the largest signed
64-bit integer, and the loop over the fragments skips a fragment on which it
raises: the fragments before and after it are loaded as if it were absent. -/
theorem loadFromJson_never_aborts (env : Env) (sys : Sys) (before after : List (Str × Str))
    (bad : Str × Str) (n : Nat) (lg : ChatLogger)
    (hbad : ∃ r, regexSearch timestamp_regex bad.1 = some r ∧ 2 ^ 63 - 1 < decimalValue r.2) :
    (loadFromJson env sys).files = sys.files ∧
    (loadFromJson env sys).logger.maxMessagesPerUser = sys.logger.maxMessagesPerUser ∧
    (loadFromJson env sys).logger.logDirectory = sys.logger.logDirectory ∧
    Message.fromJson bad.1 = none ∧
    loadMessages env (before ++ bad :: after) n lg = loadMessages env (before ++ after) n lg := by
  have hnone := (fromJson_eq_none_iff bad.1).2 hbad
  have hmax : ∀ (found : List (Str × Str)) (k : Nat) (l : ChatLogger),
      (loadMessages env found k l).maxMessagesPerUser = l.maxMessagesPerUser ∧
      (loadMessages env found k l).logDirectory = l.logDirectory := by
    intro found
    induction found with
    | nil => intro k l; exact ⟨rfl, rfl⟩
    | cons m rest ih =>
      intro k l
      rw [loadMessages]
      split
      · exact ih k l
      · split
        · exact ih _ _
        · exact ih _ _
  have husers : ∀ (found : List (Str × Str)) (l : ChatLogger),
      (loadUsers found l).maxMessagesPerUser = l.maxMessagesPerUser ∧
      (loadUsers found l).logDirectory = l.logDirectory := by
    intro found
    induction found with
    | nil => intro l; exact ⟨rfl, rfl⟩
    | cons m rest ih =>
      intro l
      rw [loadUsers]
      exact ⟨(ih _).1.trans (ensureQueue_max l m.2), (ih _).2.trans (ensureQueue_dir l m.2)⟩
  refine ⟨?_, ?_, ?_, hnone, loadMessages_skip env before after bad hnone n lg⟩
  · unfold loadFromJson
    split <;> rfl
  · unfold loadFromJson
    split
    · rfl
    · exact (hmax _ _ _).1.trans (husers _ _).1
  · unfold loadFromJson
    split
    · rfl
    · exact (hmax _ _ _).2.trans (husers _ _).2

/-- Witness of C20: three fragments for `alice`, the second with a timestamp of
twenty digits; a logger constructed on the snapshot holding them has the first
and the third entry. -/
theorem loadFromJson_never_aborts_witness :
    (∃ r, regexSearch timestamp_regex
        ("\x7b\"username\":\"alice\",\"content\":\"b\",\"timestamp\":99999999999999999999\x7d".toList,
          ([] : Str)).1 = some r ∧ 2 ^ 63 - 1 < decimalValue r.2) ∧
    loadMessages (sampleEnv 0)
        ([("\x7b\"username\":\"alice\",\"content\":\"a\",\"timestamp\":1\x7d".toList, [])]
          ++ ("\x7b\"username\":\"alice\",\"content\":\"b\",\"timestamp\":99999999999999999999\x7d".toList,
              [])
            :: [("\x7b\"username\":\"alice\",\"content\":\"c\",\"timestamp\":3\x7d".toList, [])])
        0 ((emptySys 5).logger.ensureQueue "alice".toList) =
      loadMessages (sampleEnv 0)
        ([("\x7b\"username\":\"alice\",\"content\":\"a\",\"timestamp\":1\x7d".toList, [])]
          ++ [("\x7b\"username\":\"alice\",\"content\":\"c\",\"timestamp\":3\x7d".toList, [])])
        0 ((emptySys 5).logger.ensureQueue "alice".toList) ∧
    getUserMessages
        (ChatLogger.new (sampleEnv 0) 5 "logs".toList
          [("logs/chat_data.json".toList,
            ("\x7b\"users\":[\x7b\"username\": \"alice\",\"messages\":["
              ++ "\x7b\"username\":\"alice\",\"content\":\"a\",\"timestamp\":1\x7d,"
              ++ "\x7b\"username\":\"alice\",\"content\":\"b\",\"timestamp\":99999999999999999999\x7d,"
              ++ "\x7b\"username\":\"alice\",\"content\":\"c\",\"timestamp\":3\x7d]\x7d]\x7d").toList)]).logger
        "alice".toList =
      [⟨"alice".toList, "a".toList, 1⟩, ⟨"alice".toList, "c".toList, 3⟩] :=
  ⟨⟨_, rfl, by decide⟩,
    (loadFromJson_never_aborts (sampleEnv 0) (emptySys 5)
      [("\x7b\"username\":\"alice\",\"content\":\"a\",\"timestamp\":1\x7d".toList, [])]
      [("\x7b\"username\":\"alice\",\"content\":\"c\",\"timestamp\":3\x7d".toList, [])]
      ("\x7b\"username\":\"alice\",\"content\":\"b\",\"timestamp\":99999999999999999999\x7d".toList,
        [])
      0 ((emptySys 5).logger.ensureQueue "alice".toList) ⟨_, rfl, by decide⟩).2.2.2.2,
    by decide!⟩

/-! ## Searching a text, and `parseJson` -/

theorem findFirst_some (pat : Str) :
    ∀ (s : Str) (i : Nat), findFirst pat s = some i →
      pat <+: s.drop i ∧ i ≤ s.length ∧ ∀ j, j < i → ¬ pat <+: s.drop j := by
  intro s
  induction s with
  | nil =>
    intro i h
    unfold findFirst at h
    split at h
    · rename_i hp
      simp only [Option.some.injEq] at h
      subst h
      subst hp
      simp
    · cases h
  | cons c t ih =>
    intro i h
    unfold findFirst at h
    split at h
    · rename_i hp
      simp only [Option.some.injEq] at h
      subst h
      refine ⟨?_, Nat.zero_le _, fun j hj => absurd hj (Nat.not_lt_zero j)⟩
      simpa using List.isPrefixOf_iff_prefix.1 hp
    · rename_i hp
      cases hf : findFirst pat t with
      | none => simp [hf] at h
      | some k =>
        simp only [hf, Option.map_some', Option.some.injEq] at h
        subst h
        obtain ⟨h1, h2, h3⟩ := ih k hf
        refine ⟨by simpa using h1, by simp only [List.length_cons]; omega, ?_⟩
        intro j hj
        cases j with
        | zero =>
          intro hpre
          exact hp (List.isPrefixOf_iff_prefix.2 (by simpa using hpre))
        | succ j =>
          simpa using h3 j (by omega)

theorem findFirst_none (pat : Str) :
    ∀ s : Str, findFirst pat s = none → ∀ j, j ≤ s.length → ¬ pat <+: s.drop j := by
  intro s
  induction s with
  | nil =>
    intro h j _
    unfold findFirst at h
    split at h
    · cases h
    · rename_i hp
      simp only [List.drop_nil, List.prefix_nil]
      exact hp
  | cons c t ih =>
    intro h j hj
    unfold findFirst at h
    split at h
    · cases h
    · rename_i hp
      cases hf : findFirst pat t with
      | some k => simp [hf] at h
      | none =>
        cases j with
        | zero =>
          intro hpre
          exact hp (List.isPrefixOf_iff_prefix.2 (by simpa using hpre))
        | succ j =>
          simp only [List.length_cons] at hj
          simpa using ih hf j (by omega)

theorem findFirst_of_first_occurrence (pat pre rest : Str)
    (hfirst : ∀ j, j < pre.length → ¬ pat <+: (pre ++ pat ++ rest).drop j) :
    findFirst pat (pre ++ pat ++ rest) = some pre.length := by
  have hocc : pat <+: (pre ++ pat ++ rest).drop pre.length := by
    simp [List.append_assoc]
  cases hf : findFirst pat (pre ++ pat ++ rest) with
  | none =>
    exact absurd hocc
      (findFirst_none pat _ hf pre.length (by simp only [List.length_append]; omega))
  | some i =>
    obtain ⟨h1, _, h3⟩ := findFirst_some pat _ i hf
    have hle : ¬ i < pre.length := fun hlt => hfirst i hlt h1
    have hge : ¬ pre.length < i := fun hlt => h3 pre.length hlt hocc
    congr 1
    omega

theorem findFirst_char (c : Char) :
    ∀ t : Str, findFirst [c] t =
      if c ∈ t then some (t.takeWhile (fun x => x != c)).length else none := by
  intro t
  induction t with
  | nil => simp [findFirst]
  | cons x xs ih =>
    unfold findFirst
    by_cases hx : c = x
    · subst hx
      simp [List.isPrefixOf]
    · have hx2 : ¬ x = c := fun e => hx e.symm
      simp only [List.isPrefixOf, beq_iff_eq, hx, false_and, Bool.false_eq_true, if_false, ih,
        List.mem_cons, false_or]
      have hb : (x != c) = true := by simpa using hx2
      by_cases hm : c ∈ xs
      · simp [hm, List.takeWhile_cons, hb, hx]
      · simp [hm, hx]

theorem take_takeWhile_length (p : Char → Bool) (t : Str) :
    t.take (t.takeWhile p).length = t.takeWhile p := by
  induction t with
  | nil => rfl
  | cons x xs ih =>
    by_cases hp : p x
    · simp [List.takeWhile, hp, ih]
    · simp [List.takeWhile, hp]

theorem takeWhile_of_not_mem (c : Char) (t : Str) (h : c ∉ t) :
    t.takeWhile (fun x => x != c) = t := by
  induction t with
  | nil => rfl
  | cons x xs ih =>
    simp only [List.mem_cons, not_or] at h
    have hx : ¬ x = c := fun e => h.1 e.symm
    have hb : (x != c) = true := by simpa using hx
    simp [List.takeWhile_cons, hb, ih h.2]

theorem substr_to_quote (s : Str) (pos : Nat) (hpos : pos ≤ s.length) :
    substr s pos
        ((match strFind s "\"".toList pos with
          | some e => e
          | none => s.length) - pos) =
      (s.drop pos).takeWhile (fun x => x != '"') := by
  have hq : "\"".toList = ['"'] := rfl
  unfold strFind substr
  rw [if_neg (by omega), hq, findFirst_char]
  by_cases hm : '"' ∈ s.drop pos
  · simp only [hm, if_true, Option.map_some', Nat.add_sub_cancel]
    exact take_takeWhile_length _ _
  · simp only [hm, if_false, Option.map_none']
    rw [takeWhile_of_not_mem _ _ hm]
    apply List.take_of_length_le
    simp

theorem parseJson_of_find (body field : Str) (i : Nat)
    (h : findFirst ("\"".toList ++ field ++ "\":\"".toList) body = some i) :
    parseJson body field =
      (body.drop (i + ("\"".toList ++ field ++ "\":\"".toList).length)).takeWhile
        (fun x => x != '"') := by
  obtain ⟨h1, h2, _⟩ := findFirst_some _ _ _ h
  have hlen : i + ("\"".toList ++ field ++ "\":\"".toList).length ≤ body.length := by
    have := h1.length_le
    simp only [List.length_drop] at this
    omega
  unfold parseJson
  simp only [strFind, Nat.not_lt_zero, if_false, List.drop_zero, h, Option.map_some',
    Nat.add_zero, gt_iff_lt]
  exact substr_to_quote body _ hlen

theorem parseJson_of_not_found (body field : Str)
    (h : findFirst ("\"".toList ++ field ++ "\":\"".toList) body = none) :
    parseJson body field = [] := by
  unfold parseJson
  simp only [strFind, Nat.not_lt_zero, if_false, List.drop_zero, h, Option.map_none',
    gt_iff_lt]

/-- C18. With `pat` the text `"field":"`: when `body` is `pre ++ pat ++ rest`
and `pat` occurs at no position before the end of `pre`, `parseJson body field`
is `rest` up to, and without, its first double quote, and all of `rest` when it
has none; when `pat` does not occur in `body`, the result is empty; and the
result never contains a double quote. -/
theorem parseJson_spec (body field : Str) :
    (∀ pre rest : Str, body = pre ++ ("\"".toList ++ field ++ "\":\"".toList) ++ rest →
      (∀ j, j < pre.length → ¬ ("\"".toList ++ field ++ "\":\"".toList) <+: body.drop j) →
      parseJson body field = rest.takeWhile (fun x => x != '"')) ∧
    (¬ ("\"".toList ++ field ++ "\":\"".toList) <:+: body → parseJson body field = []) ∧
    '"' ∉ parseJson body field := by
  refine ⟨?_, ?_, ?_⟩
  · intro pre rest hbody hfirst
    subst hbody
    have hf := findFirst_of_first_occurrence _ pre rest hfirst
    rw [parseJson_of_find _ _ _ hf]
    congr 1
    simp [List.append_assoc]
  · intro hno
    cases hf : findFirst ("\"".toList ++ field ++ "\":\"".toList) body with
    | none => exact parseJson_of_not_found body field hf
    | some i =>
      obtain ⟨h1, _, _⟩ := findFirst_some _ _ _ hf
      exfalso
      apply hno
      obtain ⟨t, ht⟩ := h1
      refine ⟨body.take i, t, ?_⟩
      rw [List.append_assoc, ht, List.take_append_drop]
  · cases hf : findFirst ("\"".toList ++ field ++ "\":\"".toList) body with
    | none => rw [parseJson_of_not_found body field hf]; simp
    | some i =>
      rw [parseJson_of_find body field i hf]
      intro hmem
      have := List.mem_takeWhile_imp hmem
      simp at this

/-- Witness of C18: the `username` and `message` fields of a body, a field
whose value runs to the end of the body, and a field that does not occur. -/
theorem parseJson_spec_witness :
    parseJson "\x7b\"username\":\"al\",\"message\":\"hi\"\x7d".toList "username".toList =
      ("al\",\"message\":\"hi\"\x7d".toList).takeWhile (fun x => x != '"') ∧
    parseJson "\x7b\"username\":\"al\",\"message\":\"hi\"\x7d".toList "username".toList =
      "al".toList ∧
    parseJson "\x7b\"message\":\"hi there".toList "message".toList = "hi there".toList ∧
    parseJson "\x7b\"username\":\"al\"\x7d".toList "message".toList = [] :=
  ⟨(parseJson_spec "\x7b\"username\":\"al\",\"message\":\"hi\"\x7d".toList "username".toList).1
      "\x7b".toList "al\",\"message\":\"hi\"\x7d".toList rfl (by decide),
    by decide!, by decide!,
    (parseJson_spec "\x7b\"username\":\"al\"\x7d".toList "message".toList).2.1 (by decide!)⟩

/-! ## Lines, and the parts of a request -/

theorem getlinesFrom_head (s : Str) :
    ∀ cur : Str, (getlinesFrom cur s).headD [] = cur ++ s.takeWhile (fun c => c != '\n') := by
  induction s with
  | nil =>
    intro cur
    unfold getlinesFrom
    by_cases h : cur = []
    · simp [h]
    · simp [h]
  | cons c t ih =>
    intro cur
    unfold getlinesFrom
    by_cases h : c = '\n'
    · simp [h]
    · have hb : (c != '\n') = true := by simpa using h
      simp only [h, if_false, ih, List.takeWhile_cons, hb, if_true, List.append_assoc,
        List.singleton_append]

theorem getlinesFrom_tail (s : Str) :
    ∀ cur : Str, (getlinesFrom cur s).tail =
      getlinesFrom [] (s.dropWhile (fun c => c != '\n')).tail := by
  induction s with
  | nil =>
    intro cur
    unfold getlinesFrom
    by_cases h : cur = []
    · simp [h]
    · simp [h, getlinesFrom]
  | cons c t ih =>
    intro cur
    by_cases h : c = '\n'
    · subst h
      simp [getlinesFrom]
    · have hb : (c != '\n') = true := by simpa using h
      rw [getlinesFrom, if_neg h, ih, List.dropWhile_cons, if_pos hb]

theorem parseRequest_eq (request : Str) :
    parseRequest request =
      ((readWord (requestLine request)).1, stripQuery (pathToken request),
        bodyOf (skipHeaders (getlines (afterRequestLine request)))) := by
  have hhead := getlinesFrom_head request []
  have htail := getlinesFrom_tail request []
  simp only [List.nil_append] at hhead
  unfold parseRequest pathToken requestLine afterRequestLine getlines
  cases hl : getlinesFrom [] request with
  | nil =>
    rw [hl] at hhead htail
    simp only [List.headD_nil, List.tail_nil] at hhead htail
    rw [← hhead, ← htail]
    rfl
  | cons line rest =>
    rw [hl] at hhead htail
    simp only [List.headD_cons, List.tail_cons] at hhead htail
    rw [← hhead, ← htail]

theorem stripQuery_eq (path : Str) : stripQuery path = path.takeWhile (fun c => c != '?') := by
  unfold stripQuery strFind substr
  rw [if_neg (by omega), findFirst_char]
  by_cases hm : '?' ∈ path
  · simp only [List.drop_zero, hm, if_true, Option.map_some', Nat.add_zero]
    exact take_takeWhile_length _ _
  · simp only [List.drop_zero, hm, if_false, Option.map_none']
    exact (takeWhile_of_not_mem _ _ hm).symm

theorem findRoute_eq_entry (routes : List (Str × Handler)) (path : Str) :
    findRoute routes path = (findRouteEntry routes path).map Prod.snd := by
  induction routes with
  | nil => rfl
  | cons e rest ih =>
    obtain ⟨p, h⟩ := e
    by_cases hp : p = path
    · simp [findRoute, findRouteEntry, hp]
    · simp [findRoute, findRouteEntry, hp, ih]

theorem findRouteEntry_some (routes : List (Str × Handler)) (path : Str) (e : Str × Handler)
    (h : findRouteEntry routes path = some e) : e.1 = path ∧ e ∈ routes := by
  induction routes with
  | nil => simp [findRouteEntry] at h
  | cons r rest ih =>
    obtain ⟨p, hd⟩ := r
    by_cases hp : p = path
    · simp only [findRouteEntry, hp, if_true, Option.some.injEq] at h
      subst h
      exact ⟨rfl, by simp [hp]⟩
    · simp only [findRouteEntry, hp, if_false] at h
      exact ⟨(ih h).1, List.mem_cons_of_mem _ (ih h).2⟩

theorem findRouteEntry_none (routes : List (Str × Handler)) (path : Str) :
    findRouteEntry routes path = none ↔ ∀ e ∈ routes, e.1 ≠ path := by
  induction routes with
  | nil => simp [findRouteEntry]
  | cons r rest ih =>
    obtain ⟨p, hd⟩ := r
    by_cases hp : p = path
    · simp only [findRouteEntry, hp, if_true]
      constructor
      · intro h; cases h
      · intro h
        exact absurd rfl (h (path, hd) (List.mem_cons_self _ _))
    · simp only [findRouteEntry, hp, if_false, ih]
      constructor
      · intro h e he
        rcases List.mem_cons.1 he with h1 | h1
        · subst h1; exact hp
        · exact h e h1
      · intro h e he
        exact h e (List.mem_cons_of_mem _ he)

theorem findRouteEntry_of_mem (routes : List (Str × Handler)) (e : Str × Handler)
    (hnodup : (routes.map Prod.fst).Nodup) (hmem : e ∈ routes) :
    findRouteEntry routes e.1 = some e := by
  induction routes with
  | nil => simp at hmem
  | cons r rest ih =>
    obtain ⟨p, hd⟩ := r
    simp only [List.map_cons, List.nodup_cons] at hnodup
    rcases List.mem_cons.1 hmem with h | h
    · subst h
      simp [findRouteEntry]
    · have hp : ¬ p = e.1 := by
        intro hpe
        apply hnodup.1
        rw [hpe]
        exact List.mem_map_of_mem Prod.fst h
      simp only [findRouteEntry, hp, if_false]
      exact ih hnodup.2 h

/-- C15. For every route table, surroundings, state and received request, with
`path` the path token of the request line cut before its first `?`: the path
`parseRequest` yields is `path`; when `routes.find` points to an entry, the key
of that entry equals `path` character for character, its handler is run on the
body and the 200 response carries what it returns; when no key equals `path`
(be it a prefix or an extension of a registered path), the 404 response is
sent and the state is unchanged; and in a table with distinct keys the entry
registered under `p` is the one found if and only if `path` equals `p`. -/
theorem handleClient_dispatch (routes : List (Str × Handler)) (env : Env) (incoming : Str)
    (sys : Sys) (hrecv : incoming ≠ []) :
    (parseRequest (requestOf incoming)).2.1 =
      (pathToken (requestOf incoming)).takeWhile (fun c => c != '?') ∧
    (∀ e, findRouteEntry routes ((pathToken (requestOf incoming)).takeWhile (fun c => c != '?'))
        = some e →
      e.1 = (pathToken (requestOf incoming)).takeWhile (fun c => c != '?') ∧ e ∈ routes ∧
      handleClient routes env incoming sys =
        (some (createHttpResponse
            (e.2 env (parseRequest (requestOf incoming)).2.2 sys).1 "text/html".toList 200),
          (e.2 env (parseRequest (requestOf incoming)).2.2 sys).2)) ∧
    ((∀ e ∈ routes, e.1 ≠ (pathToken (requestOf incoming)).takeWhile (fun c => c != '?')) →
      findRouteEntry routes ((pathToken (requestOf incoming)).takeWhile (fun c => c != '?'))
        = none ∧
      handleClient routes env incoming sys =
        (some (createHttpResponse notFoundBody "text/html".toList 404), sys)) ∧
    (∀ e, (routes.map Prod.fst).Nodup → e ∈ routes →
      (findRouteEntry routes ((pathToken (requestOf incoming)).takeWhile (fun c => c != '?'))
          = some e ↔
        (pathToken (requestOf incoming)).takeWhile (fun c => c != '?') = e.1)) := by
  have hlen : ¬ (incoming.take 4095).length = 0 := by
    cases incoming with
    | nil => exact absurd rfl hrecv
    | cons c t => simp
  have hpath : (parseRequest (requestOf incoming)).2.1 =
      (pathToken (requestOf incoming)).takeWhile (fun c => c != '?') := by
    rw [parseRequest_eq, stripQuery_eq]
  refine ⟨hpath, ?_, ?_, ?_⟩
  · intro e he
    obtain ⟨h1, h2⟩ := findRouteEntry_some routes _ e he
    refine ⟨h1, h2, ?_⟩
    unfold handleClient
    rw [if_neg hlen]
    simp only [hpath, findRoute_eq_entry, he, Option.map_some']
  · intro hnone
    have hn := (findRouteEntry_none routes _).2 hnone
    refine ⟨hn, ?_⟩
    unfold handleClient
    rw [if_neg hlen]
    simp only [hpath, findRoute_eq_entry, hn, Option.map_none']
  · intro e hnodup hmem
    constructor
    · intro he
      exact (findRouteEntry_some routes _ e he).1.symm
    · intro hp
      rw [hp]
      exact findRouteEntry_of_mem routes e hnodup hmem

/-- Witness of C15: on a table with `/api/send` and `/api/clear`, a request for
`/api/send?x=1` is dispatched to the entry of `/api/send`, and requests for the
prefix `/api/sen` and for the extension `/api/send/x` get the 404 response. -/
theorem handleClient_dispatch_witness :
    "POST /api/send?x=1 HTTP/1.1\r\n\r\n".toList ≠ [] ∧
    (parseRequest (requestOf "POST /api/send?x=1 HTTP/1.1\r\n\r\n".toList)).2.1 =
      (pathToken (requestOf "POST /api/send?x=1 HTTP/1.1\r\n\r\n".toList)).takeWhile
        (fun c => c != '?') ∧
    (pathToken (requestOf "POST /api/send?x=1 HTTP/1.1\r\n\r\n".toList)).takeWhile
        (fun c => c != '?') = "/api/send".toList ∧
    handleClient [("/api/send".toList, sendHandler), ("/api/clear".toList, clearHandler)]
        (sampleEnv 0) "POST /api/send?x=1 HTTP/1.1\r\n\r\n".toList (emptySys 3) =
      (some (createHttpResponse sendFailure "text/html".toList 200), emptySys 3) ∧
    handleClient [("/api/send".toList, sendHandler), ("/api/clear".toList, clearHandler)]
        (sampleEnv 0) "POST /api/sen HTTP/1.1\r\n\r\n".toList (emptySys 3) =
      (some (createHttpResponse notFoundBody "text/html".toList 404), emptySys 3) ∧
    handleClient [("/api/send".toList, sendHandler), ("/api/clear".toList, clearHandler)]
        (sampleEnv 0) "POST /api/send/x HTTP/1.1\r\n\r\n".toList (emptySys 3) =
      (some (createHttpResponse notFoundBody "text/html".toList 404), emptySys 3) :=
  ⟨by decide,
    (handleClient_dispatch
      [("/api/send".toList, sendHandler), ("/api/clear".toList, clearHandler)] (sampleEnv 0)
      "POST /api/send?x=1 HTTP/1.1\r\n\r\n".toList (emptySys 3) (by decide)).1,
    by decide!, by decide!, by decide!, by decide!⟩

/-! ## The body of a request -/

theorem getLast?_ne_of_not_mem (c : Char) (s : Str) (h : c ∉ s) : s.getLast? ≠ some c := by
  intro hl
  exact h (List.mem_of_getLast?_eq_some hl)

theorem bodyOf_getlinesFrom (s : Str) :
    ∀ cur : Str, '\n' ∉ cur →
      bodyOf (getlinesFrom cur s) =
        (cur ++ s) ++ (if cur ++ s = [] ∨ (cur ++ s).getLast? = some '\n' then [] else ['\n']) := by
  induction s with
  | nil =>
    intro cur hcur
    unfold getlinesFrom
    by_cases h : cur = []
    · simp [h, bodyOf]
    · have hl := getLast?_ne_of_not_mem _ _ hcur
      simp [h, bodyOf, hl]
  | cons c t ih =>
    intro cur hcur
    unfold getlinesFrom
    by_cases h : c = '\n'
    · subst h
      have ih0 := ih [] (by simp)
      simp only [List.nil_append] at ih0
      simp only [if_true, bodyOf, ih0]
      by_cases ht : t = []
      · subst ht
        simp
      · have hlast : (cur ++ '\n' :: t).getLast? = t.getLast? := by
          rw [List.getLast?_append_of_ne_nil _ (by simp)]
          cases t with
          | nil => exact absurd rfl ht
          | cons x xs => rw [List.getLast?_cons_cons]
        simp [ht, hlast]
    · have hcur2 : '\n' ∉ cur ++ [c] := by
        simp only [List.mem_append, List.mem_singleton, not_or]
        exact ⟨hcur, fun e => h e.symm⟩
      simp only [h, if_false, ih (cur ++ [c]) hcur2, List.append_assoc, List.singleton_append]

theorem skipHeaders_getlinesFrom (s : Str) :
    ∀ cur : Str, skipHeaders (getlinesFrom cur s) = getlinesFrom [] (bytesAfterBlank cur s) := by
  induction s with
  | nil =>
    intro cur
    simp only [getlinesFrom, bytesAfterBlank]
    by_cases h : cur = []
    · simp [h, skipHeaders]
    · by_cases h2 : cur = ['\r']
      · simp [h2, skipHeaders]
      · simp [h, h2, skipHeaders]
  | cons c t ih =>
    intro cur
    simp only [getlinesFrom, bytesAfterBlank]
    by_cases h : c = '\n'
    · simp only [h, if_true, skipHeaders]
      by_cases h1 : cur = []
      · simp [h1]
      · by_cases h2 : cur = ['\r']
        · simp [h2]
        · simp [h1, h2, ih]
    · simp only [h, if_false, ih]

/-- C16 (amended). For every request text, the body `parseRequest` yields is
the bytes that remain after the first blank line ending the headers, followed
by one newline when those bytes are not empty and do not end in a newline; it
is empty when the text ends before a blank line. -/
theorem parseRequest_body (request : Str) :
    (parseRequest request).2.2 =
      bodyBytes request ++
        (if bodyBytes request = [] ∨ (bodyBytes request).getLast? = some '\n' then []
         else ['\n']) := by
  rw [parseRequest_eq]
  simp only
  unfold getlines
  rw [skipHeaders_getlinesFrom, bodyOf_getlinesFrom _ [] (by simp)]
  simp only [List.nil_append, bodyBytes]

/-- Counterexample to C16 as stated: for a request whose body does not end in a
newline, the body handed on has one byte more than the bytes after the blank
line. -/
theorem parseRequest_body_counterexample :
    bodyBytes "POST /api/send HTTP/1.1\r\nHost: a\r\n\r\n\x7b\"username\":\"al\"\x7d".toList =
      "\x7b\"username\":\"al\"\x7d".toList ∧
    (parseRequest
        "POST /api/send HTTP/1.1\r\nHost: a\r\n\r\n\x7b\"username\":\"al\"\x7d".toList).2.2 =
      "\x7b\"username\":\"al\"\x7d\n".toList ∧
    (parseRequest
        "POST /api/send HTTP/1.1\r\nHost: a\r\n\r\n\x7b\"username\":\"al\"\x7d".toList).2.2 ≠
      bodyBytes "POST /api/send HTTP/1.1\r\nHost: a\r\n\r\n\x7b\"username\":\"al\"\x7d".toList := by
  refine ⟨?_, ?_, ?_⟩
  · decide!
  · decide!
  · decide!

/-! ## The method token -/

theorem takeWhile_append_all (p : Char → Bool) (a b : Str) (h : ∀ x ∈ a, p x = true) :
    (a ++ b).takeWhile p = a ++ b.takeWhile p := by
  induction a with
  | nil => rfl
  | cons x xs ih =>
    have hx : p x = true := h x (List.mem_cons_self _ _)
    simp only [List.cons_append, List.takeWhile_cons, hx, if_true]
    rw [ih (fun y hy => h y (List.mem_cons_of_mem _ hy))]

theorem dropWhile_append_all (p : Char → Bool) (a b : Str) (h : ∀ x ∈ a, p x = true) :
    (a ++ b).dropWhile p = b.dropWhile p := by
  induction a with
  | nil => rfl
  | cons x xs ih =>
    have hx : p x = true := h x (List.mem_cons_self _ _)
    simp only [List.cons_append, List.dropWhile_cons, hx, if_true]
    exact ih (fun y hy => h y (List.mem_cons_of_mem _ hy))

theorem takeWhile_head_false (p : Char → Bool) (s : Str)
    (h : ∀ c, s.head? = some c → p c = false) : s.takeWhile p = [] := by
  cases s with
  | nil => rfl
  | cons x xs =>
    have hx : p x = false := h x rfl
    simp [List.takeWhile_cons, hx]

theorem dropWhile_head_false (p : Char → Bool) (s : Str)
    (h : ∀ c, s.head? = some c → p c = false) : s.dropWhile p = s := by
  cases s with
  | nil => rfl
  | cons x xs =>
    have hx : p x = false := h x rfl
    simp [List.dropWhile_cons, hx]

theorem readWord_token (lead m rest : Str) (hlead : ∀ c ∈ lead, isSpace c = true)
    (hne : m ≠ []) (hm : ∀ c ∈ m, isSpace c = false)
    (hrest : ∀ c, rest.head? = some c → isSpace c = true) :
    readWord (lead ++ m ++ rest) = (m, rest) := by
  have hhead : ∀ c, (m ++ rest).head? = some c → isSpace c = false := by
    intro c hc
    cases m with
    | nil => exact absurd rfl hne
    | cons x xs =>
      simp only [List.cons_append, List.head?_cons, Option.some.injEq] at hc
      subst hc
      exact hm x (List.mem_cons_self _ _)
  have hdrop : (lead ++ m ++ rest).dropWhile isSpace = m ++ rest := by
    rw [List.append_assoc, dropWhile_append_all _ _ _ hlead]
    exact dropWhile_head_false _ _ hhead
  have hm2 : ∀ x ∈ m, (fun c => !isSpace c) x = true := by
    intro x hx
    simp [hm x hx]
  have hrest2 : ∀ c, rest.head? = some c → (fun c => !isSpace c) c = false := by
    intro c hc
    simp [hrest c hc]
  unfold readWord
  simp only [hdrop]
  rw [takeWhile_append_all _ _ _ hm2, dropWhile_append_all _ _ _ hm2,
    takeWhile_head_false _ _ hrest2, dropWhile_head_false _ _ hrest2, List.append_nil]

theorem requestLine_head_space (post : Str) (h : ∀ c, post.head? = some c → isSpace c = true) :
    ∀ c, (requestLine post).head? = some c → isSpace c = true := by
  intro c hc
  cases post with
  | nil => simp [requestLine] at hc
  | cons x xs =>
    unfold requestLine at hc
    by_cases hx : (x != '\n') = true
    · simp only [List.takeWhile_cons, hx, if_true, List.head?_cons, Option.some.injEq] at hc
      subst hc
      exact h x rfl
    · simp [List.takeWhile_cons, hx] at hc

theorem not_newline_of_not_space (c : Char) (h : isSpace c = false) : (c != '\n') = true := by
  by_cases hc : c = '\n'
  · subst hc
    exact absurd h (by decide)
  · simpa using hc

theorem parseRequest_method (lead m post : Str)
    (hlead : ∀ c ∈ lead, isSpace c = true ∧ c ≠ '\n')
    (hne : m ≠ []) (hm : ∀ c ∈ m, isSpace c = false)
    (hpost : ∀ c, post.head? = some c → isSpace c = true) :
    (parseRequest (lead ++ m ++ post)).2 =
      (stripQuery (readWord (requestLine post)).1,
        bodyOf (skipHeaders (getlines (afterRequestLine post)))) := by
  have hall : ∀ x ∈ lead ++ m, (fun c => c != '\n') x = true := by
    intro x hx
    rcases List.mem_append.1 hx with h | h
    · simpa using (hlead x h).2
    · exact not_newline_of_not_space x (hm x h)
  have hline : requestLine (lead ++ m ++ post) = lead ++ m ++ requestLine post := by
    unfold requestLine
    exact takeWhile_append_all _ _ _ hall
  have hafter : afterRequestLine (lead ++ m ++ post) = afterRequestLine post := by
    unfold afterRequestLine
    rw [dropWhile_append_all _ _ _ hall]
  rw [parseRequest_eq]
  simp only [pathToken, hline, hafter,
    readWord_token lead m (requestLine post) (fun c hc => (hlead c hc).1) hne hm
      (requestLine_head_space post hpost)]

theorem requestOf_method (lead m post : Str)
    (hlead : ∀ c ∈ lead, isSpace c = true)
    (hm : ∀ c ∈ m, c ≠ Char.ofNat 0)
    (hfit : (lead ++ m ++ post).length ≤ 4095) :
    requestOf (lead ++ m ++ post) =
      lead ++ m ++ post.takeWhile (fun c => c != Char.ofNat 0) := by
  have hall : ∀ x ∈ lead ++ m, (fun c => c != Char.ofNat 0) x = true := by
    intro x hx
    rcases List.mem_append.1 hx with h | h
    · have hs := hlead x h
      by_cases h0 : x = Char.ofNat 0
      · subst h0
        exact absurd hs (by decide)
      · simpa using h0
    · simpa using hm x h
  unfold requestOf
  rw [List.take_of_length_le hfit]
  exact takeWhile_append_all _ _ _ hall

theorem takeWhile_head_space (post : Str)
    (h : ∀ c, post.head? = some c → isSpace c = true) :
    ∀ c, (post.takeWhile (fun c => c != Char.ofNat 0)).head? = some c → isSpace c = true := by
  intro c hc
  cases post with
  | nil => simp at hc
  | cons x xs =>
    by_cases hx : (x != Char.ofNat 0) = true
    · simp only [List.takeWhile_cons, hx, if_true, List.head?_cons, Option.some.injEq] at hc
      subst hc
      exact h x rfl
    · simp [List.takeWhile_cons, hx] at hc

/-- C17 (amended). Two requests `lead ++ m1 ++ post` and `lead ++ m2 ++ post`
that differ only in the method token (`lead` is blank space without a newline,
the tokens are non-empty and free of blank space, and `post` is empty or starts
with a blank) get the same path and the same body from `parseRequest`; and when
both requests fit in the 4095 bytes received and neither token holds a zero
byte, `handleClient` finds the same route entry for them and gives the same
response and the same state. -/
theorem method_not_used (routes : List (Str × Handler)) (env : Env) (sys : Sys)
    (lead m1 m2 post : Str)
    (hlead : ∀ c ∈ lead, isSpace c = true ∧ c ≠ '\n')
    (hne1 : m1 ≠ []) (hm1 : ∀ c ∈ m1, isSpace c = false)
    (hne2 : m2 ≠ []) (hm2 : ∀ c ∈ m2, isSpace c = false)
    (hpost : ∀ c, post.head? = some c → isSpace c = true) :
    (parseRequest (lead ++ m1 ++ post)).2 = (parseRequest (lead ++ m2 ++ post)).2 ∧
    ((lead ++ m1 ++ post).length ≤ 4095 → (lead ++ m2 ++ post).length ≤ 4095 →
      (∀ c ∈ m1, c ≠ Char.ofNat 0) → (∀ c ∈ m2, c ≠ Char.ofNat 0) →
      findRouteEntry routes (parseRequest (requestOf (lead ++ m1 ++ post))).2.1 =
        findRouteEntry routes (parseRequest (requestOf (lead ++ m2 ++ post))).2.1 ∧
      handleClient routes env (lead ++ m1 ++ post) sys =
        handleClient routes env (lead ++ m2 ++ post) sys) := by
  constructor
  · rw [parseRequest_method lead m1 post hlead hne1 hm1 hpost,
      parseRequest_method lead m2 post hlead hne2 hm2 hpost]
  · intro hfit1 hfit2 hz1 hz2
    have hr1 := requestOf_method lead m1 post (fun c hc => (hlead c hc).1) hz1 hfit1
    have hr2 := requestOf_method lead m2 post (fun c hc => (hlead c hc).1) hz2 hfit2
    have hp : (parseRequest (requestOf (lead ++ m1 ++ post))).2 =
        (parseRequest (requestOf (lead ++ m2 ++ post))).2 := by
      rw [hr1, hr2,
        parseRequest_method lead m1 _ hlead hne1 hm1 (takeWhile_head_space post hpost),
        parseRequest_method lead m2 _ hlead hne2 hm2 (takeWhile_head_space post hpost)]
    have hlen : ∀ m : Str, m ≠ [] → ¬ ((lead ++ m ++ post).take 4095).length = 0 := by
      intro m hne
      cases hl : lead ++ m ++ post with
      | nil =>
        simp only [List.append_eq_nil] at hl
        exact absurd hl.1.2 hne
      | cons c t => simp
    refine ⟨by rw [hp], ?_⟩
    unfold handleClient
    rw [if_neg (hlen m1 hne1), if_neg (hlen m2 hne2)]
    simp only [hp]

/-- Witness of C17: the requests `GET /api/clear HTTP/1.1` and
`POST /api/clear HTTP/1.1` on a table with `/api/send` and `/api/clear`. -/
theorem method_not_used_witness :
    (parseRequest ([] ++ "GET".toList ++ " /api/clear HTTP/1.1\r\n\r\n".toList)).2 =
      (parseRequest ([] ++ "POST".toList ++ " /api/clear HTTP/1.1\r\n\r\n".toList)).2 ∧
    handleClient [("/api/send".toList, sendHandler), ("/api/clear".toList, clearHandler)]
        (sampleEnv 0) ([] ++ "GET".toList ++ " /api/clear HTTP/1.1\r\n\r\n".toList) (emptySys 3) =
      handleClient [("/api/send".toList, sendHandler), ("/api/clear".toList, clearHandler)]
        (sampleEnv 0) ([] ++ "POST".toList ++ " /api/clear HTTP/1.1\r\n\r\n".toList)
        (emptySys 3) ∧
    (handleClient [("/api/send".toList, sendHandler), ("/api/clear".toList, clearHandler)]
        (sampleEnv 0) ([] ++ "GET".toList ++ " /api/clear HTTP/1.1\r\n\r\n".toList)
        (emptySys 3)).1 = some (createHttpResponse clearSuccess "text/html".toList 200) := by
  have h := method_not_used
    [("/api/send".toList, sendHandler), ("/api/clear".toList, clearHandler)] (sampleEnv 0)
    (emptySys 3) [] "GET".toList "POST".toList " /api/clear HTTP/1.1\r\n\r\n".toList
    (by intro c hc; cases hc) (by decide) (by decide) (by decide) (by decide)
    (by intro c hc; simp at hc; subst hc; decide)
  exact ⟨h.1, (h.2 (by decide) (by decide) (by decide) (by decide)).2, by decide!⟩

set_option maxRecDepth 100000 in
/-- Counterexample to C17 as stated.  The requests `GET` and `DELETE` followed
by the same 4092 bytes differ only in the method token, but only 4095 bytes are
received: with `GET` the body is whole and the entry `hi` is appended for `bob`,
with `DELETE` the last three bytes are cut off and the entry appended is `h`
followed by a newline.  And a token that holds a zero byte ends the request
text: the request `G /api/clear` is routed to its handler, the same request
with a zero byte for `G` gets the 404 response. -/
theorem method_not_used_counterexample :
    ("GET".toList ++ longRequestTail).length = 4095 ∧
    getUserMessages
        (handleClient [("/api/send".toList, sendHandler)] (sampleEnv 0)
          ("GET".toList ++ longRequestTail) (emptySys 3)).2.logger "bob".toList =
      [⟨"bob".toList, "hi".toList, 0⟩] ∧
    getUserMessages
        (handleClient [("/api/send".toList, sendHandler)] (sampleEnv 0)
          ("DELETE".toList ++ longRequestTail) (emptySys 3)).2.logger "bob".toList =
      [⟨"bob".toList, "h\n".toList, 0⟩] ∧
    (handleClient [("/api/clear".toList, clearHandler)] (sampleEnv 0)
        ("G".toList ++ " /api/clear HTTP/1.1\n\n".toList) (emptySys 3)).1 =
      some (createHttpResponse clearSuccess "text/html".toList 200) ∧
    (handleClient [("/api/clear".toList, clearHandler)] (sampleEnv 0)
        ([Char.ofNat 0] ++ " /api/clear HTTP/1.1\n\n".toList) (emptySys 3)).1 =
      some (createHttpResponse notFoundBody "text/html".toList 404) := by
  refine ⟨?_, ?_, ?_, ?_, ?_⟩
  · decide!
  · decide!
  · decide!
  · decide!
  · decide!

/-! ## The flush at shutdown -/

theorem readFile_appendFile (fs : Files) (p' x p : Str) :
    readFile (appendFile fs p' x) p =
      if p' = p then some ((readFile fs p).getD [] ++ x) else readFile fs p := by
  induction fs with
  | nil =>
    by_cases h : p' = p
    · simp [appendFile, readFile, h]
    · simp [appendFile, readFile, h]
  | cons f rest ih =>
    obtain ⟨q, d⟩ := f
    by_cases hq : q = p'
    · subst hq
      by_cases hp : q = p
      · simp [appendFile, readFile, hp]
      · simp [appendFile, readFile, hp]
    · by_cases hp : q = p
      · subst hp
        have hne : ¬ p' = q := fun e => hq e.symm
        simp [appendFile, readFile, hq, hne]
      · simp only [appendFile, hq, if_false, readFile, hp, ih]

theorem appendFile_keeps_text (fs : Files) (p' x p t : Str)
    (h : ∃ c, readFile fs p = some c ∧ t <:+: c) :
    ∃ c, readFile (appendFile fs p' x) p = some c ∧ t <:+: c := by
  obtain ⟨c, hc, ht⟩ := h
  rw [readFile_appendFile]
  by_cases hp : p' = p
  · refine ⟨c ++ x, by simp [hp, hc], ?_⟩
    exact List.IsInfix.trans ht (List.infix_append' [] c x)
  · exact ⟨c, by simp [hp, hc], ht⟩

theorem writeToFile_keeps_text (q : UserMessageQueue) (env : Env) (now : Int) (dir : Str)
    (fs : Files) (p t : Str) (h : ∃ c, readFile fs p = some c ∧ t <:+: c) :
    ∃ c, readFile (q.writeToFile env now dir fs) p = some c ∧ t <:+: c := by
  unfold writeToFile
  split
  · exact h
  · split
    · exact appendFile_keeps_text fs _ _ p t h
    · exact h

theorem writeQueues_keeps_text (env : Env) (dir : Str) (qs : QueueMap) (p t : Str) :
    ∀ (n : Nat) (fs : Files), (∃ c, readFile fs p = some c ∧ t <:+: c) →
      ∃ c, readFile (writeQueues env dir qs n fs) p = some c ∧ t <:+: c := by
  induction qs with
  | nil => intro n fs h; exact h
  | cons e rest ih =>
    intro n fs h
    obtain ⟨k, q⟩ := e
    unfold writeQueues
    split
    · exact ih _ _ (writeToFile_keeps_text q env _ dir fs p t h)
    · exact ih _ _ h

theorem writeQueues_writes (env : Env) (dir : Str) (hopen : ∀ p, env.canOpen p = true)
    (qs : QueueMap) (e : Str × UserMessageQueue) (hmem : e ∈ qs) (hne : e.2.messages ≠ []) :
    ∀ (n0 : Nat) (fs : Files),
      ∃ n c, readFile (writeQueues env dir qs n0 fs)
          (logFileName env dir e.2.username (env.clock n)) = some c ∧
        logText env e.2.username (env.clock n) e.2.messages <:+: c := by
  induction qs with
  | nil => simp at hmem
  | cons e' rest ih =>
    intro n0 fs
    obtain ⟨k, q⟩ := e'
    rcases List.mem_cons.1 hmem with h | h
    · subst h
      have hempty : (!UserMessageQueue.empty q) = true := by
        cases hq : q.messages with
        | nil => exact absurd hq hne
        | cons a as => simp [UserMessageQueue.empty, hq]
      have hne2 : q.messages.isEmpty = false := by
        cases hq : q.messages with
        | nil => exact absurd hq hne
        | cons a as => rfl
      unfold writeQueues
      rw [if_pos hempty]
      refine ⟨n0, ?_⟩
      apply writeQueues_keeps_text
      have hw : q.writeToFile env (env.clock n0) dir fs =
          appendFile fs (logFileName env dir q.username (env.clock n0))
            (logText env q.username (env.clock n0) q.messages) := by
        unfold writeToFile
        rw [hne2, hopen]
        rfl
      rw [hw, readFile_appendFile, if_pos rfl]
      exact ⟨_, rfl, (List.suffix_append _ _).isInfix⟩
    · unfold writeQueues
      split
      · exact ih h _ _
      · exact ih h _ _

theorem writeQueues_filter (env : Env) (dir : Str) (qs : QueueMap) :
    ∀ (n : Nat) (fs : Files),
      (writeQueues env dir qs n fs).filter (fun f => f.1 != dir ++ "/chat_data.json".toList) =
        writeQueues env dir qs n
          (fs.filter (fun f => f.1 != dir ++ "/chat_data.json".toList)) := by
  induction qs with
  | nil => intro n fs; rfl
  | cons e rest ih =>
    intro n fs
    obtain ⟨k, q⟩ := e
    unfold writeQueues
    split
    · rw [ih, writeToFile_filter]
    · rw [ih]

theorem signalHandler_logger (env : Env) (sys : Sys) :
    (signalHandler env sys).logger = sys.logger := by
  unfold signalHandler
  rw [saveToJson_logger]
  rfl

theorem signalHandler_rotationFiles (env : Env) (sys : Sys) :
    rotationFiles (signalHandler env sys) =
      writeQueues env sys.logger.logDirectory sys.logger.userQueues 0 (rotationFiles sys) := by
  have h := saveToJson_files_filter env (writeAllToFiles env sys)
  unfold rotationFiles
  rw [signalHandler_logger]
  unfold signalHandler
  simp only [jsonFilePath]
  have hl : (writeAllToFiles env sys).logger = sys.logger := rfl
  rw [hl] at h
  rw [h]
  exact writeQueues_filter env _ _ 0 sys.files

/-- C19 (amended). For every state, the flush of the signal handler
(`writeAllToFiles`, then `saveToJson`) leaves the logger as it was, so every
queue keeps its entries and nothing is cleared; when the snapshot file opens,
the rewritten snapshot is the text of the unchanged queues; and when every file
opens, each queue that is not empty has its entries, between header and footer,
in the rotation file named from its user and the second of the write. -/
theorem signalHandler_flush (env : Env) (sys : Sys) :
    (signalHandler env sys).logger = sys.logger ∧
    (∀ key, getUserMessages (signalHandler env sys).logger key =
      getUserMessages sys.logger key) ∧
    (env.canOpen sys.logger.jsonFilePath = true →
      readFile (signalHandler env sys).files sys.logger.jsonFilePath =
        some (snapshotText sys.logger)) ∧
    ((∀ p, env.canOpen p = true) →
      ∀ e ∈ sys.logger.userQueues, e.2.messages ≠ [] →
        ∃ n c, readFile (rotationFiles (signalHandler env sys))
            (logFileName env sys.logger.logDirectory e.2.username (env.clock n)) = some c ∧
          logText env e.2.username (env.clock n) e.2.messages <:+: c) := by
  refine ⟨signalHandler_logger env sys, ?_, ?_, ?_⟩
  · intro key
    rw [signalHandler_logger]
  · intro hopen
    unfold signalHandler saveToJson
    have hl : (writeAllToFiles env sys).logger = sys.logger := rfl
    rw [hl, if_pos hopen]
    exact readFile_writeFile_same _ _ _
  · intro hopen e hmem hne
    rw [signalHandler_rotationFiles]
    exact writeQueues_writes env _ hopen _ e hmem hne 0 _

/-- Witness of C19: the flush, with every file opening, on the state reached by
one `logMessage` for `alice` at capacity 3. -/
theorem signalHandler_flush_witness :
    (∀ p, (sampleEnv 5000000000).canOpen p = true) ∧
    (signalHandler (sampleEnv 5000000000)
        (logMessage (sampleEnv 0) (emptySys 3) "alice".toList "hi".toList)).logger =
      (logMessage (sampleEnv 0) (emptySys 3) "alice".toList "hi".toList).logger ∧
    ∃ n c, readFile
        (rotationFiles (signalHandler (sampleEnv 5000000000)
          (logMessage (sampleEnv 0) (emptySys 3) "alice".toList "hi".toList)))
        (logFileName (sampleEnv 5000000000) "logs".toList "alice".toList
          ((sampleEnv 5000000000).clock n)) = some c ∧
      logText (sampleEnv 5000000000) "alice".toList ((sampleEnv 5000000000).clock n)
        [⟨"alice".toList, "hi".toList, 0⟩] <:+: c :=
  ⟨fun _ => rfl,
    (signalHandler_flush (sampleEnv 5000000000)
      (logMessage (sampleEnv 0) (emptySys 3) "alice".toList "hi".toList)).1,
    (signalHandler_flush (sampleEnv 5000000000)
      (logMessage (sampleEnv 0) (emptySys 3) "alice".toList "hi".toList)).2.2.2 (fun _ => rfl)
      ("alice".toList, ⟨[⟨"alice".toList, "hi".toList, 0⟩], 3, "alice".toList⟩)
      (by decide!) (by decide)⟩

/-- Counterexample to C19 as stated: capacity 3, every file opening; after one
`logMessage` for `alice` with `hi`, the flush writes the rotation file, but the
queue of `alice` still holds the entry and the rewritten snapshot lists it. -/
theorem signalHandler_flush_counterexample :
    getUserMessages
        (signalHandler (sampleEnv 5000000000)
          (logMessage (sampleEnv 0) (emptySys 3) "alice".toList "hi".toList)).logger
        "alice".toList = [⟨"alice".toList, "hi".toList, 0⟩] ∧
    (readFile
        (signalHandler (sampleEnv 5000000000)
          (logMessage (sampleEnv 0) (emptySys 3) "alice".toList "hi".toList)).files
        "logs/chat_data.json".toList).map listedMessages =
      some [⟨"alice".toList, "hi".toList, 0⟩] ∧
    readFile
        (signalHandler (sampleEnv 5000000000)
          (logMessage (sampleEnv 0) (emptySys 3) "alice".toList "hi".toList)).files
        "logs/alice_5.log".toList =
      some ("=== Chat Log for User: alice ===\nGenerated at: 5\nTotal messages: 1\n"
        ++ "========================================\n\n"
        ++ "[0] alice: hi\n"
        ++ "\n=== End of Log ===\n").toList := by
  refine ⟨?_, ?_, ?_⟩
  · decide!
  · decide!
  · decide!

/-! ## No entry is lost or reordered by rotation -/

theorem logMessage_rotationFiles_writes (env : Env) (sys : Sys) (key message : Str) :
    rotationFiles (logMessage env sys key message) =
      applyWrites (rotationFiles sys) (rotationWrite env sys key message) := by
  rw [logMessage_rotationFiles]
  unfold rotationWrite applyWrites writeToFile
  by_cases h1 : ((queueOr sys.logger key).addMessage (env.clock 0) message).size
      ≥ sys.logger.maxMessagesPerUser
  · by_cases h2 : ((queueOr sys.logger key).addMessage (env.clock 0) message).messages = []
    · simp [h1, h2]
    · by_cases h3 : env.canOpen (logFileName env sys.logger.logDirectory
          ((queueOr sys.logger key).addMessage (env.clock 0) message).username
          (env.clock 1)) = true
      · simp [h1, h2, h3]
      · simp [h1, h2, h3]
  · simp [h1]

theorem applyWrites_append (fs : Files) (a b : List RotationWrite) :
    applyWrites fs (a ++ b) = applyWrites (applyWrites fs a) b := by
  unfold applyWrites
  rw [List.foldl_append]

theorem logSeq_rotationFiles (calls : List (Env × Str × Str)) :
    ∀ sys : Sys, rotationFiles (logSeq calls sys) =
      applyWrites (rotationFiles sys) (rotationWrites calls sys) := by
  induction calls with
  | nil => intro sys; rfl
  | cons call rest ih =>
    intro sys
    obtain ⟨env, key, message⟩ := call
    rw [logSeq, rotationWrites, applyWrites_append, ih, logMessage_rotationFiles_writes]

theorem queueOr_logMessage_other (env : Env) (sys : Sys) (key message other : Str)
    (hne : other ≠ key) :
    queueOr (logMessage env sys key message).logger other = queueOr sys.logger other := by
  unfold queueOr
  rw [logMessage_find_other env sys key message other hne, logMessage_max]

theorem rotatedEntries_append (key : Str) (a b : List RotationWrite) :
    rotatedEntries key (a ++ b) = rotatedEntries key a ++ rotatedEntries key b := by
  unfold rotatedEntries
  rw [List.filter_append, List.flatMap_append]

theorem logMessage_step (env : Env) (sys : Sys) (key message : Str) (h : BelowCapacity sys)
    (hopen : ((queueOr sys.logger key).addMessage (env.clock 0) message).size
        ≥ sys.logger.maxMessagesPerUser →
      env.canOpen (logFileName env sys.logger.logDirectory key (env.clock 1)) = true) :
    BelowCapacity (logMessage env sys key message) ∧
    (∀ k, rotatedEntries k (rotationWrite env sys key message)
        ++ (queueOr (logMessage env sys key message).logger k).messages =
      (queueOr sys.logger k).messages
        ++ appendedEntries k [(env, key, message)]) ∧
    (∀ w ∈ rotationWrite env sys key message,
      w.text = logText env w.username (env.clock 1) w.entries ∧
      w.path = logFileName env sys.logger.logDirectory w.username (env.clock 1)) := by
  obtain ⟨hmax, huser, hlen⟩ := h key
  have hadd := addMessage_messages_of_lt (queueOr sys.logger key) (env.clock 0) message
    (by omega)
  have husr : ((queueOr sys.logger key).addMessage (env.clock 0) message).username = key := huser
  have hother : ∀ k, k ≠ key →
      rotatedEntries k (rotationWrite env sys key message) = [] := by
    intro k hk
    unfold rotatedEntries rotationWrite
    have hk2 : ¬ key = k := fun e => hk e.symm
    split
    · simp [hk2]
    · rfl
  have happ_other : ∀ k, k ≠ key → appendedEntries k [(env, key, message)] = [] := by
    intro k hk
    have hk2 : ¬ key = k := fun e => hk e.symm
    simp [appendedEntries, hk2]
  have happ_same : appendedEntries key [(env, key, message)] =
      [{ username := key, content := message, timestamp := env.clock 0 }] := by
    simp [appendedEntries, entryOf]
  have htext : ∀ w ∈ rotationWrite env sys key message,
      w.text = logText env w.username (env.clock 1) w.entries ∧
      w.path = logFileName env sys.logger.logDirectory w.username (env.clock 1) := by
    intro w hw
    unfold rotationWrite at hw
    split at hw
    · simp only [List.mem_singleton] at hw
      subst hw
      simp only [husr, and_self]
    · simp at hw
  by_cases hfull : (queueOr sys.logger key).messages.length + 1 = sys.logger.maxMessagesPerUser
  · have hsize : ((queueOr sys.logger key).addMessage (env.clock 0) message).size
        ≥ sys.logger.maxMessagesPerUser := by
      simp only [UserMessageQueue.size, hadd, List.length_append, List.length_singleton]
      omega
    have hrot := logMessage_rotate env sys key message hmax hfull
      (by rw [huser]; exact hopen hsize)
    have hfind := logMessage_find_same env sys key message
    rw [if_pos hsize] at hfind
    have hq := queueOr_of_find _ _ _ hfind
    refine ⟨?_, ?_, htext⟩
    · intro k
      by_cases hk : k = key
      · subst hk
        rw [hq, logMessage_max]
        exact ⟨hmax, huser, by simp only [UserMessageQueue.clear, List.length_nil]; omega⟩
      · rw [queueOr_logMessage_other _ _ _ _ _ hk, logMessage_max]
        exact h k
    · intro k
      by_cases hk : k = key
      · subst hk
        rw [hrot.1, happ_same, List.append_nil]
        unfold rotatedEntries rotationWrite
        have hne : ((queueOr sys.logger k).addMessage (env.clock 0) message).messages ≠ [] := by
          rw [hadd]; simp
        rw [if_pos ⟨hsize, hne, by rw [husr]; exact hopen hsize⟩]
        simp [hadd, huser]
      · rw [hother k hk, happ_other k hk, queueOr_logMessage_other _ _ _ _ _ hk]
        simp
  · have hbelow := logMessage_below env sys key message hmax (by omega)
    have hsize : ¬ ((queueOr sys.logger key).addMessage (env.clock 0) message).size
        ≥ sys.logger.maxMessagesPerUser := by
      simp only [UserMessageQueue.size, hadd, List.length_append, List.length_singleton]
      omega
    have hnone : rotationWrite env sys key message = [] := by
      unfold rotationWrite
      rw [if_neg (fun hc => hsize hc.1)]
    refine ⟨?_, ?_, htext⟩
    · intro k
      by_cases hk : k = key
      · subst hk
        rw [hbelow.1, logMessage_max]
        refine ⟨hmax, huser, ?_⟩
        simp only [List.length_append, List.length_singleton]
        omega
      · rw [queueOr_logMessage_other _ _ _ _ _ hk, logMessage_max]
        exact h k
    · intro k
      rw [hnone]
      by_cases hk : k = key
      · subst hk
        rw [hbelow.1, happ_same, huser]
        simp [rotatedEntries]
      · rw [happ_other k hk, queueOr_logMessage_other _ _ _ _ _ hk]
        simp [rotatedEntries]

theorem appendedEntries_cons (key : Str) (call : Env × Str × Str)
    (rest : List (Env × Str × Str)) :
    appendedEntries key (call :: rest) =
      appendedEntries key [call] ++ appendedEntries key rest := by
  unfold appendedEntries
  by_cases h : call.2.1 = key
  · simp [List.filter_cons, h]
  · simp [List.filter_cons, h]

theorem logSeq_dir (calls : List (Env × Str × Str)) :
    ∀ sys : Sys, (logSeq calls sys).logger.logDirectory = sys.logger.logDirectory := by
  induction calls with
  | nil => intro sys; rfl
  | cons call rest ih =>
    intro sys
    obtain ⟨env, key, message⟩ := call
    rw [logSeq, ih, logMessage_dir]

theorem logSeq_entries (calls : List (Env × Str × Str)) :
    ∀ sys : Sys, BelowCapacity sys → RotationsSucceed calls sys →
      (∀ k, rotatedEntries k (rotationWrites calls sys)
          ++ (queueOr (logSeq calls sys).logger k).messages =
        (queueOr sys.logger k).messages ++ appendedEntries k calls) ∧
      (∀ w ∈ rotationWrites calls sys, ∃ env : Env, ∃ now : Int,
        w.text = logText env w.username now w.entries ∧
        w.path = logFileName env sys.logger.logDirectory w.username now) := by
  induction calls with
  | nil =>
    intro sys _ _
    refine ⟨fun k => ?_, fun w hw => ?_⟩
    · simp [rotationWrites, rotatedEntries, appendedEntries, logSeq]
    · simp [rotationWrites] at hw
  | cons call rest ih =>
    intro sys hinv hopen
    obtain ⟨env, key, message⟩ := call
    obtain ⟨hopen1, hopen2⟩ := hopen
    obtain ⟨hinv2, hstep, htext⟩ := logMessage_step env sys key message hinv hopen1
    have hdir := logMessage_dir env sys key message
    obtain ⟨ih1, ih2⟩ := ih (logMessage env sys key message) hinv2 hopen2
    refine ⟨fun k => ?_, fun w hw => ?_⟩
    · rw [rotationWrites, logSeq, rotatedEntries_append, List.append_assoc, ih1 k,
        ← List.append_assoc, hstep k, List.append_assoc, ← appendedEntries_cons]
    · rw [rotationWrites] at hw
      rcases List.mem_append.1 hw with h | h
      · exact ⟨env, env.clock 1, htext w h⟩
      · obtain ⟨e, now, h1, h2⟩ := ih2 w h
        exact ⟨e, now, h1, by rw [h2, hdir]⟩

theorem rotationsSucceed_of_open (calls : List (Env × Str × Str)) :
    ∀ sys : Sys, (∀ c ∈ calls, ∀ p, c.1.canOpen p = true) → RotationsSucceed calls sys := by
  induction calls with
  | nil => intro sys _; trivial
  | cons call rest ih =>
    intro sys h
    obtain ⟨env, key, message⟩ := call
    exact ⟨fun _ => h (env, key, message) (List.mem_cons_self _ _) _,
      ih _ (fun c hc => h c (List.mem_cons_of_mem _ hc))⟩

/-- C13. For every capacity of at least 1, every logger without queues and
every sequence of `logMessage` calls whose rotation writes all succeed (the
file opens whenever a call brings a queue to the capacity): the files other
than the snapshot are those of the start changed by the rotation writes of
the calls, in the order made; each write puts to the file named from its key
the header, the lines of its entries in order and the footer; and for every key
the entries of its rotation writes, in rotation order, followed by the current
contents of its queue, are exactly the entries appended for the key, in call
order. -/
theorem logSeq_fifo (sys : Sys) (calls : List (Env × Str × Str)) (key : Str)
    (hcap : 1 ≤ sys.logger.maxMessagesPerUser) (hempty : sys.logger.userQueues = [])
    (hopen : RotationsSucceed calls sys) :
    rotationFiles (logSeq calls sys) =
      applyWrites (rotationFiles sys) (rotationWrites calls sys) ∧
    (∀ w ∈ rotationWrites calls sys, ∃ env : Env, ∃ now : Int,
      w.text = logHeader env w.username now w.entries.length ++ logLines env w.entries
        ++ logFooter ∧
      w.path = logFileName env sys.logger.logDirectory w.username now) ∧
    rotatedEntries key (rotationWrites calls sys)
        ++ getUserMessages (logSeq calls sys).logger key =
      appendedEntries key calls := by
  have hinv : BelowCapacity sys := by
    intro k
    have hq : queueOr sys.logger k = UserMessageQueue.new k sys.logger.maxMessagesPerUser := by
      unfold queueOr
      rw [hempty]
      rfl
    rw [hq]
    exact ⟨rfl, rfl, hcap⟩
  obtain ⟨h1, h2⟩ := logSeq_entries calls sys hinv hopen
  refine ⟨logSeq_rotationFiles calls sys, h2, ?_⟩
  have hq : (queueOr sys.logger key).messages = [] := by
    unfold queueOr
    rw [hempty]
    rfl
  rw [getUserMessages_eq, h1 key, hq, List.nil_append]

/-- Witness of C13: capacity 2, the calls `alice: a`, `bob: x`, `alice: b`,
`alice: c` on a logger without queues or files; the rotation of `alice` holds
`a` and `b`, her queue holds `c`. -/
theorem logSeq_fifo_witness :
    rotatedEntries "alice".toList
        (rotationWrites
          [(sampleEnv 0, "alice".toList, "a".toList), (sampleEnv 1, "bob".toList, "x".toList),
           (sampleEnv 2, "alice".toList, "b".toList), (sampleEnv 3, "alice".toList, "c".toList)]
          (emptySys 2))
        ++ getUserMessages
          (logSeq
            [(sampleEnv 0, "alice".toList, "a".toList), (sampleEnv 1, "bob".toList, "x".toList),
             (sampleEnv 2, "alice".toList, "b".toList), (sampleEnv 3, "alice".toList, "c".toList)]
            (emptySys 2)).logger "alice".toList =
      appendedEntries "alice".toList
        [(sampleEnv 0, "alice".toList, "a".toList), (sampleEnv 1, "bob".toList, "x".toList),
         (sampleEnv 2, "alice".toList, "b".toList), (sampleEnv 3, "alice".toList, "c".toList)] ∧
    rotatedEntries "alice".toList
        (rotationWrites
          [(sampleEnv 0, "alice".toList, "a".toList), (sampleEnv 1, "bob".toList, "x".toList),
           (sampleEnv 2, "alice".toList, "b".toList), (sampleEnv 3, "alice".toList, "c".toList)]
          (emptySys 2)) =
      [⟨"alice".toList, "a".toList, 0⟩, ⟨"alice".toList, "b".toList, 2⟩] ∧
    getUserMessages
        (logSeq
          [(sampleEnv 0, "alice".toList, "a".toList), (sampleEnv 1, "bob".toList, "x".toList),
           (sampleEnv 2, "alice".toList, "b".toList), (sampleEnv 3, "alice".toList, "c".toList)]
          (emptySys 2)).logger "alice".toList =
      [⟨"alice".toList, "c".toList, 3⟩] :=
  ⟨(logSeq_fifo (emptySys 2)
      [(sampleEnv 0, "alice".toList, "a".toList), (sampleEnv 1, "bob".toList, "x".toList),
       (sampleEnv 2, "alice".toList, "b".toList), (sampleEnv 3, "alice".toList, "c".toList)]
      "alice".toList (by decide) rfl
      (rotationsSucceed_of_open _ _ (by
        intro c hc p
        simp only [List.mem_cons, List.mem_singleton, List.not_mem_nil, or_false] at hc
        rcases hc with h | h | h | h <;> subst h <;> rfl))).2.2,
    by decide!, by decide!⟩

/-! ## C21: the names of the rotation files -/

theorem appendFile_paths_of_present (fs : Files) (p x old : Str)
    (h : readFile fs p = some old) :
    (appendFile fs p x).map Prod.fst = fs.map Prod.fst := by
  induction fs with
  | nil => simp [readFile] at h
  | cons f rest ih =>
    obtain ⟨q, d⟩ := f
    by_cases hq : q = p
    · simp [appendFile, hq]
    · simp only [readFile, if_neg hq] at h
      simp [appendFile, hq, ih h]

/-- C21, as amended.  The name of a rotation file is made of the directory, the
key and the stamp of the second in which the rotation takes place.  For stamps
of equal length (as `%Y%m%d_%H%M%S` gives) two rotation events have the same
file name exactly when they have the same key and the same stamp; so two
rotations of one key in the same second share their file name.  A rotation
whose file exists already does not create a file: the file is opened for
appending and afterwards holds its old text followed by the text of this
rotation. -/
theorem rotation_file_names (env : Env) (logDir k1 k2 : Str) (t1 t2 : Int)
    (hlen : (env.stamp (toTimeT t1)).length = (env.stamp (toTimeT t2)).length) :
    (logFileName env logDir k1 t1 = logFileName env logDir k2 t2 ↔
      k1 = k2 ∧ env.stamp (toTimeT t1) = env.stamp (toTimeT t2)) ∧
    (k1 = k2 → toTimeT t1 = toTimeT t2 →
      logFileName env logDir k1 t1 = logFileName env logDir k2 t2) ∧
    (∀ (q : UserMessageQueue) (fs : Files) (old : Str),
      q.username = k2 → q.messages ≠ [] →
      env.canOpen (logFileName env logDir k2 t2) = true →
      readFile fs (logFileName env logDir k2 t2) = some old →
      readFile (q.writeToFile env t2 logDir fs) (logFileName env logDir k2 t2) =
          some (old ++ logText env k2 t2 q.messages) ∧
      (q.writeToFile env t2 logDir fs).map Prod.fst = fs.map Prod.fst) := by
  refine ⟨?_, ?_, ?_⟩
  · constructor
    · intro h
      unfold logFileName at h
      simp only [List.append_assoc] at h
      have h1 := List.append_cancel_left h
      have h2 : k1 ++ ("_".toList ++ env.stamp (toTimeT t1))
          = k2 ++ ("_".toList ++ env.stamp (toTimeT t2)) := by
        have h3 : (k1 ++ ("_".toList ++ env.stamp (toTimeT t1))) ++ ".log".toList
            = (k2 ++ ("_".toList ++ env.stamp (toTimeT t2))) ++ ".log".toList := by
          simpa [List.append_assoc] using h1
        exact List.append_cancel_right h3
      have hl : k1.length = k2.length := by
        have h4 := congrArg List.length h2
        simp only [List.length_append] at h4
        omega
      have h5 := List.append_inj h2 hl
      exact ⟨h5.1, List.append_cancel_left h5.2⟩
    · rintro ⟨hk, hs⟩
      unfold logFileName
      rw [hk, hs]
  · intro hk ht
    unfold logFileName
    rw [hk, ht]
  · intro q fs old hu hne hopen hold
    have hw : q.writeToFile env t2 logDir fs =
        appendFile fs (logFileName env logDir k2 t2) (logText env k2 t2 q.messages) := by
      unfold writeToFile
      have he : q.messages.isEmpty = false := by
        cases hq : q.messages with
        | nil => exact absurd hq hne
        | cons a l => rfl
      rw [hu]
      simp [he, hopen]
    rw [hw]
    constructor
    · rw [readFile_appendFile, if_pos rfl, hold]
      rfl
    · exact appendFile_paths_of_present fs _ _ old hold

/-- Witness for C21 as amended: two rotations of `alice`, one and two clock
ticks after the epoch, hence in the same second; the second one finds the file
of the first. -/
theorem rotation_file_names_witness :
    ((sampleEnv 0).stamp (toTimeT 1)).length = ((sampleEnv 0).stamp (toTimeT 2)).length ∧
    ((logFileName (sampleEnv 0) "logs".toList "alice".toList 1
        = logFileName (sampleEnv 0) "logs".toList "alice".toList 2 ↔
      "alice".toList = "alice".toList ∧
        (sampleEnv 0).stamp (toTimeT 1) = (sampleEnv 0).stamp (toTimeT 2)) ∧
    ("alice".toList = "alice".toList → toTimeT 1 = toTimeT 2 →
      logFileName (sampleEnv 0) "logs".toList "alice".toList 1
        = logFileName (sampleEnv 0) "logs".toList "alice".toList 2) ∧
    (∀ (q : UserMessageQueue) (fs : Files) (old : Str),
      q.username = "alice".toList → q.messages ≠ [] →
      (sampleEnv 0).canOpen (logFileName (sampleEnv 0) "logs".toList "alice".toList 2) = true →
      readFile fs (logFileName (sampleEnv 0) "logs".toList "alice".toList 2) = some old →
      readFile (q.writeToFile (sampleEnv 0) 2 "logs".toList fs)
          (logFileName (sampleEnv 0) "logs".toList "alice".toList 2) =
          some (old ++ logText (sampleEnv 0) "alice".toList 2 q.messages) ∧
      (q.writeToFile (sampleEnv 0) 2 "logs".toList fs).map Prod.fst = fs.map Prod.fst)) :=
  ⟨by decide,
    rotation_file_names (sampleEnv 0) "logs".toList "alice".toList "alice".toList 1 2
      (by decide)⟩

/-- Counterexample to C21 as stated.  Two rotations of `alice` take place one
and two clock ticks after the epoch: the rotation times differ, the file names
do not.  The first rotation creates the file; the second one writes into this
existing file, which then holds the text of both. -/
theorem rotation_file_names_counterexample :
    (1 : Int) ≠ 2 ∧
    logFileName (sampleEnv 0) "logs".toList "alice".toList 1
      = logFileName (sampleEnv 0) "logs".toList "alice".toList 2 ∧
    writeToFile
        { messages := [{ username := "alice".toList, content := "a".toList, timestamp := 0 }],
          maxSize := 1, username := "alice".toList }
        (sampleEnv 0) 1 "logs".toList [] =
      [("logs/alice_0.log".toList,
        ("=== Chat Log for User: alice ===\nGenerated at: 0\nTotal messages: 1\n"
          ++ "========================================\n\n"
          ++ "[0] alice: a\n"
          ++ "\n=== End of Log ===\n").toList)] ∧
    writeToFile
        { messages := [{ username := "alice".toList, content := "b".toList, timestamp := 1 }],
          maxSize := 1, username := "alice".toList }
        (sampleEnv 0) 2 "logs".toList
        (writeToFile
          { messages := [{ username := "alice".toList, content := "a".toList, timestamp := 0 }],
            maxSize := 1, username := "alice".toList }
          (sampleEnv 0) 1 "logs".toList []) =
      [("logs/alice_0.log".toList,
        ("=== Chat Log for User: alice ===\nGenerated at: 0\nTotal messages: 1\n"
          ++ "========================================\n\n"
          ++ "[0] alice: a\n"
          ++ "\n=== End of Log ===\n"
          ++ "=== Chat Log for User: alice ===\nGenerated at: 0\nTotal messages: 1\n"
          ++ "========================================\n\n"
          ++ "[0] alice: b\n"
          ++ "\n=== End of Log ===\n").toList)] := by
  refine ⟨by decide, by decide, ?_, ?_⟩
  · decide!
  · decide!

/-! ## C22: the text of `/api/messages` and the text of the snapshot -/

theorem allMessagesJson_eq_listing (env : Env) (first : Bool) (msgs : List Message) :
    allMessagesJson env first msgs = listingMessages (messageBlock env) first msgs := by
  induction msgs generalizing first with
  | nil => rfl
  | cons m rest ih => simp only [allMessagesJson, listingMessages, ih]

theorem messagesJson_eq_listing (first : Bool) (msgs : List Message) :
    messagesJson first msgs =
      listingMessages (fun m => "        ".toList ++ m.toJson) first msgs := by
  induction msgs generalizing first with
  | nil => rfl
  | cons m rest ih => simp only [messagesJson, listingMessages, ih, List.append_assoc]

theorem allUsersJson_eq_listing (env : Env) (first : Bool) (m : QueueMap) :
    allUsersJson env first m = listingUsers escapeJson (messageBlock env) first m := by
  induction m generalizing first with
  | nil => rfl
  | cons e rest ih =>
    obtain ⟨name, q⟩ := e
    simp only [allUsersJson, listingUsers, ih, allMessagesJson_eq_listing, getAllMessages_eq]

theorem usersJson_eq_listing (first : Bool) (m : QueueMap) :
    usersJson first m =
      listingUsers (fun s => s) (fun m => "        ".toList ++ m.toJson) first m := by
  induction m generalizing first with
  | nil => rfl
  | cons e rest ih =>
    obtain ⟨name, q⟩ := e
    simp only [usersJson, listingUsers, ih, messagesJson_eq_listing, getAllMessages_eq]

theorem length_le_escapeJson (s : Str) : s.length ≤ (escapeJson s).length := by
  induction s with
  | nil => simp [escapeJson]
  | cons c rest ih =>
    have hc : 1 ≤ (escapeChar c).length := by
      unfold escapeChar
      split_ifs <;> simp
    simp only [escapeJson, List.length_append, List.length_cons]
    omega

theorem length_toJson_lt_messageBlock (env : Env) (m : Message) :
    ("        ".toList ++ m.toJson).length < (messageBlock env m).length := by
  have h1 := length_le_escapeJson m.username
  have h2 := length_le_escapeJson m.content
  simp [Message.toJson, messageBlock]
  omega

theorem length_listingMessages_le (f g : Message → Str)
    (h : ∀ m, (f m).length ≤ (g m).length) (first : Bool) (msgs : List Message) :
    (listingMessages f first msgs).length ≤ (listingMessages g first msgs).length := by
  induction msgs generalizing first with
  | nil => simp [listingMessages]
  | cons m rest ih =>
    have h1 := h m
    have h2 := ih false
    simp only [listingMessages, List.length_append]
    omega

theorem length_listingMessages_lt (f g : Message → Str)
    (h : ∀ m, (f m).length < (g m).length) (first : Bool) (msgs : List Message)
    (hne : msgs ≠ []) :
    (listingMessages f first msgs).length < (listingMessages g first msgs).length := by
  cases msgs with
  | nil => exact absurd rfl hne
  | cons m rest =>
    have h1 := h m
    have h2 := length_listingMessages_le f g (fun m => Nat.le_of_lt (h m)) false rest
    simp only [listingMessages, List.length_append]
    omega

theorem length_listingUsers_le (n1 n2 : Str → Str) (f g : Message → Str)
    (hn : ∀ s, (n1 s).length ≤ (n2 s).length) (h : ∀ m, (f m).length < (g m).length)
    (first : Bool) (m : QueueMap) :
    (listingUsers n1 f first m).length ≤ (listingUsers n2 g first m).length := by
  induction m generalizing first with
  | nil => simp [listingUsers]
  | cons e rest ih =>
    obtain ⟨name, q⟩ := e
    have h1 := hn name
    have h2 := length_listingMessages_le f g (fun m => Nat.le_of_lt (h m)) true q.messages
    have h3 := ih false
    simp only [listingUsers, List.length_append]
    omega

theorem length_listingUsers_lt (n1 n2 : Str → Str) (f g : Message → Str)
    (hn : ∀ s, (n1 s).length ≤ (n2 s).length) (h : ∀ m, (f m).length < (g m).length)
    (first : Bool) (m : QueueMap)
    (hsome : ∃ e ∈ m, e.2.messages ≠ []) :
    (listingUsers n1 f first m).length < (listingUsers n2 g first m).length := by
  induction m generalizing first with
  | nil =>
    obtain ⟨e, he, _⟩ := hsome
    simp at he
  | cons e rest ih =>
    obtain ⟨name, q⟩ := e
    have h1 := hn name
    have h3 := length_listingUsers_le n1 n2 f g hn h false rest
    simp only [listingUsers, List.length_append]
    by_cases hq : q.messages = []
    · have h4 : ∃ e ∈ rest, e.2.messages ≠ [] := by
        obtain ⟨e, he, hne⟩ := hsome
        rcases List.mem_cons.mp he with h5 | h5
        · rw [h5] at hne
          exact absurd hq hne
        · exact ⟨e, h5, hne⟩
      have h5 := ih false h4
      have h2 := length_listingMessages_le f g (fun m => Nat.le_of_lt (h m)) true q.messages
      omega
    · have h2 := length_listingMessages_lt f g h true q.messages hq
      omega

/-- C22, as amended.  The handler of `/api/messages` returns the text of
`getAllMessagesJson` and leaves the logger and the files as they are.  This
text and the text `saveToJson` writes for the same state have the same shape:
the users in the order of the map, each with the messages in the order of its
queue.  They differ in how the parts are written: `getAllMessagesJson` passes
the names through `escapeJson` and writes each message as `messageBlock` (six
lines, the fields `username`, `content`, `timestamp` and, in addition,
`formatted_time`), where `saveToJson` writes the name as it is and the message
as `Message::toJson` on one line.  As soon as some queue holds a message, the
returned text is longer than the text of the snapshot, so the two differ. -/
theorem getAllMessagesJson_shape (env : Env) (body : Str) (sys : Sys) :
    messagesHandler env body sys = (getAllMessagesJson env sys.logger, sys) ∧
    getAllMessagesJson env sys.logger = listing escapeJson (messageBlock env) sys.logger ∧
    snapshotText sys.logger =
      listing (fun s => s) (fun m => "        ".toList ++ m.toJson) sys.logger ∧
    ((∃ e ∈ sys.logger.userQueues, e.2.messages ≠ []) →
      (snapshotText sys.logger).length < (getAllMessagesJson env sys.logger).length ∧
      getAllMessagesJson env sys.logger ≠ snapshotText sys.logger) := by
  have ha : getAllMessagesJson env sys.logger
      = listing escapeJson (messageBlock env) sys.logger := by
    simp only [getAllMessagesJson, listing, allUsersJson_eq_listing]
  have hs : snapshotText sys.logger
      = listing (fun s => s) (fun m => "        ".toList ++ m.toJson) sys.logger := by
    simp only [snapshotText, listing, usersJson_eq_listing]
  refine ⟨rfl, ha, hs, ?_⟩
  intro hsome
  have hlt : (snapshotText sys.logger).length < (getAllMessagesJson env sys.logger).length := by
    rw [ha, hs]
    have h := length_listingUsers_lt (fun s => s) escapeJson
      (fun m => "        ".toList ++ m.toJson) (messageBlock env)
      length_le_escapeJson (length_toJson_lt_messageBlock env) true sys.logger.userQueues hsome
    simp only [listing, List.length_append]
    omega
  refine ⟨hlt, ?_⟩
  intro heq
  rw [heq] at hlt
  exact Nat.lt_irrefl _ hlt

/-- Counterexample to C22 as stated.  After `logMessage("alice", "hi")` on a
new logger of capacity 3 the snapshot file holds the text of `saveToJson`, with
the message on one line and three fields, while `getAllMessagesJson` returns
another text for that state, with the message on six lines and the fourth
field `formatted_time`. -/
theorem getAllMessagesJson_shape_counterexample :
    readFile (logMessage (sampleEnv 0) (emptySys 3) "alice".toList "hi".toList).files
        "logs/chat_data.json".toList =
      some ("\x7b\n  \"users\": [\n"
        ++ "    \x7b\n      \"username\": \"alice\",\n      \"messages\": [\n"
        ++ "        \x7b\"username\":\"alice\",\"content\":\"hi\",\"timestamp\":0\x7d"
        ++ "\n      ]\n    \x7d"
        ++ "\n  ]\n\x7d").toList ∧
    getAllMessagesJson (sampleEnv 1)
        (logMessage (sampleEnv 0) (emptySys 3) "alice".toList "hi".toList).logger =
      ("\x7b\n  \"users\": [\n"
        ++ "    \x7b\n      \"username\": \"alice\",\n      \"messages\": [\n"
        ++ "        \x7b\n"
        ++ "          \"username\": \"alice\",\n"
        ++ "          \"content\": \"hi\",\n"
        ++ "          \"timestamp\": 0,\n"
        ++ "          \"formatted_time\": \"0\"\n"
        ++ "        \x7d"
        ++ "\n      ]\n    \x7d"
        ++ "\n  ]\n\x7d").toList ∧
    some (getAllMessagesJson (sampleEnv 1)
        (logMessage (sampleEnv 0) (emptySys 3) "alice".toList "hi".toList).logger) ≠
      readFile (logMessage (sampleEnv 0) (emptySys 3) "alice".toList "hi".toList).files
        "logs/chat_data.json".toList := by
  refine ⟨?_, ?_, ?_⟩
  · decide!
  · decide!
  · decide!

/-! ## C23: `stop` is idempotent -/

/-- C23. On the state of the server (flag `running`, member `serverSocket`,
thread, descriptors closed), calling `stop` twice leaves the state that calling
it once leaves.  After one call the flag is false; on a running server the
member `serverSocket` is then `-1`, a socket that was there has been handed to
`close` exactly once, and the thread is no longer joinable; on a server that is
not running, `stop` changes nothing. -/
theorem stop_idempotent (s : HttpServer) :
    s.stop.stop = s.stop ∧
    s.stop.running = false ∧
    (s.running = true →
      s.stop.serverSocket = -1 ∧ s.stop.threadJoinable = false ∧
      s.stop.closed = (if s.serverSocket ≠ -1 then s.closed ++ [s.serverSocket] else s.closed)) ∧
    (s.running = false → s.stop = s) := by
  obtain ⟨r, sock, j, cl⟩ := s
  cases r <;> cases j <;> by_cases h : sock = -1 <;> simp [HttpServer.stop, h]

/-! ## C24: `toJson` followed by `fromJson` -/

theorem tryLengths_of_cont (cont : Str → Option (Nat × Option Str)) (s : Str) (min k : Nat)
    (r : Nat × Option Str) (hmin : min ≤ k) (h : cont (s.drop k) = some r) :
    tryLengths cont s min k = some (k, r) := by
  cases k with
  | zero =>
    have h0 : min = 0 := by omega
    simp only [List.drop_zero] at h
    simp [tryLengths, h0, h]
  | succ k =>
    have h1 : ¬ (k + 1 < min) := by omega
    simp only [tryLengths, if_neg h1, h]

theorem regexSearch_skip (L : Str) (rest : List RegexItem) (c : Char) (t : Str)
    (h : L.isPrefixOf (c :: t) = false) :
    regexSearch (RegexItem.lit L :: rest) (c :: t) = regexSearch (RegexItem.lit L :: rest) t := by
  simp [regexSearch, matchItems, h]

theorem regexSearch_skip_list (L : Str) (rest : List RegexItem) (a s : Str)
    (h : ∀ k, k < a.length → L.isPrefixOf (a.drop k ++ s) = false) :
    regexSearch (RegexItem.lit L :: rest) (a ++ s) = regexSearch (RegexItem.lit L :: rest) s := by
  induction a with
  | nil => rfl
  | cons c a ih =>
    have h0 := h 0 (by simp)
    simp only [List.drop_zero, List.cons_append] at h0
    rw [List.cons_append, regexSearch_skip L rest c (a ++ s) h0]
    apply ih
    intro k hk
    have h1 := h (k + 1) (by simp; omega)
    simpa using h1

theorem regexSearch_skip_run (q : Char) (L : Str) (rest : List RegexItem) (u s : Str)
    (hu : q ∉ u) :
    regexSearch (RegexItem.lit (q :: L) :: rest) (u ++ s) =
      regexSearch (RegexItem.lit (q :: L) :: rest) s := by
  induction u with
  | nil => rfl
  | cons c u ih =>
    simp only [List.mem_cons, not_or] at hu
    have hc : (q == c) = false := by simpa using hu.1
    rw [List.cons_append, regexSearch_skip (q :: L) rest c (u ++ s)
      (by simp [List.isPrefixOf, hc])]
    exact ih hu.2

theorem regexSearch_found (re : List RegexItem) (c : Char) (t : Str) (r : Nat × Option Str)
    (h : matchItems re (c :: t) = some r) :
    regexSearch re (c :: t) = some ((c :: t).take r.1, r.2.getD []) := by
  simp [regexSearch, h]

theorem isPrefixOf_align (q : Char) (K U x y : Str) (hK : q ∉ K) (hU : q ∉ U)
    (hx : x.isPrefixOf y = false) :
    (K ++ q :: x).isPrefixOf (U ++ q :: y) = false := by
  induction K generalizing U with
  | nil =>
    cases U with
    | nil => simp [List.isPrefixOf, hx]
    | cons u U =>
      simp only [List.mem_cons, not_or] at hU
      have hc : (q == u) = false := by simpa using hU.1
      simp [List.isPrefixOf, hc]
  | cons k K ih =>
    simp only [List.mem_cons, not_or] at hK
    cases U with
    | nil =>
      have hc : (k == q) = false := by
        have h1 : ¬ k = q := fun e => hK.1 e.symm
        simpa using h1
      simp [List.isPrefixOf, hc]
    | cons u U =>
      simp only [List.mem_cons, not_or] at hU
      simp only [List.cons_append, List.isPrefixOf, Bool.and_eq_false_imp]
      intro _
      exact ih U hK.2 hU.2

theorem isPrefixOf_append_self (L s : Str) : L.isPrefixOf (L ++ s) = true := by
  induction L with
  | nil => simp [List.isPrefixOf]
  | cons c L ih => simp [List.isPrefixOf, ih]

theorem matchItems_lit (L : Str) (rest : List RegexItem) (s : Str) :
    matchItems (RegexItem.lit L :: rest) (L ++ s) =
      (matchItems rest s).map (fun r => (L.length + r.1, r.2)) := by
  simp only [matchItems, isPrefixOf_append_self, if_true, List.drop_left]

theorem matchItems_rep (cls : CharClass) (min : Nat) (cap : Bool) (rest : List RegexItem)
    (s : Str) (k : Nat) (r : Nat × Option Str)
    (htry : tryLengths (matchItems rest) s min (s.takeWhile cls.test).length = some (k, r)) :
    matchItems (RegexItem.rep cls min cap :: rest) s =
      some (k + r.1, if cap then some (s.take k) else r.2) := by
  simp only [matchItems]
  rw [htry]

theorem matchItems_quoted (L V rest : Str) (hV : '"' ∉ V) :
    matchItems [RegexItem.lit L, RegexItem.rep (CharClass.notChar '"') 0 true,
        RegexItem.lit "\"".toList] (L ++ (V ++ '"' :: rest)) =
      some (L.length + (V.length + 1), some V) := by
  have hrun : (V ++ '"' :: rest).takeWhile (CharClass.notChar '"').test = V := by
    rw [takeWhile_append_all]
    · simp [CharClass.test]
    · intro x hx
      have hne : x ≠ '"' := fun e => hV (e ▸ hx)
      simpa [CharClass.test] using hne
  have hcont : matchItems [RegexItem.lit "\"".toList] ((V ++ '"' :: rest).drop V.length)
      = some (1, none) := by
    rw [List.drop_left]
    simp [matchItems, List.isPrefixOf]
  have htry := tryLengths_of_cont (matchItems [RegexItem.lit "\"".toList]) (V ++ '"' :: rest)
    0 V.length (1, none) (Nat.zero_le _) hcont
  rw [← hrun] at htry
  rw [hrun] at htry
  have hrep := matchItems_rep (CharClass.notChar '"') 0 true [RegexItem.lit "\"".toList]
    (V ++ '"' :: rest) V.length (1, none) (by rw [hrun]; exact htry)
  rw [matchItems_lit, hrep]
  simp

theorem matchItems_digits (L D rest : Str) (hD : ∀ c ∈ D, c.isDigit = true) (hne : D ≠ [])
    (hrest : ∀ c, rest.head? = some c → c.isDigit = false) :
    matchItems [RegexItem.lit L, RegexItem.rep CharClass.digit 1 true] (L ++ (D ++ rest)) =
      some (L.length + (D.length + 0), some D) := by
  have hrun : (D ++ rest).takeWhile CharClass.digit.test = D := by
    rw [takeWhile_append_all _ _ _ (by simpa [CharClass.test] using hD)]
    rw [takeWhile_head_false _ _ (by simpa [CharClass.test] using hrest)]
    simp
  have hlen : 1 ≤ D.length := by
    cases D with
    | nil => exact absurd rfl hne
    | cons c D => simp
  have htry := tryLengths_of_cont (matchItems []) (D ++ rest) 1 D.length (0, none) hlen rfl
  have hrep := matchItems_rep CharClass.digit 1 true [] (D ++ rest) D.length (0, none)
    (by rw [hrun]; exact htry)
  rw [matchItems_lit, hrep]
  simp

theorem isDigit_digitChar (k : Nat) (h : k < 10) : (Nat.digitChar k).isDigit = true := by
  interval_cases k <;> decide

theorem isDigit_toDigitsCore (fuel : Nat) :
    ∀ (n : Nat) (ds : Str), (∀ c ∈ ds, c.isDigit = true) →
      ∀ c ∈ Nat.toDigitsCore 10 fuel n ds, c.isDigit = true := by
  induction fuel with
  | zero =>
    intro n ds h
    simpa [Nat.toDigitsCore] using h
  | succ fuel ih =>
    intro n ds h
    unfold Nat.toDigitsCore
    simp only
    have hd : ∀ c ∈ Nat.digitChar (n % 10) :: ds, c.isDigit = true := by
      intro c hc
      rcases List.mem_cons.mp hc with h1 | h1
      · rw [h1]
        exact isDigit_digitChar _ (Nat.mod_lt _ (by omega))
      · exact h c h1
    split
    · exact hd
    · exact ih _ _ hd

theorem isDigit_showNat (n : Nat) : ∀ c ∈ showNat n, c.isDigit = true :=
  isDigit_toDigitsCore (n + 1) n [] (fun _ h => nomatch h)

theorem toDigitsCore_ne_nil (fuel n : Nat) (ds : Str) (h : 0 < fuel) :
    Nat.toDigitsCore 10 fuel n ds ≠ [] := by
  induction fuel generalizing n ds with
  | zero => omega
  | succ fuel ih =>
    unfold Nat.toDigitsCore
    simp only
    split
    · simp
    · cases fuel with
      | zero => simp [Nat.toDigitsCore]
      | succ fuel => exact ih _ _ (by omega)

theorem showNat_ne_nil (n : Nat) : showNat n ≠ [] :=
  toDigitsCore_ne_nil (n + 1) n [] (by omega)

theorem toJson_shape (m : Message) :
    m.toJson = "\x7b".toList ++ ("\"username\":\"".toList ++ (m.username ++ '"' ::
      (",".toList ++ ("\"content\":\"".toList ++ (m.content ++ '"' ::
        (",".toList ++ ("\"timestamp\":".toList ++ (showInt m.millis ++ "\x7d".toList)))))))) := by
  simp [Message.toJson]

theorem search_username_toJson (u rest : Str) (hu : '"' ∉ u) :
    regexSearch username_regex
        ("\x7b".toList ++ ("\"username\":\"".toList ++ (u ++ '"' :: rest))) =
      some ("\"username\":\"".toList ++ u ++ "\"".toList, u) := by
  have hm := matchItems_quoted "\"username\":\"".toList u rest hu
  show regexSearch username_regex ('\x7b' :: '"' :: ("username\":\"".toList ++ (u ++ '"' :: rest))) = _
  unfold username_regex
  refine (regexSearch_skip _ _ _ _ ?_).trans ?_
  · rfl
  have hm2 : matchItems [RegexItem.lit "\"username\":\"".toList,
      RegexItem.rep (CharClass.notChar '"') 0 true, RegexItem.lit "\"".toList]
      ('"' :: ("username\":\"".toList ++ (u ++ '"' :: rest))) = _ := hm
  rw [regexSearch_found _ _ _ _ hm2]
  have htake : ('"' :: ("username\":\"".toList ++ (u ++ '"' :: rest))).take
      ("\"username\":\"".toList.length + (u.length + 1))
      = "\"username\":\"".toList ++ u ++ "\"".toList := by
    have e : ('"' :: ("username\":\"".toList ++ (u ++ '"' :: rest)))
        = ("\"username\":\"".toList ++ u ++ "\"".toList) ++ rest := by simp
    rw [e, List.take_left']
    simp
    omega
  simp only [htake, Option.getD_some]

theorem regexSearch_capture (re : List RegexItem) (s : Str) (r : Nat × Option Str)
    (hs : s ≠ []) (h : matchItems re s = some r) :
    ∃ m, regexSearch re s = some (m, r.2.getD []) := by
  cases s with
  | nil => exact absurd rfl hs
  | cons c t => exact ⟨_, regexSearch_found re c t r h⟩

theorem search_content_toJson (u c rest : Str) (hu : '"' ∉ u) (hc : '"' ∉ c) :
    ∃ m, regexSearch content_regex
        ("\x7b".toList ++ ("\"username\":\"".toList ++ (u ++ '"' ::
          (",".toList ++ ("\"content\":\"".toList ++ (c ++ '"' :: rest)))))) = some (m, c) := by
  have hm := matchItems_quoted "\"content\":\"".toList c rest hc
  obtain ⟨m, hfound⟩ := regexSearch_capture _ _ _ (by simp) hm
  refine ⟨m, ?_⟩
  show regexSearch content_regex ("\x7b\"username\":".toList ++ ('"' :: (u ++ ('"' :: ',' ::
    ("\"content\":\"".toList ++ (c ++ '"' :: rest)))))) = _
  unfold content_regex
  refine (regexSearch_skip_list _ _ _ _ ?_).trans ?_
  · intro k hk
    have hk2 : k < 12 := hk
    interval_cases k <;> rfl
  refine (regexSearch_skip _ _ _ _ ?_).trans ?_
  · exact isPrefixOf_align '"' "content".toList u ":\"".toList
      (',' :: ("\"content\":\"".toList ++ (c ++ '"' :: rest))) (by decide) hu rfl
  refine (regexSearch_skip_run '"' _ _ u _ hu).trans ?_
  refine (regexSearch_skip _ _ _ _ ?_).trans ?_
  · rfl
  refine (regexSearch_skip _ _ _ _ ?_).trans ?_
  · rfl
  exact hfound

theorem search_timestamp_toJson (u c d : Str) (hu : '"' ∉ u) (hc : '"' ∉ c)
    (hd : ∀ x ∈ d, x.isDigit = true) (hne : d ≠ []) :
    ∃ m, regexSearch timestamp_regex
        ("\x7b".toList ++ ("\"username\":\"".toList ++ (u ++ '"' ::
          (",".toList ++ ("\"content\":\"".toList ++ (c ++ '"' ::
            (",".toList ++ ("\"timestamp\":".toList ++ (d ++ "\x7d".toList))))))))) = some (m, d) := by
  have hm := matchItems_digits "\"timestamp\":".toList d "\x7d".toList hd hne
    (by intro x hx; simp at hx; rw [← hx]; decide)
  obtain ⟨m, hfound⟩ := regexSearch_capture _ _ _ (by simp) hm
  refine ⟨m, ?_⟩
  show regexSearch timestamp_regex ("\x7b\"username\":".toList ++ ('"' :: (u ++ ('"' ::
    (",\"content\":".toList ++ ('"' :: (c ++ ('"' :: ',' ::
      ("\"timestamp\":".toList ++ (d ++ "\x7d".toList))))))))))= _
  unfold timestamp_regex
  refine (regexSearch_skip_list _ _ _ _ ?_).trans ?_
  · intro k hk
    have hk2 : k < 12 := hk
    interval_cases k <;> rfl
  refine (regexSearch_skip _ _ _ _ ?_).trans ?_
  · exact isPrefixOf_align '"' "timestamp".toList u ":".toList
      (",\"content\":".toList ++ ('"' :: (c ++ ('"' :: ',' ::
        ("\"timestamp\":".toList ++ (d ++ "\x7d".toList)))))) (by decide) hu rfl
  refine (regexSearch_skip_run '"' _ _ u _ hu).trans ?_
  refine (regexSearch_skip _ _ _ _ ?_).trans ?_
  · rfl
  refine (regexSearch_skip_list _ _ _ _ ?_).trans ?_
  · intro k hk
    have hk2 : k < 11 := hk
    interval_cases k <;> rfl
  refine (regexSearch_skip _ _ _ _ ?_).trans ?_
  · exact isPrefixOf_align '"' "timestamp".toList c ":".toList
      (',' :: ("\"timestamp\":".toList ++ (d ++ "\x7d".toList))) (by decide) hc rfl
  refine (regexSearch_skip_run '"' _ _ c _ hc).trans ?_
  refine (regexSearch_skip _ _ _ _ ?_).trans ?_
  · rfl
  refine (regexSearch_skip _ _ _ _ ?_).trans ?_
  · rfl
  exact hfound

/-- C24. For every message whose user name and content hold no double quote and
whose time is at or after the epoch (and, being a reading of the 64-bit clock,
below `2 ^ 63` ticks), `fromJson` applied to the text of `toJson` returns a
message, with the same user name, the same content and the same time in whole
milliseconds. -/
theorem fromJson_toJson (m : Message) (hu : '"' ∉ m.username) (hc : '"' ∉ m.content)
    (h0 : 0 ≤ m.timestamp) (hmax : m.timestamp < 2 ^ 63) :
    Message.fromJson m.toJson =
        some { username := m.username, content := m.content,
               timestamp := m.millis * ticksPerMilli } ∧
    ∀ r, Message.fromJson m.toJson = some r →
      r.username = m.username ∧ r.content = m.content ∧ r.millis = m.millis := by
  have hms0 : 0 ≤ m.millis := by
    unfold Message.millis ticksPerMilli
    exact Int.tdiv_nonneg h0 (by decide)
  obtain ⟨n, hn⟩ := Int.eq_ofNat_of_zero_le hms0
  have hshow : showInt m.millis = showNat n := by
    rw [hn]
    rfl
  have hle : m.millis * ticksPerMilli ≤ m.timestamp := by
    unfold Message.millis ticksPerMilli
    have h1 := Int.tdiv_add_tmod m.timestamp 1000000
    have h2 : 0 ≤ Int.tmod m.timestamp 1000000 := Int.tmod_nonneg _ h0
    linarith
  have hnle : (n : Int) * 1000000 < 2 ^ 63 := by
    have h3 : m.millis * ticksPerMilli < 2 ^ 63 := lt_of_le_of_lt hle hmax
    rw [hn] at h3
    exact h3
  have hfirst : Message.fromJson m.toJson =
      some { username := m.username, content := m.content,
             timestamp := m.millis * ticksPerMilli } := by
    obtain ⟨m2, h2⟩ := search_content_toJson m.username m.content
      (",".toList ++ ("\"timestamp\":".toList ++ (showNat n ++ "\x7d".toList))) hu hc
    obtain ⟨m3, h3⟩ := search_timestamp_toJson m.username m.content (showNat n) hu hc
      (isDigit_showNat n) (showNat_ne_nil n)
    have h1 := search_username_toJson m.username
      (",".toList ++ ("\"content\":\"".toList ++ (m.content ++ '"' ::
        (",".toList ++ ("\"timestamp\":".toList ++ (showNat n ++ "\x7d".toList)))))) hu
    unfold Message.fromJson
    rw [toJson_shape, hshow, h1, h2, h3]
    have hst : stoll (showNat n) = some (n : Int) := by
      have hv := decimalValue_showNat n
      unfold decimalValue at hv
      unfold stoll
      simp only [hv]
      have hb : n ≤ 2 ^ 63 - 1 := by omega
      rw [if_pos hb]
      rfl
    simp only [hst]
    have hw : wrap64 ((n : Int) * ticksPerMilli) = (n : Int) * ticksPerMilli := by
      unfold wrap64 ticksPerMilli
      omega
    rw [hw, hn]
  refine ⟨hfirst, ?_⟩
  intro r hr
  rw [hfirst] at hr
  cases hr
  refine ⟨rfl, rfl, ?_⟩
  show Int.tdiv (m.millis * ticksPerMilli) ticksPerMilli = m.millis
  unfold ticksPerMilli
  exact Int.mul_tdiv_cancel _ (by decide)

/-- Witness for C24: the message of `alice` with content `hi`, 1 500 000 ticks
(one and a half milliseconds) after the epoch. -/
theorem fromJson_toJson_witness :
    '"' ∉ "alice".toList ∧ '"' ∉ "hi".toList ∧ (0 : Int) ≤ 1500000 ∧ (1500000 : Int) < 2 ^ 63 ∧
    (Message.fromJson
        (Message.toJson
          { username := "alice".toList, content := "hi".toList, timestamp := 1500000 }) =
      some { username := "alice".toList, content := "hi".toList,
             timestamp :=
               Message.millis
                 { username := "alice".toList, content := "hi".toList, timestamp := 1500000 }
                 * ticksPerMilli } ∧
    ∀ r, Message.fromJson
        (Message.toJson
          { username := "alice".toList, content := "hi".toList, timestamp := 1500000 }) =
        some r →
      r.username = "alice".toList ∧ r.content = "hi".toList ∧
        r.millis =
          Message.millis
            { username := "alice".toList, content := "hi".toList, timestamp := 1500000 }) :=
  ⟨by decide, by decide, by decide, by decide,
    fromJson_toJson { username := "alice".toList, content := "hi".toList, timestamp := 1500000 }
      (by decide) (by decide) (by decide) (by decide)⟩

/-! ## C25: `addMessage` evicts the oldest entry -/

theorem runCalls_maxSize (calls : List QueueCall) (q : UserMessageQueue) :
    (runCalls calls q).maxSize = q.maxSize := by
  induction calls generalizing q with
  | nil => rfl
  | cons c rest ih =>
    cases c with
    | addMessage now content => simp [runCalls, ih, addMessage]
    | clear => simp [runCalls, ih, clear]

theorem runCalls_username (calls : List QueueCall) (q : UserMessageQueue) :
    (runCalls calls q).username = q.username := by
  induction calls generalizing q with
  | nil => rfl
  | cons c rest ih =>
    cases c with
    | addMessage now content => simp [runCalls, ih, addMessage]
    | clear => simp [runCalls, ih, clear]

theorem runCalls_length_le (calls : List QueueCall) (q : UserMessageQueue)
    (h : q.messages.length ≤ q.maxSize) :
    (runCalls calls q).messages.length ≤ q.maxSize := by
  induction calls generalizing q with
  | nil => exact h
  | cons c rest ih =>
    cases c with
    | addMessage now content =>
      have h1 := addMessage_length_le q now content h
      have h2 := ih (q.addMessage now content) (by simpa [addMessage] using h1)
      simpa [runCalls, addMessage] using h2
    | clear =>
      have h2 := ih q.clear (by simp [clear])
      simpa [runCalls, clear] using h2

/-- C25. Let `q` be a queue as the constructor and any calls of `addMessage`
and `clear` leave it.  After `addMessage` the contents are the last
`min(maxSize, |q| + 1)` elements of the old contents followed by the new entry.
When `maxSize ≥ 1` and the queue already holds `maxSize` entries, the contents
are the old ones without the oldest, followed by the new entry, and the size is
still `maxSize`. -/
theorem addMessage_evicts_oldest (user : Str) (max_size : Nat) (calls : List QueueCall)
    (now : Int) (c : Str) :
    (((runCalls calls (UserMessageQueue.new user max_size)).addMessage now c).messages =
      ((runCalls calls (UserMessageQueue.new user max_size)).messages
          ++ [({ username := user, content := c, timestamp := now } : Message)]).drop
        (((runCalls calls (UserMessageQueue.new user max_size)).messages.length + 1)
          - min max_size ((runCalls calls (UserMessageQueue.new user max_size)).messages.length + 1))) ∧
    (1 ≤ max_size →
      (runCalls calls (UserMessageQueue.new user max_size)).size = max_size →
      ((runCalls calls (UserMessageQueue.new user max_size)).addMessage now c).messages =
          (runCalls calls (UserMessageQueue.new user max_size)).messages.tail
            ++ [({ username := user, content := c, timestamp := now } : Message)] ∧
      ((runCalls calls (UserMessageQueue.new user max_size)).addMessage now c).size = max_size) := by
  have hmax := runCalls_maxSize calls (UserMessageQueue.new user max_size)
  have huser := runCalls_username calls (UserMessageQueue.new user max_size)
  have hlen := runCalls_length_le calls (UserMessageQueue.new user max_size)
    (by simp [UserMessageQueue.new])
  generalize runCalls calls (UserMessageQueue.new user max_size) = q at hmax huser hlen
  have hm : q.maxSize = max_size := by simpa [UserMessageQueue.new] using hmax
  have hu : q.username = user := by simpa [UserMessageQueue.new] using huser
  have hl : q.messages.length ≤ max_size := by simpa [UserMessageQueue.new] using hlen
  constructor
  · unfold addMessage
    simp only [hm, hu, List.length_append, List.length_singleton]
    by_cases hfull : q.messages.length + 1 > max_size
    · have hk : q.messages.length + 1 - min max_size (q.messages.length + 1) = 1 := by omega
      rw [if_pos hfull, hk, List.drop_one]
    · have hk : q.messages.length + 1 - min max_size (q.messages.length + 1) = 0 := by omega
      rw [if_neg hfull, hk, List.drop_zero]
  · intro h1 hsize
    have hsz : q.messages.length = max_size := hsize
    have hne : q.messages ≠ [] := by
      intro h0
      rw [h0] at hsz
      simp at hsz
      omega
    unfold addMessage UserMessageQueue.size
    simp only [hm, hu, List.length_append, List.length_singleton]
    rw [if_pos (by omega)]
    obtain ⟨front, rest, hq⟩ := List.exists_cons_of_ne_nil hne
    rw [hq] at hsz ⊢
    simp at hsz ⊢
    omega

/-! ## C26: `logMessage` touches the queue of its key only -/

theorem map_fst_modifyQueue (f : UserMessageQueue → UserMessageQueue) (m : QueueMap)
    (key : Str) : (modifyQueue f m key).map Prod.fst = m.map Prod.fst := by
  induction m with
  | nil => rfl
  | cons e rest ih =>
    obtain ⟨k, q⟩ := e
    by_cases h : k = key
    · simp [modifyQueue, h]
    · simp [modifyQueue, h, ih]

theorem getAllUsers_ensureQueue_filter (lg : ChatLogger) (key : Str) :
    (lg.ensureQueue key).getAllUsers.filter (fun k => k != key) =
      lg.getAllUsers.filter (fun k => k != key) := by
  unfold ensureQueue getAllUsers
  cases findQueue lg.userQueues key with
  | none => simp
  | some q => rfl

theorem getAllUsers_logMessage_filter (env : Env) (sys : Sys) (key message : Str) :
    (logMessage env sys key message).logger.getAllUsers.filter (fun k => k != key) =
      sys.logger.getAllUsers.filter (fun k => k != key) := by
  have h := getAllUsers_ensureQueue_filter sys.logger key
  unfold getAllUsers at h ⊢
  unfold logMessage
  simp only []
  split
  · simpa [map_fst_modifyQueue] using h
  · simpa [saveToJson_logger, map_fst_modifyQueue] using h

/-- C26. For every state of the logger and the files, every call
`logMessage(key, content)` and every other key `other ≠ key`: the queue of
`other` (its presence, its ordered contents, its bound) is the same before and
after the call, and so is the list of known keys other than `key`, whether or
not the call rotates the queue of `key`. -/
theorem logMessage_frame (env : Env) (sys : Sys) (key message other : Str)
    (hne : other ≠ key) :
    findQueue (logMessage env sys key message).logger.userQueues other =
        findQueue sys.logger.userQueues other ∧
    (logMessage env sys key message).logger.getUserMessages other =
        sys.logger.getUserMessages other ∧
    (logMessage env sys key message).logger.getAllUsers.filter (fun k => k != key) =
        sys.logger.getAllUsers.filter (fun k => k != key) := by
  refine ⟨logMessage_find_other env sys key message other hne, ?_,
    getAllUsers_logMessage_filter env sys key message⟩
  unfold getUserMessages
  rw [logMessage_find_other env sys key message other hne]

/-- Witness for C26: `bob` holds one entry, and a call for `alice` that rotates
the queue of `alice` (capacity 1) leaves the queue of `bob` and the other keys
as they were. -/
theorem logMessage_frame_witness :
    "bob".toList ≠ "alice".toList ∧
    (logMessage (sampleEnv 0) (emptySys 2) "bob".toList "x".toList).logger.getUserMessages
        "bob".toList ≠ [] ∧
    findQueue
        (logMessage (sampleEnv 5)
          (logMessage (sampleEnv 0) (emptySys 2) "bob".toList "x".toList)
          "alice".toList "hi".toList).logger.userQueues "bob".toList =
      findQueue (logMessage (sampleEnv 0) (emptySys 2) "bob".toList "x".toList).logger.userQueues
        "bob".toList ∧
    (logMessage (sampleEnv 5)
          (logMessage (sampleEnv 0) (emptySys 2) "bob".toList "x".toList)
          "alice".toList "hi".toList).logger.getUserMessages "bob".toList =
      (logMessage (sampleEnv 0) (emptySys 2) "bob".toList "x".toList).logger.getUserMessages
        "bob".toList ∧
    (logMessage (sampleEnv 5)
          (logMessage (sampleEnv 0) (emptySys 2) "bob".toList "x".toList)
          "alice".toList "hi".toList).logger.getAllUsers.filter (fun k => k != "alice".toList) =
      (logMessage (sampleEnv 0) (emptySys 2) "bob".toList "x".toList).logger.getAllUsers.filter
        (fun k => k != "alice".toList) :=
  ⟨by decide, by decide,
    logMessage_frame (sampleEnv 5)
      (logMessage (sampleEnv 0) (emptySys 2) "bob".toList "x".toList)
      "alice".toList "hi".toList "bob".toList (by decide)⟩

/-! ## C28: `Queue<T>` is first in, first out -/

theorem Queue.enqueueAll_data {α : Type} (xs : List α) (q : Queue α) :
    (q.enqueueAll xs).data_ = q.data_ ++ xs ∧
      (q.enqueueAll xs).maxDisplaySize_ = q.maxDisplaySize_ := by
  induction xs generalizing q with
  | nil => simp [Queue.enqueueAll]
  | cons x rest ih =>
    have h := ih (q.enqueue x)
    simp only [Queue.enqueueAll]
    constructor
    · rw [h.1]
      simp [Queue.enqueue]
    · rw [h.2]
      rfl

theorem Queue.dequeueMany_data {α : Type} (xs rest : List α) (d : Nat) :
    Queue.dequeueMany xs.length ({ data_ := xs ++ rest, maxDisplaySize_ := d } : Queue α) =
      Except.ok (xs, { data_ := rest, maxDisplaySize_ := d }) := by
  induction xs with
  | nil => rfl
  | cons x tail ih =>
    simp only [List.length_cons, Queue.dequeueMany, Queue.dequeue, List.cons_append]
    rw [ih]

/-- C28. For every sequence `xs` enqueued into an empty `Queue`, as many calls
of `dequeue` as `xs` has elements return `xs` in its order and leave the queue
empty.  At every point on the way (after the first elements `done` have been
taken out) `peek` returns the value the next `dequeue` returns, and the queue
`peek` was called on is the one `dequeue` then works on.  On an empty queue
both `dequeue` and `peek` end in an error and return no value. -/
theorem queue_fifo {α : Type} (d : Nat) (xs : List α) :
    Queue.dequeueMany xs.length ((Queue.new d : Queue α).enqueueAll xs) =
        Except.ok (xs, { data_ := [], maxDisplaySize_ := d }) ∧
    ((Queue.new d : Queue α).enqueueAll xs).size = xs.length ∧
    (∀ (done : List α) (x : α) (rest : List α), xs = done ++ x :: rest →
      Queue.dequeueMany done.length ((Queue.new d : Queue α).enqueueAll xs) =
          Except.ok (done, { data_ := x :: rest, maxDisplaySize_ := d }) ∧
      Queue.peek ({ data_ := x :: rest, maxDisplaySize_ := d } : Queue α) = Except.ok x ∧
      Queue.dequeue ({ data_ := x :: rest, maxDisplaySize_ := d } : Queue α) =
          Except.ok (x, { data_ := rest, maxDisplaySize_ := d })) ∧
    (∀ q : Queue α, q.data_ = [] →
      q.dequeue = Except.error "Queue underflow" ∧ q.peek = Except.error "Queue is empty") := by
  have hq : (Queue.new d : Queue α).enqueueAll xs = { data_ := xs, maxDisplaySize_ := d } := by
    have h := Queue.enqueueAll_data xs (Queue.new d : Queue α)
    cases hq : (Queue.new d : Queue α).enqueueAll xs with
    | mk data disp =>
      rw [hq] at h
      simp [Queue.new] at h
      rw [h.1, h.2]
  refine ⟨?_, ?_, ?_, ?_⟩
  · rw [hq]
    have h := Queue.dequeueMany_data xs [] d
    simpa using h
  · rw [hq]
    rfl
  · intro done x rest hxs
    rw [hq, hxs]
    exact ⟨Queue.dequeueMany_data done (x :: rest) d, rfl, rfl⟩
  · intro q hempty
    simp [Queue.dequeue, Queue.peek, hempty]

/-! ## C30: `escapeJson` and control characters -/

/-- C30, failing input.  The text that consists of the one control character
with code 1 is returned by `escapeJson` as it is: the output holds a raw
character below 0x20 and, put between double quotes, is not a JSON string
literal.  The same holds for backspace (code 8) and form feed (code 12), which
JSON writes as `\b` and `\f`, and inside a longer text. -/
theorem escapeJson_keeps_control_character :
    escapeJson [Char.ofNat 1] = [Char.ofNat 1] ∧
    (Char.ofNat 1).toNat < 32 ∧
    jsonStringBody (escapeJson [Char.ofNat 1]) = false ∧
    escapeJson [Char.ofNat 8] = [Char.ofNat 8] ∧
    escapeJson [Char.ofNat 12] = [Char.ofNat 12] ∧
    jsonStringBody (escapeJson ("a\"b".toList ++ [Char.ofNat 12] ++ "c".toList)) = false ∧
    jsonStringBody (escapeJson "a\"b\\c\nd".toList) = true := by
  refine ⟨by decide, by decide, by decide, by decide, by decide, by decide, by decide⟩

/-! ## C29: Base64 -/

theorem wrap32_shift_mod (v A : Int) (h0 : 0 ≤ A) (h1 : A < 256) :
    wrap32 (wrap32 (v * 256) + A) % 16777216 = v % 65536 * 256 + A := by
  unfold wrap32
  omega

theorem wrap32_shift6_mod (v A : Int) (h0 : 0 ≤ A) (h1 : A < 64) :
    wrap32 (wrap32 (v * 64) + A) % 16777216 = v % 262144 * 64 + A := by
  unfold wrap32
  omega

theorem encodeLoop_three (val : Int) (out : Str) (a b c : Char) (rest : Str)
    (ha : a.toNat < 256) (hb : b.toNat < 256) (hc : c.toNat < 256) :
    encodeLoop val (-6) out (a :: b :: c :: rest) =
      encodeLoop
        (wrap32 (wrap32 (wrap32 (wrap32 (wrap32 (wrap32 (val * 256) + (a.toNat : Int)) * 256)
          + (b.toNat : Int)) * 256) + (c.toNat : Int)))
        (-6)
        (out ++ [b64At (a.toNat / 4 : Nat), b64At (a.toNat % 4 * 16 + b.toNat / 16 : Nat),
          b64At (b.toNat % 16 * 4 + c.toNat / 64 : Nat), b64At (c.toNat % 64 : Nat)]) rest := by
  simp [encodeLoop, encodeEmit]
  have e1 := wrap32_shift_mod val a.toNat (by omega) (by omega)
  have e2 := wrap32_shift_mod (wrap32 (wrap32 (val * 256) + (a.toNat : Int))) b.toNat
    (by omega) (by omega)
  have e3 := wrap32_shift_mod
    (wrap32 (wrap32 (wrap32 (wrap32 (val * 256) + (a.toNat : Int)) * 256) + (b.toNat : Int)))
    c.toNat (by omega) (by omega)
  generalize wrap32 (wrap32 (val * 256) + (a.toNat : Int)) = v1 at e1 e2 e3 ⊢
  generalize wrap32 (wrap32 (v1 * 256) + (b.toNat : Int)) = v2 at e2 e3 ⊢
  generalize wrap32 (wrap32 (v2 * 256) + (c.toNat : Int)) = v3 at e3 ⊢
  have h1 : v1 / 4 % 64 = (a.toNat : Int) / 4 := by omega
  have h2 : v2 / 16 % 64 = (a.toNat : Int) % 4 * 16 + (b.toNat : Int) / 16 := by omega
  have h3 : v3 / 64 % 64 = (b.toNat : Int) % 16 * 4 + (c.toNat : Int) / 64 := by omega
  have h4 : v3 % 64 = (c.toNat : Int) % 64 := by omega
  rw [h1, h2, h3, h4]

theorem wrap32_shl_mod (v : Int) : wrap32 (v * 256) % 16777216 = v % 65536 * 256 := by
  unfold wrap32
  omega

theorem encodeTail_one (val : Int) (out : Str) (a : Char) (ha : a.toNat < 256)
    (hout : out.length % 4 = 0) :
    encodeTail (encodeLoop val (-6) out [a]).1 (encodeLoop val (-6) out [a]).2.1
        (encodeLoop val (-6) out [a]).2.2 =
      out ++ [b64At (a.toNat / 4 : Nat), b64At (a.toNat % 4 * 16 : Nat), '=', '='] := by
  simp [encodeLoop, encodeEmit, encodeTail]
  have e1 := wrap32_shift_mod val a.toNat (by omega) (by omega)
  generalize wrap32 (wrap32 (val * 256) + (a.toNat : Int)) = v1 at e1 ⊢
  have e2 := wrap32_shl_mod v1
  generalize wrap32 (v1 * 256) = w at e2 ⊢
  have h1 : v1 / 4 % 64 = (a.toNat : Int) / 4 := by omega
  have h2 : w / 16 % 64 = (a.toNat : Int) % 4 * 16 := by omega
  rw [h1, h2]
  simp [padLoop]
  rw [if_neg (by omega), if_neg (by omega), if_pos hout]

theorem encodeTail_two (val : Int) (out : Str) (a b : Char) (ha : a.toNat < 256)
    (hb : b.toNat < 256) (hout : out.length % 4 = 0) :
    encodeTail (encodeLoop val (-6) out [a, b]).1 (encodeLoop val (-6) out [a, b]).2.1
        (encodeLoop val (-6) out [a, b]).2.2 =
      out ++ [b64At (a.toNat / 4 : Nat), b64At (a.toNat % 4 * 16 + b.toNat / 16 : Nat),
        b64At (b.toNat % 16 * 4 : Nat), '='] := by
  simp [encodeLoop, encodeEmit, encodeTail]
  have e1 := wrap32_shift_mod val a.toNat (by omega) (by omega)
  generalize wrap32 (wrap32 (val * 256) + (a.toNat : Int)) = v1 at e1 ⊢
  have e2 := wrap32_shift_mod v1 b.toNat (by omega) (by omega)
  generalize wrap32 (wrap32 (v1 * 256) + (b.toNat : Int)) = v2 at e2 ⊢
  have e3 := wrap32_shl_mod v2
  generalize wrap32 (v2 * 256) = w at e3 ⊢
  have h1 : v1 / 4 % 64 = (a.toNat : Int) / 4 := by omega
  have h2 : v2 / 16 % 64 = (a.toNat : Int) % 4 * 16 + (b.toNat : Int) / 16 := by omega
  have h3 : w / 64 % 64 = (b.toNat : Int) % 16 * 4 := by omega
  rw [h1, h2, h3]
  simp [padLoop]
  rw [if_neg (by omega), if_pos (by omega)]

theorem encodeTail_none (val : Int) (out : Str) (hout : out.length % 4 = 0) :
    encodeTail (encodeLoop val (-6) out []).1 (encodeLoop val (-6) out []).2.1
        (encodeLoop val (-6) out []).2.2 = out := by
  simp [encodeLoop, encodeTail, padLoop, hout]

theorem encode_groups (s : Str) (hbytes : ∀ c ∈ s, c.toNat < 256) :
    ∀ (val : Int) (out : Str), out.length % 4 = 0 →
      encodeTail (encodeLoop val (-6) out s).1 (encodeLoop val (-6) out s).2.1
          (encodeLoop val (-6) out s).2.2 = out ++ base64Groups s := by
  induction s using base64Groups.induct with
  | case1 =>
    intro val out hout
    rw [encodeTail_none val out hout]
    simp [base64Groups]
  | case2 a =>
    intro val out hout
    rw [encodeTail_one val out a (hbytes a (by simp)) hout]
    simp [base64Groups]
  | case3 a b =>
    intro val out hout
    rw [encodeTail_two val out a b (hbytes a (by simp)) (hbytes b (by simp)) hout]
    simp [base64Groups]
  | case4 a b c rest ih =>
    intro val out hout
    rw [encodeLoop_three val out a b c rest (hbytes a (by simp)) (hbytes b (by simp))
      (hbytes c (by simp))]
    rw [ih (fun x hx => hbytes x (by simp [hx])) _ _ (by simp; omega)]
    simp [base64Groups]

theorem base64_encode_eq_groups (s : Str) (hbytes : ∀ c ∈ s, c.toNat < 256) :
    base64_encode s = base64Groups s := by
  have h := encode_groups s hbytes 0 [] rfl
  simpa [base64_encode] using h

theorem tableT_b64At (i : Int) (h0 : 0 ≤ i) (h1 : i < 64) : tableT (b64At i) = i := by
  obtain ⟨n, rfl⟩ := Int.eq_ofNat_of_zero_le h0
  have hn : n < 64 := by omega
  interval_cases n <;> decide

theorem tableT_pad : tableT '=' = -1 := by decide

theorem b64At_mem (i : Int) : b64At i ∈ B64_CHARS := by
  unfold b64At
  rw [List.getD_eq_getElem?_getD]
  cases h : B64_CHARS[i.toNat]? with
  | none => decide
  | some c => exact List.getElem?_mem h

theorem decodeLoop_four (val : Int) (out : Str) (i1 i2 i3 i4 : Int) (rest : Str)
    (h1 : 0 ≤ i1 ∧ i1 < 64) (h2 : 0 ≤ i2 ∧ i2 < 64) (h3 : 0 ≤ i3 ∧ i3 < 64)
    (h4 : 0 ≤ i4 ∧ i4 < 64) :
    decodeLoop val (-8) out (b64At i1 :: b64At i2 :: b64At i3 :: b64At i4 :: rest) =
      decodeLoop
        (wrap32 (wrap32 (wrap32 (wrap32 (wrap32 (wrap32 (wrap32 (wrap32 (val * 64) + i1) * 64)
          + i2) * 64) + i3) * 64) + i4))
        (-8)
        (out ++ [Char.ofNat (i1 * 4 + i2 / 16).toNat, Char.ofNat (i2 % 16 * 16 + i3 / 4).toNat,
          Char.ofNat (i3 % 4 * 64 + i4).toNat]) rest := by
  have n1 : ¬ i1 = -1 := by omega
  have n2 : ¬ i2 = -1 := by omega
  have n3 : ¬ i3 = -1 := by omega
  have n4 : ¬ i4 = -1 := by omega
  simp [decodeLoop, tableT_b64At i1 h1.1 h1.2, tableT_b64At i2 h2.1 h2.2,
    tableT_b64At i3 h3.1 h3.2, tableT_b64At i4 h4.1 h4.2, n1, n2, n3, n4]
  have e1 := wrap32_shift6_mod val i1 h1.1 h1.2
  generalize wrap32 (wrap32 (val * 64) + i1) = v1 at e1 ⊢
  have e2 := wrap32_shift6_mod v1 i2 h2.1 h2.2
  generalize wrap32 (wrap32 (v1 * 64) + i2) = v2 at e2 ⊢
  have e3 := wrap32_shift6_mod v2 i3 h3.1 h3.2
  generalize wrap32 (wrap32 (v2 * 64) + i3) = v3 at e3 ⊢
  have e4 := wrap32_shift6_mod v3 i4 h4.1 h4.2
  generalize wrap32 (wrap32 (v3 * 64) + i4) = v4 at e4 ⊢
  have b1 : v2 / 16 % 256 = i1 * 4 + i2 / 16 := by omega
  have b2 : v3 / 4 % 256 = i2 % 16 * 16 + i3 / 4 := by omega
  have b3 : v4 % 256 = i3 % 4 * 64 + i4 := by omega
  rw [b1, b2, b3]

theorem decodeLoop_two_pad (val : Int) (out : Str) (i1 i2 : Int) (rest : Str)
    (h1 : 0 ≤ i1 ∧ i1 < 64) (h2 : 0 ≤ i2 ∧ i2 < 64) :
    decodeLoop val (-8) out (b64At i1 :: b64At i2 :: '=' :: rest) =
      out ++ [Char.ofNat (i1 * 4 + i2 / 16).toNat] := by
  have n1 : ¬ i1 = -1 := by omega
  have n2 : ¬ i2 = -1 := by omega
  simp [decodeLoop, tableT_b64At i1 h1.1 h1.2, tableT_b64At i2 h2.1 h2.2, n1, n2, tableT_pad]
  have e1 := wrap32_shift6_mod val i1 h1.1 h1.2
  generalize wrap32 (wrap32 (val * 64) + i1) = v1 at e1 ⊢
  have e2 := wrap32_shift6_mod v1 i2 h2.1 h2.2
  generalize wrap32 (wrap32 (v1 * 64) + i2) = v2 at e2 ⊢
  have b1 : v2 / 16 % 256 = i1 * 4 + i2 / 16 := by omega
  rw [b1]

theorem decodeLoop_three_pad (val : Int) (out : Str) (i1 i2 i3 : Int) (rest : Str)
    (h1 : 0 ≤ i1 ∧ i1 < 64) (h2 : 0 ≤ i2 ∧ i2 < 64) (h3 : 0 ≤ i3 ∧ i3 < 64) :
    decodeLoop val (-8) out (b64At i1 :: b64At i2 :: b64At i3 :: '=' :: rest) =
      out ++ [Char.ofNat (i1 * 4 + i2 / 16).toNat, Char.ofNat (i2 % 16 * 16 + i3 / 4).toNat] := by
  have n1 : ¬ i1 = -1 := by omega
  have n2 : ¬ i2 = -1 := by omega
  have n3 : ¬ i3 = -1 := by omega
  simp [decodeLoop, tableT_b64At i1 h1.1 h1.2, tableT_b64At i2 h2.1 h2.2,
    tableT_b64At i3 h3.1 h3.2, n1, n2, n3, tableT_pad]
  have e1 := wrap32_shift6_mod val i1 h1.1 h1.2
  generalize wrap32 (wrap32 (val * 64) + i1) = v1 at e1 ⊢
  have e2 := wrap32_shift6_mod v1 i2 h2.1 h2.2
  generalize wrap32 (wrap32 (v1 * 64) + i2) = v2 at e2 ⊢
  have e3 := wrap32_shift6_mod v2 i3 h3.1 h3.2
  generalize wrap32 (wrap32 (v2 * 64) + i3) = v3 at e3 ⊢
  have b1 : v2 / 16 % 256 = i1 * 4 + i2 / 16 := by omega
  have b2 : v3 / 4 % 256 = i2 % 16 * 16 + i3 / 4 := by omega
  rw [b1, b2]
  exact ⟨rfl, rfl⟩

theorem ofNat_byte (a : Char) (x : Int) (h : x = (a.toNat : Int)) : Char.ofNat x.toNat = a := by
  rw [h, Int.toNat_ofNat, Char.ofNat_toNat]

theorem decode_groups (s : Str) (hbytes : ∀ c ∈ s, c.toNat < 256) :
    ∀ (val : Int) (out : Str), decodeLoop val (-8) out (base64Groups s) = out ++ s := by
  induction s using base64Groups.induct with
  | case1 =>
    intro val out
    simp [base64Groups, decodeLoop]
  | case2 a =>
    intro val out
    have ha := hbytes a (by simp)
    rw [base64Groups, decodeLoop_two_pad val out _ _ _ (by omega) (by omega)]
    rw [ofNat_byte a _ (by omega)]
  | case3 a b =>
    intro val out
    have ha := hbytes a (by simp)
    have hb := hbytes b (by simp)
    rw [base64Groups, decodeLoop_three_pad val out _ _ _ _ (by omega) (by omega) (by omega)]
    rw [ofNat_byte a _ (by omega), ofNat_byte b _ (by omega)]
  | case4 a b c rest ih =>
    intro val out
    have ha := hbytes a (by simp)
    have hb := hbytes b (by simp)
    have hc := hbytes c (by simp)
    rw [base64Groups]
    simp only [List.cons_append, List.nil_append]
    rw [decodeLoop_four val out _ _ _ _ _ (by omega) (by omega) (by omega) (by omega)]
    rw [ih (fun x hx => hbytes x (by simp [hx]))]
    rw [ofNat_byte a _ (by omega), ofNat_byte b _ (by omega), ofNat_byte c _ (by omega)]
    simp

theorem length_base64Groups (s : Str) : (base64Groups s).length = 4 * ((s.length + 2) / 3) := by
  induction s using base64Groups.induct with
  | case1 => rfl
  | case2 a => simp [base64Groups]
  | case3 a b => simp [base64Groups]
  | case4 a b c rest ih =>
    simp only [base64Groups, List.length_append, List.length_cons, List.length_nil, ih]
    omega

theorem base64Groups_alphabet (s : Str) :
    ∃ (body : Str) (k : Nat), base64Groups s = body ++ List.replicate k '=' ∧
      (∀ c ∈ body, c ∈ B64_CHARS) ∧ k < 3 := by
  induction s using base64Groups.induct with
  | case1 => exact ⟨[], 0, rfl, (fun _ h => nomatch h), by omega⟩
  | case2 a =>
    refine ⟨[b64At (a.toNat / 4 : Nat), b64At (a.toNat % 4 * 16 : Nat)], 2, rfl, ?_, by omega⟩
    intro c hc
    simp only [List.mem_cons, List.mem_singleton, List.not_mem_nil, or_false] at hc
    rcases hc with h | h <;> rw [h] <;> exact b64At_mem _
  | case3 a b =>
    refine ⟨[b64At (a.toNat / 4 : Nat), b64At (a.toNat % 4 * 16 + b.toNat / 16 : Nat),
      b64At (b.toNat % 16 * 4 : Nat)], 1, rfl, ?_, by omega⟩
    intro c hc
    simp only [List.mem_cons, List.mem_singleton, List.not_mem_nil, or_false] at hc
    rcases hc with h | h | h <;> rw [h] <;> exact b64At_mem _
  | case4 a b c rest ih =>
    obtain ⟨body, k, hb, hmem, hk⟩ := ih
    refine ⟨[b64At (a.toNat / 4 : Nat), b64At (a.toNat % 4 * 16 + b.toNat / 16 : Nat),
      b64At (b.toNat % 16 * 4 + c.toNat / 64 : Nat), b64At (c.toNat % 64 : Nat)] ++ body, k,
      ?_, ?_, hk⟩
    · rw [base64Groups, hb, List.append_assoc]
    · intro x hx
      rcases List.mem_append.mp hx with h | h
      · simp only [List.mem_cons, List.mem_singleton, List.not_mem_nil, or_false] at h
        rcases h with h | h | h | h <;> rw [h] <;> exact b64At_mem _
      · exact hmem x h

/-- C29. For every byte string `s` (every character a byte, with code below
256): `base64_decode(base64_encode(s))` is `s`; the length of
`base64_encode(s)` is four times the number of groups of three bytes, the last
one possibly short, that is `4 * ceil(|s| / 3)`; and `base64_encode(s)` consists
of characters of `B64_CHARS` (the letters, the digits, `+` and `/`), none of
them `=`, followed by at most two `=`.  It is the text the usual description
by groups gives. -/
theorem base64_round_trip (s : Str) (hbytes : ∀ c ∈ s, c.toNat < 256) :
    base64_decode (base64_encode s) = s ∧
    (base64_encode s).length = 4 * ((s.length + 2) / 3) ∧
    (∃ (body : Str) (k : Nat), base64_encode s = body ++ List.replicate k '=' ∧
      (∀ c ∈ body, c ∈ B64_CHARS ∧ c ≠ '=') ∧ k < 3) ∧
    base64_encode s = base64Groups s := by
  have he := base64_encode_eq_groups s hbytes
  refine ⟨?_, ?_, ?_, he⟩
  · rw [he]
    have h := decode_groups s hbytes 0 []
    simpa [base64_decode] using h
  · rw [he]
    exact length_base64Groups s
  · obtain ⟨body, k, hb, hmem, hk⟩ := base64Groups_alphabet s
    refine ⟨body, k, by rw [he, hb], ?_, hk⟩
    intro c hc
    refine ⟨hmem c hc, ?_⟩
    intro h
    have h2 := hmem c hc
    rw [h] at h2
    exact absurd h2 (by decide)

/-- Witness for C29: the three bytes of `Man` and the two bytes of `hi`. -/
theorem base64_round_trip_witness :
    (∀ c ∈ "hi".toList, c.toNat < 256) ∧
    base64_encode "Man".toList = "TWFu".toList ∧
    base64_encode "hi".toList = "aGk=".toList ∧
    (base64_decode (base64_encode "hi".toList) = "hi".toList ∧
    (base64_encode "hi".toList).length = 4 * (("hi".toList.length + 2) / 3) ∧
    (∃ (body : Str) (k : Nat), base64_encode "hi".toList = body ++ List.replicate k '=' ∧
      (∀ c ∈ body, c ∈ B64_CHARS ∧ c ≠ '=') ∧ k < 3) ∧
    base64_encode "hi".toList = base64Groups "hi".toList) :=
  ⟨by decide, by decide, by decide, base64_round_trip "hi".toList (by decide)⟩

/-! ## C27: entries with a closing brace and the reload of the snapshot -/

theorem tryLengths_some (cont : Str → Option (Nat × Option Str)) (s : Str) (min : Nat) :
    ∀ (n k : Nat) (r : Nat × Option Str), tryLengths cont s min n = some (k, r) →
      min ≤ k ∧ k ≤ n ∧ cont (s.drop k) = some r := by
  intro n
  induction n with
  | zero =>
    intro k r h
    simp only [tryLengths] at h
    split at h
    · rename_i h0
      cases hc : cont s with
      | none => simp [hc] at h
      | some r0 =>
        simp only [hc, Option.map_some', Option.some.injEq, Prod.mk.injEq] at h
        obtain ⟨hk, hr⟩ := h
        subst hk
        subst hr
        exact ⟨by omega, le_refl _, by simpa using hc⟩
    · simp at h
  | succ n ih =>
    intro k r h
    simp only [tryLengths] at h
    split at h
    · simp at h
    · rename_i hmin
      cases hc : cont (s.drop (n + 1)) with
      | none =>
        simp only [hc] at h
        obtain ⟨h1, h2, h3⟩ := ih k r h
        exact ⟨h1, by omega, h3⟩
      | some r0 =>
        simp only [hc, Option.some.injEq, Prod.mk.injEq] at h
        obtain ⟨hk, hr⟩ := h
        subst hk
        subst hr
        exact ⟨by omega, le_refl _, hc⟩

theorem tryLengths_complete (cont : Str → Option (Nat × Option Str)) (s : Str) (min : Nat) :
    ∀ (n k : Nat), min ≤ k → k ≤ n → cont (s.drop k) ≠ none →
      tryLengths cont s min n ≠ none := by
  intro n
  induction n with
  | zero =>
    intro k hmin hk hc
    have hk0 : k = 0 := by omega
    subst hk0
    have h0 : min = 0 := by omega
    simp only [List.drop_zero] at hc
    cases hcs : cont s with
    | none => exact absurd hcs hc
    | some r => simp [tryLengths, h0, hcs]
  | succ n ih =>
    intro k hmin hk hc
    by_cases hkn : k = n + 1
    · subst hkn
      have h1 : ¬ (n + 1 < min) := by omega
      cases hcs : cont (s.drop (n + 1)) with
      | none => exact absurd hcs hc
      | some r => simp [tryLengths, h1, hcs]
    · have h1 : ¬ (n + 1 < min) := by omega
      simp only [tryLengths, if_neg h1]
      cases hcs : cont (s.drop (n + 1)) with
      | none => exact ih k hmin (by omega) hc
      | some r => simp

theorem take_of_le_takeWhile (p : Char → Bool) (s : Str) (k : Nat)
    (hk : k ≤ (s.takeWhile p).length) : ∀ c ∈ s.take k, p c = true := by
  induction s generalizing k with
  | nil => simp
  | cons x xs ih =>
    cases k with
    | zero => simp
    | succ k =>
      by_cases hp : p x = true
      · simp only [List.takeWhile_cons, hp, if_true, List.length_cons] at hk
        intro c hc
        simp only [List.take_succ_cons, List.mem_cons] at hc
        rcases hc with h | h
        · rw [h]
          exact hp
        · exact ih k (by omega) c h
      · simp [List.takeWhile_cons, hp] at hk

theorem matchItems_sound : ∀ (re : List RegexItem) (s : Str) (r : Nat × Option Str),
    matchItems re s = some r → ∃ w rest, s = w ++ rest ∧ w.length = r.1 ∧ Parses re w := by
  intro re
  induction re with
  | nil =>
    intro s r h
    simp only [matchItems, Option.some.injEq] at h
    subst h
    exact ⟨[], s, rfl, rfl, rfl⟩
  | cons item re ih =>
    intro s r h
    cases item with
    | lit l =>
      simp only [matchItems] at h
      split at h
      · rename_i hp
        cases hm : matchItems re (s.drop l.length) with
        | none => simp [hm] at h
        | some r1 =>
          simp only [hm, Option.map_some', Option.some.injEq] at h
          subst h
          obtain ⟨w1, rest, hs, hlen, hpar⟩ := ih _ _ hm
          obtain ⟨t, ht⟩ := List.isPrefixOf_iff_prefix.mp hp
          have hd : s.drop l.length = t := by
            rw [← ht, List.drop_left]
          refine ⟨l ++ w1, rest, ?_, ?_, ⟨w1, rfl, hpar⟩⟩
          · rw [← ht, List.append_assoc, ← hs, hd]
          · simp [hlen]
      · simp at h
    | rep cls min cap =>
      simp only [matchItems] at h
      cases ht : tryLengths (matchItems re) s min (s.takeWhile cls.test).length with
      | none => simp [ht] at h
      | some x =>
        obtain ⟨k, n, c⟩ := x
        simp only [ht, Option.some.injEq] at h
        subst h
        obtain ⟨hmin, hk, hc⟩ := tryLengths_some _ _ _ _ _ _ ht
        obtain ⟨w1, rest, hs, hlen, hpar⟩ := ih _ _ hc
        have hks : k ≤ s.length := le_trans hk (List.takeWhile_prefix _).length_le
        refine ⟨s.take k ++ w1, rest, ?_, ?_, ⟨s.take k, w1, rfl, ?_, ?_, hpar⟩⟩
        · rw [List.append_assoc, ← hs, List.take_append_drop]
        · simp only [List.length_append, List.length_take, hlen]
          omega
        · exact take_of_le_takeWhile _ _ _ hk
        · simp only [List.length_take]
          omega

theorem matchItems_complete : ∀ (re : List RegexItem) (w : Str), Parses re w →
    ∀ rest, ∃ r, matchItems re (w ++ rest) = some r := by
  intro re
  induction re with
  | nil =>
    intro w _ rest
    exact ⟨_, rfl⟩
  | cons item re ih =>
    intro w hp rest
    cases item with
    | lit l =>
      obtain ⟨w1, hw, hp1⟩ := hp
      obtain ⟨r1, hr1⟩ := ih w1 hp1 rest
      refine ⟨(l.length + r1.1, r1.2), ?_⟩
      rw [hw, List.append_assoc, matchItems_lit, hr1]
      rfl
    | rep cls min cap =>
      obtain ⟨u, w1, hw, hu, hmin, hp1⟩ := hp
      obtain ⟨r1, hr1⟩ := ih w1 hp1 rest
      have hrun : u.length ≤ ((w ++ rest).takeWhile cls.test).length := by
        rw [hw, List.append_assoc, takeWhile_append_all _ _ _ hu]
        simp
      have hne := tryLengths_complete (matchItems re) (w ++ rest) min
        ((w ++ rest).takeWhile cls.test).length u.length hmin hrun
        (by rw [hw, List.append_assoc, List.drop_left, hr1]; simp)
      cases ht : tryLengths (matchItems re) (w ++ rest) min
          ((w ++ rest).takeWhile cls.test).length with
      | none => exact absurd ht hne
      | some x =>
        obtain ⟨k, n, c⟩ := x
        exact ⟨_, matchItems_rep cls min cap re (w ++ rest) k (n, c) ht⟩

theorem regexIterFrom_skip_chars (re : List RegexItem) (a s : Str) :
    regexIterFrom re a.length (a ++ s) = regexIterFrom re 0 s := by
  induction a with
  | nil => rfl
  | cons c a ih => simpa [regexIterFrom] using ih

theorem regexIterFrom_cons_none (re : List RegexItem) (c : Char) (t : Str)
    (h : matchItems re (c :: t) = none) :
    regexIterFrom re 0 (c :: t) = regexIterFrom re 0 t := by
  simp [regexIterFrom, h]

theorem regexIterFrom_cons_some (re : List RegexItem) (c : Char) (t : Str)
    (r : Nat × Option Str) (h : matchItems re (c :: t) = some r) :
    regexIterFrom re 0 (c :: t) =
      ((c :: t).take r.1, r.2.getD []) :: regexIterFrom re (r.1 - 1) t := by
  simp [regexIterFrom, h]

theorem regexIterFrom_none (re : List RegexItem) (a s : Str)
    (h : ∀ k, k < a.length → matchItems re (a.drop k ++ s) = none) :
    regexIterFrom re 0 (a ++ s) = regexIterFrom re 0 s := by
  induction a with
  | nil => rfl
  | cons c a ih =>
    have h0 := h 0 (by simp)
    simp only [List.drop_zero, List.cons_append] at h0
    rw [List.cons_append, regexIterFrom_cons_none re c (a ++ s) h0]
    apply ih
    intro k hk
    have h1 := h (k + 1) (by simp; omega)
    simpa using h1

theorem regexIterFrom_found (re : List RegexItem) (w s : Str) (r : Nat × Option Str)
    (hw : w ≠ []) (h : matchItems re (w ++ s) = some r) (hlen : r.1 = w.length) :
    regexIterFrom re 0 (w ++ s) = (w, r.2.getD []) :: regexIterFrom re 0 s := by
  cases w with
  | nil => exact absurd rfl hw
  | cons c w =>
    simp only [List.cons_append] at h
    rw [List.cons_append, regexIterFrom_cons_some re c (w ++ s) r h]
    have h1 : r.1 - 1 = w.length := by simp [hlen]
    rw [h1, regexIterFrom_skip_chars]
    have h2 : (c :: (w ++ s)).take r.1 = c :: w := by
      rw [hlen]
      have e : c :: (w ++ s) = (c :: w) ++ s := rfl
      rw [e, List.take_left']
      rfl
    rw [h2]

theorem first_brace_unique (x y x2 y2 : Str) (h : x ++ '\x7d' :: y = x2 ++ '\x7d' :: y2)
    (hx : '\x7d' ∉ x) (hx2 : '\x7d' ∉ x2) : x = x2 ∧ y = y2 := by
  induction x generalizing x2 with
  | nil =>
    cases x2 with
    | nil => simpa using h
    | cons c x2 =>
      simp only [List.nil_append, List.cons_append, List.cons.injEq] at h
      simp only [List.mem_cons, not_or] at hx2
      exact absurd h.1 hx2.1
  | cons c x ih =>
    simp only [List.mem_cons, not_or] at hx
    cases x2 with
    | nil =>
      simp only [List.nil_append, List.cons_append, List.cons.injEq] at h
      exact absurd h.1.symm hx.1
    | cons c2 x2 =>
      simp only [List.cons_append, List.cons.injEq] at h
      simp only [List.mem_cons, not_or] at hx2
      obtain ⟨h1, h2⟩ := ih x2 h.2 hx.2 hx2.2
      exact ⟨by rw [h.1, h1], h2⟩

theorem notBrace_test (u : Str) :
    (∀ c ∈ u, (CharClass.notChar '\x7d').test c = true) ↔ '\x7d' ∉ u := by
  constructor
  · intro h hm
    have := h _ hm
    simp [CharClass.test] at this
  · intro h c hc
    have hne : c ≠ '\x7d' := fun e => h (e ▸ hc)
    simpa [CharClass.test] using hne

theorem parses_message (w : Str) :
    Parses message_regex w ↔
      ∃ u1 u2 u3 u4 : Str, '\x7d' ∉ u1 ∧ '\x7d' ∉ u2 ∧ '\x7d' ∉ u3 ∧ '\x7d' ∉ u4 ∧
        w = '\x7b' :: (u1 ++ ("\"username\":".toList ++ (u2 ++ ("\"content\":".toList ++
          (u3 ++ ("\"timestamp\":".toList ++ u4)))))) ++ ['\x7d'] := by
  constructor
  · intro h
    simp only [message_regex, Parses] at h
    obtain ⟨w1, e1, u1, w2, e2, h1, -, w3, e3, u2, w4, e4, h2, -, w5, e5, u3, w6, e6, h3, -,
      w7, e7, u4, w8, e8, h4, -, w9, e9, e10⟩ := h
    refine ⟨u1, u2, u3, u4, (notBrace_test u1).mp h1, (notBrace_test u2).mp h2,
      (notBrace_test u3).mp h3, (notBrace_test u4).mp h4, ?_⟩
    subst e10
    subst e9
    subst e8
    subst e7
    subst e6
    subst e5
    subst e4
    subst e3
    subst e2
    subst e1
    simp
  · rintro ⟨u1, u2, u3, u4, h1, h2, h3, h4, e⟩
    simp only [message_regex, Parses]
    refine ⟨_, ?_, u1, _, rfl, (notBrace_test u1).mpr h1, Nat.zero_le _, _, rfl, u2, _, rfl,
      (notBrace_test u2).mpr h2, Nat.zero_le _, _, rfl, u3, _, rfl, (notBrace_test u3).mpr h3,
      Nat.zero_le _, _, rfl, u4, _, rfl, (notBrace_test u4).mpr h4, Nat.zero_le _, [], rfl, rfl⟩
    rw [e]
    simp

theorem parses_message_body (w : Str) (h : Parses message_regex w) :
    ∃ body : Str, w = '\x7b' :: body ++ ['\x7d'] ∧ '\x7d' ∉ body ∧
      (∃ p q : Str, body = p ++ ("\"username\":".toList ++ q)) ∧
      (∃ p q : Str, body = p ++ ("\"timestamp\":".toList ++ q)) := by
  obtain ⟨u1, u2, u3, u4, h1, h2, h3, h4, e⟩ := (parses_message w).mp h
  refine ⟨_, e, ?_, ⟨u1, _, rfl⟩, ⟨u1 ++ ("\"username\":".toList ++ (u2 ++ ("\"content\":".toList
    ++ u3))), u4, by simp⟩⟩
  simp only [List.mem_append, not_or]
  exact ⟨h1, by decide, h2, by decide, h3, by decide, h4⟩

theorem matchItems_message_head (c : Char) (t : Str) (h : c ≠ '\x7b') :
    matchItems message_regex (c :: t) = none := by
  have hc : ('\x7b' == c) = false := by
    have h2 : ¬ '\x7b' = c := fun e => h e.symm
    simpa using h2
  simp [message_regex, matchItems, List.isPrefixOf, hc]

theorem seg_none (L seg rest : Str)
    (hL : L = "\"username\":".toList ∨ L = "\"timestamp\":".toList)
    (hseg : '\x7d' ∉ seg) (hq : QuietBefore L seg ('\x7d' :: rest)) :
    regexIterFrom message_regex 0 (seg ++ '\x7d' :: rest) =
      regexIterFrom message_regex 0 rest := by
  have e : seg ++ '\x7d' :: rest = (seg ++ ['\x7d']) ++ rest := by simp
  rw [e]
  apply regexIterFrom_none
  intro k hk
  simp only [List.length_append, List.length_singleton] at hk
  by_cases hks : k < seg.length
  · have hd : (seg ++ ['\x7d']).drop k ++ rest = seg.drop k ++ '\x7d' :: rest := by
      rw [List.drop_append_of_le_length (by omega)]
      simp
    rw [hd]
    cases hm : matchItems message_regex (seg.drop k ++ '\x7d' :: rest) with
    | none => rfl
    | some r =>
      exfalso
      obtain ⟨w, rest2, hs, -, hp⟩ := matchItems_sound _ _ _ hm
      obtain ⟨body, hw, hb, hA, hC⟩ := parses_message_body w hp
      have hu : ('\x7b' :: body) ++ '\x7d' :: rest2 = seg.drop k ++ '\x7d' :: rest := by
        rw [hs, hw]
        simp
      have hbb : '\x7d' ∉ '\x7b' :: body := by
        simp only [List.mem_cons, not_or]
        exact ⟨by decide, hb⟩
      have hsd : '\x7d' ∉ seg.drop k := fun hmem => hseg (List.mem_of_mem_drop hmem)
      obtain ⟨hbody, -⟩ := first_brace_unique _ _ _ _ hu hbb hsd
      have hocc : ∃ p q : Str, body = p ++ (L ++ q) ∧ L ≠ [] := by
        rcases hL with h1 | h1
        · obtain ⟨p, q, hpq⟩ := hA
          exact ⟨p, q, by rw [h1]; exact hpq, by rw [h1]; decide⟩
        · obtain ⟨p, q, hpq⟩ := hC
          exact ⟨p, q, by rw [h1]; exact hpq, by rw [h1]; decide⟩
      obtain ⟨p, q, hpq, hLne⟩ := hocc
      have hlen : (seg.drop k).length = 1 + p.length + L.length + q.length := by
        rw [← hbody, hpq]
        simp
        omega
      have hLpos : 0 < L.length := List.length_pos.mpr hLne
      have hlt : k + (1 + p.length) < seg.length := by
        simp only [List.length_drop] at hlen
        omega
      have hdrop : seg.drop (k + (1 + p.length)) = L ++ q := by
        rw [← List.drop_drop, ← hbody, hpq]
        have e2 : '\x7b' :: (p ++ (L ++ q)) = ('\x7b' :: p) ++ (L ++ q) := rfl
        rw [e2]
        have e3 : 1 + p.length = ('\x7b' :: p).length := by simp; omega
        rw [e3, List.drop_left]
      have hfalse := hq (k + (1 + p.length)) hlt
      rw [hdrop, List.append_assoc, isPrefixOf_append_self] at hfalse
      exact absurd hfalse (by decide)
  · have hk2 : k = seg.length := by omega
    rw [hk2, List.drop_left]
    exact matchItems_message_head _ _ (by decide)

theorem seg_match (pre body rest : Str) (hpre : '\x7b' ∉ pre)
    (hp : Parses message_regex ('\x7b' :: body ++ ['\x7d'])) :
    ∃ cap, regexIterFrom message_regex 0 (pre ++ ('\x7b' :: body ++ '\x7d' :: rest)) =
      ('\x7b' :: body ++ ['\x7d'], cap) :: regexIterFrom message_regex 0 rest := by
  have hskip : regexIterFrom message_regex 0 (pre ++ ('\x7b' :: body ++ '\x7d' :: rest)) =
      regexIterFrom message_regex 0 ('\x7b' :: body ++ '\x7d' :: rest) := by
    apply regexIterFrom_none
    intro k hk
    cases hd : pre.drop k with
    | nil =>
      have := List.drop_eq_nil_iff.mp hd
      omega
    | cons c t =>
      have hc : c ∈ pre := List.mem_of_mem_drop (by rw [hd]; simp)
      exact matchItems_message_head _ _ (fun e => hpre (e ▸ hc))
  obtain ⟨body1, hw1, hb1, -, -⟩ := parses_message_body _ hp
  have hbody : '\x7d' ∉ body := by
    have e1 : body = body1 := by
      have e2 : ('\x7b' :: body) ++ ['\x7d'] = ('\x7b' :: body1) ++ ['\x7d'] := hw1
      have e3 := List.append_cancel_right e2
      simpa using e3
    rw [e1]
    exact hb1
  obtain ⟨r, hr⟩ := matchItems_complete _ _ hp rest
  obtain ⟨w2, rest2, hs, hlen, hp2⟩ := matchItems_sound _ _ _ hr
  obtain ⟨body2, hw2, hb2, -, -⟩ := parses_message_body w2 hp2
  have hu : ('\x7b' :: body) ++ '\x7d' :: rest = ('\x7b' :: body2) ++ '\x7d' :: rest2 := by
    have e4 : ('\x7b' :: body ++ ['\x7d']) ++ rest = w2 ++ rest2 := hs
    rw [hw2] at e4
    simpa using e4
  have hbb : '\x7d' ∉ '\x7b' :: body := by
    simp only [List.mem_cons, not_or]
    exact ⟨by decide, hbody⟩
  have hbb2 : '\x7d' ∉ '\x7b' :: body2 := by
    simp only [List.mem_cons, not_or]
    exact ⟨by decide, hb2⟩
  obtain ⟨hbe, -⟩ := first_brace_unique _ _ _ _ hu hbb hbb2
  have hlen2 : r.1 = ('\x7b' :: body ++ ['\x7d']).length := by
    rw [← hlen, hw2, ← hbe]
  refine ⟨r.2.getD [], ?_⟩
  rw [hskip]
  have e5 : '\x7b' :: body ++ '\x7d' :: rest = ('\x7b' :: body ++ ['\x7d']) ++ rest := by simp
  rw [e5]
  exact regexIterFrom_found message_regex _ rest r (by simp) hr hlen2

theorem quiet_nil (L s : Str) : QuietBefore L [] s := by
  intro k hk
  simp at hk

theorem quiet_append (L J1 J2 s : Str) (h1 : QuietBefore L J1 (J2 ++ s))
    (h2 : QuietBefore L J2 s) : QuietBefore L (J1 ++ J2) s := by
  intro k hk
  by_cases hk1 : k < J1.length
  · have h := h1 k hk1
    rw [List.drop_append_of_le_length (by omega), List.append_assoc]
    exact h
  · simp only [List.length_append] at hk
    have h := h2 (k - J1.length) (by omega)
    have e : (J1 ++ J2).drop k = J2.drop (k - J1.length) := by
      rw [List.drop_append_eq_append_drop]
      have e1 : J1.drop k = [] := List.drop_eq_nil_iff.mpr (by omega)
      rw [e1]
      rfl
    rw [e]
    exact h

theorem quiet_suffix (L J1 J2 s : Str) (h : QuietBefore L (J1 ++ J2) s) :
    QuietBefore L J2 s := by
  intro k hk
  have h1 := h (J1.length + k) (by simp; omega)
  have e : (J1 ++ J2).drop (J1.length + k) = J2.drop k := by
    rw [← List.drop_drop, List.drop_left]
  rw [e] at h1
  exact h1

theorem quiet_run (q : Char) (L J s : Str) (hq : q ∉ J) : QuietBefore (q :: L) J s := by
  intro k hk
  cases hd : J.drop k with
  | nil =>
    have := List.drop_eq_nil_iff.mp hd
    omega
  | cons c t =>
    have hc : c ∈ J := List.mem_of_mem_drop (by rw [hd]; simp)
    have hne : (q == c) = false := by
      have h2 : ¬ q = c := fun e => hq (e ▸ hc)
      simpa using h2
    simp [List.isPrefixOf, hne]

theorem isPrefixOf_align_other (q z : Char) (K U x y : Str) (hU : q ∉ U) (hz : z ≠ q)
    (hK : z ∉ K) : (K ++ q :: x).isPrefixOf (U ++ z :: y) = false := by
  induction K generalizing U with
  | nil =>
    cases U with
    | nil =>
      have hc : (q == z) = false := by
        have h2 : ¬ q = z := fun e => hz e.symm
        simpa using h2
      simp [List.isPrefixOf, hc]
    | cons u U =>
      simp only [List.mem_cons, not_or] at hU
      have hc : (q == u) = false := by simpa using hU.1
      simp [List.isPrefixOf, hc]
  | cons k K ih =>
    simp only [List.mem_cons, not_or] at hK
    cases U with
    | nil =>
      have hc : (k == z) = false := by
        have h1 : ¬ k = z := fun e => hK.1 e.symm
        simpa using h1
      simp [List.isPrefixOf, hc]
    | cons u U =>
      simp only [List.mem_cons, not_or] at hU
      simp only [List.cons_append, List.isPrefixOf, Bool.and_eq_false_imp]
      intro _
      exact ih U hU.2 hK.2

theorem quiet_quoted (K x U y : Str) (hK : '"' ∉ K) (hU : '"' ∉ U)
    (hx : x.isPrefixOf y = false) :
    QuietBefore ('"' :: (K ++ '"' :: x)) ('"' :: U) ('"' :: y) := by
  have e : '"' :: U = ['"'] ++ U := rfl
  rw [e]
  apply quiet_append
  · intro k hk
    have hk0 : k = 0 := by
      simp at hk
      omega
    subst hk0
    have h := isPrefixOf_align '"' K U x y hK hU hx
    simpa [List.isPrefixOf] using h
  · exact quiet_run '"' _ U _ hU

theorem quiet_quoted_other (z : Char) (K x U y : Str) (hz : z ≠ '"') (hK : z ∉ K)
    (hU : '"' ∉ U) :
    QuietBefore ('"' :: (K ++ '"' :: x)) ('"' :: U) (z :: y) := by
  have e : '"' :: U = ['"'] ++ U := rfl
  rw [e]
  apply quiet_append
  · intro k hk
    have hk0 : k = 0 := by
      simp at hk
      omega
    subst hk0
    have h := isPrefixOf_align_other '"' z K U x y hU hz hK
    simpa [List.isPrefixOf] using h
  · exact quiet_run '"' _ U _ hU

theorem quiet_docHead_A (s : Str) :
    QuietBefore "\"username\":".toList "\x7b\n  \"users\": [\n".toList s := by
  intro k hk
  have hk2 : k < 15 := hk
  interval_cases k <;> rfl

theorem quiet_docHead_C (s : Str) :
    QuietBefore "\"timestamp\":".toList "\x7b\n  \"users\": [\n".toList s := by
  intro k hk
  have hk2 : k < 15 := hk
  interval_cases k <;> rfl

theorem quiet_docHead_Uq (s : Str) :
    QuietBefore "\"username\":\"".toList "\x7b\n  \"users\": [\n".toList s := by
  intro k hk
  have hk2 : k < 15 := hk
  interval_cases k <;> rfl

theorem quiet_docHead_Cq (s : Str) :
    QuietBefore "\"content\":\"".toList "\x7b\n  \"users\": [\n".toList s := by
  intro k hk
  have hk2 : k < 15 := hk
  interval_cases k <;> rfl

theorem quiet_userHead_C (s : Str) :
    QuietBefore "\"timestamp\":".toList "    \x7b\n      \"username\": ".toList s := by
  intro k hk
  have hk2 : k < 24 := hk
  interval_cases k <;> rfl

theorem quiet_userHead_Uq (s : Str) :
    QuietBefore "\"username\":\"".toList "    \x7b\n      \"username\": ".toList s := by
  intro k hk
  have hk2 : k < 24 := hk
  interval_cases k <;> rfl

theorem quiet_userHead_Cq (s : Str) :
    QuietBefore "\"content\":\"".toList "    \x7b\n      \"username\": ".toList s := by
  intro k hk
  have hk2 : k < 24 := hk
  interval_cases k <;> rfl

theorem quiet_userMid_A (s : Str) :
    QuietBefore "\"username\":".toList "\",\n      \"messages\": [\n".toList s := by
  intro k hk
  have hk2 : k < 23 := hk
  interval_cases k <;> rfl

theorem quiet_userMid_C (s : Str) :
    QuietBefore "\"timestamp\":".toList "\",\n      \"messages\": [\n".toList s := by
  intro k hk
  have hk2 : k < 23 := hk
  interval_cases k <;> rfl

theorem quiet_userMid_Uq (s : Str) :
    QuietBefore "\"username\":\"".toList "\",\n      \"messages\": [\n".toList s := by
  intro k hk
  have hk2 : k < 23 := hk
  interval_cases k <;> rfl

theorem quiet_userMid_Cq (s : Str) :
    QuietBefore "\"content\":\"".toList "\",\n      \"messages\": [\n".toList s := by
  intro k hk
  have hk2 : k < 23 := hk
  interval_cases k <;> rfl

theorem quiet_msgHead_C (s : Str) :
    QuietBefore "\"timestamp\":".toList "\x7b\"username\":".toList s := by
  intro k hk
  have hk2 : k < 12 := hk
  interval_cases k <;> rfl

theorem quiet_msgMid_C (s : Str) :
    QuietBefore "\"timestamp\":".toList "\",\"content\":".toList s := by
  intro k hk
  have hk2 : k < 12 := hk
  interval_cases k <;> rfl

theorem quiet_msgMid_A (s : Str) :
    QuietBefore "\"username\":".toList "\",\"content\":".toList s := by
  intro k hk
  have hk2 : k < 12 := hk
  interval_cases k <;> rfl

theorem quiet_msgEnd_A (s : Str) :
    QuietBefore "\"username\":".toList "\",\"timestamp\":".toList s := by
  intro k hk
  have hk2 : k < 14 := hk
  interval_cases k <;> rfl

theorem toJson_body (m : Message) : m.toJson = '\x7b' :: m.body ++ ['\x7d'] := by
  simp [Message.toJson, Message.body]

theorem not_mem_showNat (c : Char) (hc : c.isDigit = false) (n : Nat) : c ∉ showNat n := by
  intro h
  have := isDigit_showNat n c h
  rw [hc] at this
  exact absurd this (by decide)

theorem showInt_of_nonneg (x : Int) (h : 0 ≤ x) : showInt x = showNat x.toNat := by
  obtain ⟨n, rfl⟩ := Int.eq_ofNat_of_zero_le h
  rfl

theorem millis_nonneg (m : Message) (h0 : 0 ≤ m.timestamp) : 0 ≤ m.millis := by
  unfold Message.millis ticksPerMilli
  exact Int.tdiv_nonneg h0 (by decide)

theorem parses_junk_body (X : Str) (m : Message) (hX : '\x7d' ∉ X)
    (hu : '\x7d' ∉ m.username) (hc : '\x7d' ∉ m.content) (h0 : 0 ≤ m.timestamp) :
    Parses message_regex ('\x7b' :: (X ++ m.body) ++ ['\x7d']) := by
  rw [parses_message]
  refine ⟨X, '"' :: (m.username ++ "\",".toList), '"' :: (m.content ++ "\",".toList),
    showInt m.millis, hX, ?_, ?_, ?_, rfl⟩
  · simp only [List.mem_cons, List.mem_append, not_or]
    exact ⟨by decide, hu, by decide⟩
  · simp only [List.mem_cons, List.mem_append, not_or]
    exact ⟨by decide, hc, by decide⟩
  · rw [showInt_of_nonneg _ (millis_nonneg m h0)]
    exact not_mem_showNat _ (by decide) _

theorem fromJson_junk_toJson (J : Str) (m : Message) (hu : '"' ∉ m.username)
    (hc : '"' ∉ m.content) (h0 : 0 ≤ m.timestamp) (hmax : m.timestamp < 2 ^ 63)
    (h1 : QuietBefore "\"username\":\"".toList J m.toJson)
    (h2 : QuietBefore "\"content\":\"".toList J m.toJson)
    (h3 : QuietBefore "\"timestamp\":".toList J m.toJson) :
    Message.fromJson (J ++ m.toJson) =
      some { username := m.username, content := m.content,
             timestamp := m.millis * ticksPerMilli } := by
  have hms0 := millis_nonneg m h0
  obtain ⟨n, hn⟩ := Int.eq_ofNat_of_zero_le hms0
  have hshow : showInt m.millis = showNat n := by
    rw [hn]
    rfl
  have hle : m.millis * ticksPerMilli ≤ m.timestamp := by
    unfold Message.millis ticksPerMilli
    have e1 := Int.tdiv_add_tmod m.timestamp 1000000
    have e2 : 0 ≤ Int.tmod m.timestamp 1000000 := Int.tmod_nonneg _ h0
    linarith
  have hnle : (n : Int) * 1000000 < 2 ^ 63 := by
    have e3 : m.millis * ticksPerMilli < 2 ^ 63 := lt_of_le_of_lt hle hmax
    rw [hn] at e3
    exact e3
  obtain ⟨m2, s2⟩ := search_content_toJson m.username m.content
    (",".toList ++ ("\"timestamp\":".toList ++ (showNat n ++ "\x7d".toList))) hu hc
  obtain ⟨m3, s3⟩ := search_timestamp_toJson m.username m.content (showNat n) hu hc
    (isDigit_showNat n) (showNat_ne_nil n)
  have s1 := search_username_toJson m.username
    (",".toList ++ ("\"content\":\"".toList ++ (m.content ++ '"' ::
      (",".toList ++ ("\"timestamp\":".toList ++ (showNat n ++ "\x7d".toList)))))) hu
  have k1 : regexSearch username_regex (J ++ m.toJson) = regexSearch username_regex m.toJson :=
    regexSearch_skip_list _ _ J m.toJson h1
  have k2 : regexSearch content_regex (J ++ m.toJson) = regexSearch content_regex m.toJson :=
    regexSearch_skip_list _ _ J m.toJson h2
  have k3 : regexSearch timestamp_regex (J ++ m.toJson)
      = regexSearch timestamp_regex m.toJson :=
    regexSearch_skip_list _ _ J m.toJson h3
  unfold Message.fromJson
  rw [k1, k2, k3, toJson_shape, hshow, s1, s2, s3]
  have hst : stoll (showNat n) = some (n : Int) := by
    have hv := decimalValue_showNat n
    unfold decimalValue at hv
    unfold stoll
    simp only [hv]
    have hb : n ≤ 2 ^ 63 - 1 := by omega
    rw [if_pos hb]
    rfl
  simp only [hst]
  have hw : wrap64 ((n : Int) * ticksPerMilli) = (n : Int) * ticksPerMilli := by
    unfold wrap64 ticksPerMilli
    omega
  rw [hw, hn]

theorem pending_nil : Pending [] :=
  ⟨by simp, fun s => ⟨quiet_nil _ s, quiet_nil _ s, quiet_nil _ s⟩⟩

theorem pending_append_plain (P X : Str) (hP : Pending P) (hq : '"' ∉ X) (hb : '\x7d' ∉ X) :
    Pending (P ++ X) := by
  refine ⟨?_, fun s => ⟨?_, ?_, ?_⟩⟩
  · simp only [List.mem_append, not_or]
    exact ⟨hP.1, hb⟩
  · exact quiet_append _ _ _ _ ((hP.2 _).1) (quiet_run '"' _ X s hq)
  · exact quiet_append _ _ _ _ ((hP.2 _).2.1) (quiet_run '"' _ X s hq)
  · exact quiet_append _ _ _ _ ((hP.2 _).2.2) (quiet_run '"' _ X s hq)

theorem dropWhile_brace_cases (J : Str) :
    J.dropWhile (fun c => c != '\x7b') = [] ∨
      ∃ J3, J.dropWhile (fun c => c != '\x7b') = '\x7b' :: J3 := by
  induction J with
  | nil => exact Or.inl rfl
  | cons c J ih =>
    by_cases h : c = '\x7b'
    · right
      exact ⟨J, by simp [List.dropWhile, h]⟩
    · have hb : (c != '\x7b') = true := by simpa using h
      simpa [List.dropWhile, hb] using ih

theorem not_mem_takeWhile_brace (J : Str) : '\x7b' ∉ J.takeWhile (fun c => c != '\x7b') := by
  intro h
  have := List.mem_takeWhile_imp h
  simp at this

theorem good_segment (J : Str) (m : Message) (rest : Str) (hJ : '\x7d' ∉ J)
    (hu : '\x7d' ∉ m.username) (hc : '\x7d' ∉ m.content) (h0 : 0 ≤ m.timestamp) :
    ∃ cap, regexIterFrom message_regex 0 (J ++ (m.toJson ++ rest)) =
      (J.dropWhile (fun c => c != '\x7b') ++ m.toJson, cap)
        :: regexIterFrom message_regex 0 rest := by
  have hsplit := List.takeWhile_append_dropWhile (fun c => c != '\x7b') J
  have hpre := not_mem_takeWhile_brace J
  generalize hp : J.takeWhile (fun c => c != '\x7b') = pre at hsplit hpre
  rcases dropWhile_brace_cases J with h | ⟨J3, h⟩
  · rw [h] at hsplit ⊢
    simp only [List.append_nil] at hsplit
    have hpar := parses_junk_body [] m (by simp) hu hc h0
    simp only [List.nil_append] at hpar
    obtain ⟨cap, hcap⟩ := seg_match pre m.body rest hpre hpar
    refine ⟨cap, ?_⟩
    rw [← hsplit, toJson_body]
    simpa using hcap
  · rw [h] at hsplit ⊢
    have hJ3 : '\x7d' ∉ J3 ++ ['\x7b'] := by
      simp only [List.mem_append, List.mem_singleton, not_or]
      refine ⟨?_, by decide⟩
      intro hm
      apply hJ
      rw [← hsplit]
      simp [hm]
    have hpar := parses_junk_body (J3 ++ ['\x7b']) m hJ3 hu hc h0
    obtain ⟨cap, hcap⟩ := seg_match pre ((J3 ++ ['\x7b']) ++ m.body) rest hpre hpar
    refine ⟨cap, ?_⟩
    rw [← hsplit, toJson_body]
    simpa using hcap

theorem bad_tail (ms : Str) (hms : '"' ∉ ms) (hms2 : '\x7d' ∉ ms) (x : Str) :
    ∀ (acc rest : Str), '"' ∉ acc → '\x7d' ∉ acc → '"' ∉ x →
      regexIterFrom message_regex 0
          (acc ++ (x ++ ("\",\"timestamp\":".toList ++ (ms ++ '\x7d' :: rest)))) =
        regexIterFrom message_regex 0 rest := by
  induction x with
  | nil =>
    intro acc rest ha ha2 _
    have e : acc ++ ([] ++ ("\",\"timestamp\":".toList ++ (ms ++ '\x7d' :: rest)))
        = (acc ++ ("\",\"timestamp\":".toList ++ ms)) ++ '\x7d' :: rest := by simp
    rw [e]
    apply seg_none "\"username\":".toList _ _ (Or.inl rfl)
    · simp only [List.mem_append, not_or]
      exact ⟨ha2, by decide, hms2⟩
    · apply quiet_append
      · exact quiet_run '"' _ acc _ ha
      · apply quiet_append
        · exact quiet_msgEnd_A _
        · exact quiet_run '"' _ ms _ hms
  | cons ch x ih =>
    intro acc rest ha ha2 hx
    simp only [List.mem_cons, not_or] at hx
    by_cases hch : ch = '\x7d'
    · subst hch
      have e : acc ++ ('\x7d' :: x ++ ("\",\"timestamp\":".toList ++ (ms ++ '\x7d' :: rest)))
          = acc ++ '\x7d' :: ([] ++ (x ++ ("\",\"timestamp\":".toList ++ (ms ++ '\x7d' :: rest))))
          := by simp
      rw [e, seg_none "\"username\":".toList acc _ (Or.inl rfl) ha2 (quiet_run '"' _ acc _ ha)]
      exact ih [] rest (by simp) (by simp) hx.2
    · have e : acc ++ (ch :: x ++ ("\",\"timestamp\":".toList ++ (ms ++ '\x7d' :: rest)))
          = (acc ++ [ch]) ++ (x ++ ("\",\"timestamp\":".toList ++ (ms ++ '\x7d' :: rest))) := by
        simp
      rw [e]
      apply ih (acc ++ [ch]) rest
      · simp only [List.mem_append, List.mem_singleton, not_or]
        exact ⟨ha, hx.1⟩
      · simp only [List.mem_append, List.mem_singleton, not_or]
        exact ⟨ha2, fun e2 => hch e2.symm⟩
      · exact hx.2

theorem split_first_brace (c : Str) (h : '\x7d' ∈ c) :
    ∃ c1 c2 : Str, c = c1 ++ '\x7d' :: c2 ∧ '\x7d' ∉ c1 := by
  induction c with
  | nil => simp at h
  | cons a c ih =>
    by_cases ha : a = '\x7d'
    · exact ⟨[], c, by simp [ha], by simp⟩
    · have h2 : '\x7d' ∈ c := by
        rcases List.mem_cons.mp h with e | e
        · exact absurd e.symm ha
        · exact e
      obtain ⟨c1, c2, e, hn⟩ := ih h2
      refine ⟨a :: c1, c2, by rw [e]; rfl, ?_⟩
      simp only [List.mem_cons, not_or]
      exact ⟨fun e2 => ha e2.symm, hn⟩

theorem bad_segment (J : Str) (m : Message) (rest : Str) (hJ : Pending J)
    (hu : '"' ∉ m.username) (hu2 : '\x7d' ∉ m.username) (hc : '"' ∉ m.content)
    (hbad : '\x7d' ∈ m.content) (h0 : 0 ≤ m.timestamp) :
    regexIterFrom message_regex 0 (J ++ (m.toJson ++ rest)) =
      regexIterFrom message_regex 0 rest := by
  obtain ⟨c1, c2, hsplit, hc1⟩ := split_first_brace m.content hbad
  have hcq : '"' ∉ c1 ∧ '"' ∉ c2 := by
    rw [hsplit] at hc
    simp only [List.mem_append, List.mem_cons, not_or] at hc
    exact ⟨hc.1, hc.2.2⟩
  have hms : '"' ∉ showInt m.millis ∧ '\x7d' ∉ showInt m.millis := by
    rw [showInt_of_nonneg _ (millis_nonneg m h0)]
    exact ⟨not_mem_showNat _ (by decide) _, not_mem_showNat _ (by decide) _⟩
  have e : J ++ (m.toJson ++ rest) =
      (J ++ ("\x7b\"username\":".toList ++ (('"' :: m.username)
          ++ ("\",\"content\":".toList ++ ('"' :: c1)))))
        ++ '\x7d' :: ([] ++ (c2 ++ ("\",\"timestamp\":".toList
          ++ (showInt m.millis ++ '\x7d' :: rest)))) := by
    simp [Message.toJson, hsplit]
  rw [e, seg_none "\"timestamp\":".toList _ _ (Or.inr rfl)]
  · exact bad_tail _ hms.1 hms.2 c2 [] rest (by simp) (by simp) hcq.2
  · simp only [List.mem_append, List.mem_cons, not_or]
    exact ⟨hJ.1, by decide, ⟨by decide, hu2⟩, by decide, by decide, hc1⟩
  · apply quiet_append
    · exact (hJ.2 _).2.2
    · apply quiet_append
      · exact quiet_msgHead_C _
      · apply quiet_append
        · exact quiet_quoted "timestamp".toList ":".toList m.username _ (by decide) hu rfl
        · apply quiet_append
          · exact quiet_msgMid_C _
          · exact quiet_quoted_other '\x7d' "timestamp".toList ":".toList c1 _ (by decide)
              (by decide) hcq.1

theorem readsAs_good (J : Str) (cap : Str) (m : Message) (hJ : Pending J)
    (hu : '"' ∉ m.username) (hc : '"' ∉ m.content) (h0 : 0 ≤ m.timestamp)
    (hmax : m.timestamp < 2 ^ 63) :
    ReadsAs (J.dropWhile (fun c => c != '\x7b') ++ m.toJson, cap) m := by
  have hsplit := List.takeWhile_append_dropWhile (fun c => c != '\x7b') J
  have hq := hJ.2 m.toJson
  rw [← hsplit] at hq
  exact ⟨_, fromJson_junk_toJson _ m hu hc h0 hmax (quiet_suffix _ _ _ _ hq.1)
    (quiet_suffix _ _ _ _ hq.2.1) (quiet_suffix _ _ _ _ hq.2.2)⟩

theorem iter_messages (k : Str) (hk : '"' ∉ k) (hk2 : '\x7d' ∉ k) (msgs : List Message) :
    (∀ m ∈ msgs, CleanEntry k m) →
    ∀ (P : Str) (first : Bool) (tail : Str), Pending P →
      ∃ frags, regexIterFrom message_regex 0 (P ++ (messagesJson first msgs ++ tail)) =
          frags ++ regexIterFrom message_regex 0 ((if msgs.isEmpty then P else []) ++ tail) ∧
        List.Forall₂ ReadsAs frags (msgs.filter braceFree) := by
  induction msgs with
  | nil =>
    intro _ P first tail _
    exact ⟨[], by simp [messagesJson], List.Forall₂.nil⟩
  | cons m rest ih =>
    intro hclean P first tail hP
    obtain ⟨hmu, hmc, hm0, hmmax⟩ := hclean m (List.mem_cons_self _ _)
    have hrest : ∀ x ∈ rest, CleanEntry k x := fun x hx => hclean x (List.mem_cons_of_mem _ hx)
    have hJ : Pending (P ++ ((if first then [] else ",\n".toList) ++ "        ".toList)) := by
      apply pending_append_plain P _ hP
      · cases first <;> decide
      · cases first <;> decide
    have e : P ++ (messagesJson first (m :: rest) ++ tail) =
        (P ++ ((if first then [] else ",\n".toList) ++ "        ".toList))
          ++ (m.toJson ++ ([] ++ (messagesJson false rest ++ tail))) := by
      simp [messagesJson]
    obtain ⟨frags, hf, hall⟩ := ih hrest [] false tail pending_nil
    have hend : regexIterFrom message_regex 0 ((if rest.isEmpty then [] else []) ++ tail)
        = regexIterFrom message_regex 0 tail := by
      cases rest <;> rfl
    rw [hend] at hf
    have hu : '"' ∉ m.username := by rw [hmu]; exact hk
    have hu2 : '\x7d' ∉ m.username := by rw [hmu]; exact hk2
    by_cases hgood : '\x7d' ∈ m.content
    · refine ⟨frags, ?_, ?_⟩
      · rw [e, bad_segment _ m _ hJ hu hu2 hmc hgood hm0, hf]
        simp
      · have hb : braceFree m = false := by simp [braceFree, hgood]
        simpa [List.filter, hb] using hall
    · obtain ⟨cap, hcap⟩ := good_segment
        (P ++ ((if first then [] else ",\n".toList) ++ "        ".toList)) m
        ([] ++ (messagesJson false rest ++ tail)) hJ.1 hu2 hgood hm0
      refine ⟨((P ++ ((if first then [] else ",\n".toList) ++ "        ".toList)).dropWhile
        (fun c => c != '\x7b') ++ m.toJson, cap) :: frags, ?_, ?_⟩
      · rw [e, hcap, hf]
        simp
      · have hb : braceFree m = true := by simp [braceFree, hgood]
        simp only [List.filter, hb]
        exact List.Forall₂.cons (readsAs_good _ cap m hJ hu hmc hm0 hmmax) hall

theorem forall2_append {α β : Type} (R : α → β → Prop) (a1 a2 : List α) (b1 b2 : List β)
    (h1 : List.Forall₂ R a1 b1) (h2 : List.Forall₂ R a2 b2) :
    List.Forall₂ R (a1 ++ a2) (b1 ++ b2) := by
  induction h1 with
  | nil => exact h2
  | cons h _ ih => exact List.Forall₂.cons h ih

theorem pending_user (P name : Str) (first : Bool) (hP : Pending P) (hn : '"' ∉ name)
    (hn2 : '\x7d' ∉ name) :
    Pending (P ++ ((if first then [] else ",\n".toList) ++ ("    \x7b\n      \"username\": ".toList
      ++ (('"' :: name) ++ "\",\n      \"messages\": [\n".toList)))) := by
  have hsep : '"' ∉ (if first then [] else ",\n".toList) := by cases first <;> decide
  refine ⟨?_, fun s => ⟨?_, ?_, ?_⟩⟩
  · simp only [List.mem_append, List.mem_cons, not_or]
    exact ⟨hP.1, by cases first <;> decide, by decide, ⟨by decide, hn2⟩, by decide⟩
  · apply quiet_append _ _ _ _ (hP.2 _).1
    apply quiet_append _ _ _ _ (quiet_run '"' _ _ _ hsep)
    apply quiet_append _ _ _ _ (quiet_userHead_Uq _)
    apply quiet_append _ _ _ _ _ (quiet_userMid_Uq s)
    exact quiet_quoted "username".toList ":\"".toList name
      (",\n      \"messages\": [\n".toList ++ s) (by decide) hn rfl
  · apply quiet_append _ _ _ _ (hP.2 _).2.1
    apply quiet_append _ _ _ _ (quiet_run '"' _ _ _ hsep)
    apply quiet_append _ _ _ _ (quiet_userHead_Cq _)
    apply quiet_append _ _ _ _ _ (quiet_userMid_Cq s)
    exact quiet_quoted "content".toList ":\"".toList name
      (",\n      \"messages\": [\n".toList ++ s) (by decide) hn rfl
  · apply quiet_append _ _ _ _ (hP.2 _).2.2
    apply quiet_append _ _ _ _ (quiet_run '"' _ _ _ hsep)
    apply quiet_append _ _ _ _ (quiet_userHead_C _)
    apply quiet_append _ _ _ _ _ (quiet_userMid_C s)
    exact quiet_quoted "timestamp".toList ":".toList name
      (",\n      \"messages\": [\n".toList ++ s) (by decide) hn rfl

theorem closing_segment (Q lit rest : Str) (hQ : Pending Q) (hl : '"' ∉ lit)
    (hl2 : '\x7d' ∉ lit) :
    regexIterFrom message_regex 0 (Q ++ (lit ++ '\x7d' :: rest)) =
      regexIterFrom message_regex 0 rest := by
  have e : Q ++ (lit ++ '\x7d' :: rest) = (Q ++ lit) ++ '\x7d' :: rest := by simp
  rw [e]
  apply seg_none "\"timestamp\":".toList _ _ (Or.inr rfl)
  · simp only [List.mem_append, not_or]
    exact ⟨hQ.1, hl2⟩
  · exact quiet_append _ _ _ _ (hQ.2 _).2.2 (quiet_run '"' _ lit _ hl)

theorem iter_users (users : QueueMap) :
    (∀ e ∈ users, '"' ∉ e.1 ∧ '\x7d' ∉ e.1 ∧ ∀ m ∈ e.2.messages, CleanEntry e.1 m) →
    ∀ (P : Str) (first : Bool) (tail : Str), Pending P →
      ∃ frags, regexIterFrom message_regex 0 (P ++ (usersJson first users ++ tail)) =
          frags ++ regexIterFrom message_regex 0 ((if users.isEmpty then P else []) ++ tail) ∧
        List.Forall₂ ReadsAs frags (survivors users) := by
  induction users with
  | nil =>
    intro _ P first tail _
    exact ⟨[], by simp [usersJson], List.Forall₂.nil⟩
  | cons e rest ih =>
    intro hclean P first tail hP
    obtain ⟨name, q⟩ := e
    obtain ⟨hn, hn2, hmsgs⟩ := hclean (name, q) (List.mem_cons_self _ _)
    have hrest : ∀ x ∈ rest, '"' ∉ x.1 ∧ '\x7d' ∉ x.1 ∧ ∀ m ∈ x.2.messages, CleanEntry x.1 m :=
      fun x hx => hclean x (List.mem_cons_of_mem _ hx)
    have hP1 := pending_user P name first hP hn hn2
    have e1 : P ++ (usersJson first ((name, q) :: rest) ++ tail) =
        (P ++ ((if first then [] else ",\n".toList) ++ ("    \x7b\n      \"username\": ".toList
          ++ (('"' :: name) ++ "\",\n      \"messages\": [\n".toList))))
          ++ (messagesJson true q.messages
            ++ ("\n      ]\n    ".toList ++ '\x7d' :: ([] ++ (usersJson false rest ++ tail)))) := by
      simp [usersJson, getAllMessages_eq]
    obtain ⟨frags1, hf1, hall1⟩ := iter_messages name hn hn2 q.messages hmsgs _ true
      ("\n      ]\n    ".toList ++ '\x7d' :: ([] ++ (usersJson false rest ++ tail))) hP1
    obtain ⟨frags2, hf2, hall2⟩ := ih hrest [] false tail pending_nil
    have hend : regexIterFrom message_regex 0 ((if rest.isEmpty then [] else []) ++ tail)
        = regexIterFrom message_regex 0 tail := by
      cases rest <;> rfl
    rw [hend] at hf2
    have hQ : Pending (if q.messages.isEmpty then
        (P ++ ((if first then [] else ",\n".toList) ++ ("    \x7b\n      \"username\": ".toList
          ++ (('"' :: name) ++ "\",\n      \"messages\": [\n".toList)))) else []) := by
      split
      · exact hP1
      · exact pending_nil
    refine ⟨frags1 ++ frags2, ?_, ?_⟩
    · rw [e1, hf1, closing_segment _ _ _ hQ (by decide) (by decide), hf2]
      simp
    · exact forall2_append _ _ _ _ _ hall1 hall2

theorem pending_docHead : Pending "\x7b\n  \"users\": [\n".toList :=
  ⟨by decide, fun s => ⟨quiet_docHead_Uq s, quiet_docHead_Cq s, quiet_docHead_C s⟩⟩

theorem iter_snapshot (lg : ChatLogger)
    (hclean : ∀ e ∈ lg.userQueues,
      '"' ∉ e.1 ∧ '\x7d' ∉ e.1 ∧ ∀ m ∈ e.2.messages, CleanEntry e.1 m) :
    ∃ frags, regexIter message_regex lg.snapshotText = frags ∧
      List.Forall₂ ReadsAs frags (survivors lg.userQueues) := by
  obtain ⟨frags, hf, hall⟩ := iter_users lg.userQueues hclean _ true
    ("\n  ]\n".toList ++ '\x7d' :: []) pending_docHead
  have hQ : Pending (if lg.userQueues.isEmpty then "\x7b\n  \"users\": [\n".toList else []) := by
    split
    · exact pending_docHead
    · exact pending_nil
  refine ⟨frags, ?_, hall⟩
  have e : lg.snapshotText = "\x7b\n  \"users\": [\n".toList
      ++ (usersJson true lg.userQueues ++ ("\n  ]\n".toList ++ '\x7d' :: [])) := by
    simp [snapshotText]
  unfold regexIter
  rw [e, hf, closing_segment _ _ _ hQ (by decide) (by decide)]
  simp [regexIterFrom]

theorem quiet_msgAfter_A (s : Str) :
    QuietBefore "\"username\":".toList ",\"content\":".toList s := by
  intro k hk
  have hk2 : k < 11 := hk
  interval_cases k <;> rfl

theorem quiet_userAfter_A (s : Str) :
    QuietBefore "\"username\":".toList ",\n      \"messages\": [\n".toList s := by
  intro k hk
  have hk2 : k < 22 := hk
  interval_cases k <;> rfl

theorem matchItems_lit_none (L : Str) (rest : List RegexItem) (s : Str)
    (h : L.isPrefixOf s = false) : matchItems (RegexItem.lit L :: rest) s = none := by
  simp [matchItems, h]

theorem iterU_quiet (J s : Str) (h : QuietBefore "\"username\":".toList J s) :
    regexIterFrom user_regex 0 (J ++ s) = regexIterFrom user_regex 0 s := by
  apply regexIterFrom_none
  intro k hk
  exact matchItems_lit_none _ _ _ (h k hk)

theorem iterU_plain (J s : Str) (h : '"' ∉ J) :
    regexIterFrom user_regex 0 (J ++ s) = regexIterFrom user_regex 0 s :=
  iterU_quiet J s (quiet_run '"' _ J s h)

theorem iterU_unit (sp k rest : Str) (hsp : ∀ c ∈ sp, isSpace c = true) (hk : '"' ∉ k) :
    ∃ w, regexIterFrom user_regex 0
        ("\"username\":".toList ++ (sp ++ ('"' :: (k ++ '"' :: rest)))) =
      (w, k) :: regexIterFrom user_regex 0 rest := by
  have hq := matchItems_quoted "\"".toList k rest hk
  have hrun : (sp ++ ('"' :: (k ++ '"' :: rest))).takeWhile CharClass.space.test = sp := by
    rw [takeWhile_append_all _ _ _ (by simpa [CharClass.test] using hsp)]
    simp [CharClass.test, isSpace]
  have hcont : matchItems [RegexItem.lit "\"".toList,
      RegexItem.rep (CharClass.notChar '"') 0 true, RegexItem.lit "\"".toList]
      ((sp ++ ('"' :: (k ++ '"' :: rest))).drop sp.length)
      = some ("\"".toList.length + (k.length + 1), some k) := by
    rw [List.drop_left]
    exact hq
  have htry := tryLengths_of_cont _ (sp ++ ('"' :: (k ++ '"' :: rest))) 0 sp.length _
    (Nat.zero_le _) hcont
  have hrep := matchItems_rep CharClass.space 0 false _ (sp ++ ('"' :: (k ++ '"' :: rest)))
    sp.length _ (by rw [hrun]; exact htry)
  have hm : matchItems user_regex
      (("\"username\":".toList ++ (sp ++ ('"' :: (k ++ ['"'])))) ++ rest) =
      some ("\"username\":".toList.length + (sp.length + ("\"".toList.length + (k.length + 1))),
        some k) := by
    have e : ("\"username\":".toList ++ (sp ++ ('"' :: (k ++ ['"'])))) ++ rest
        = "\"username\":".toList ++ (sp ++ ('"' :: (k ++ '"' :: rest))) := by simp
    rw [e]
    unfold user_regex
    rw [matchItems_lit, hrep]
    rfl
  refine ⟨"\"username\":".toList ++ (sp ++ ('"' :: (k ++ ['"']))), ?_⟩
  have e : "\"username\":".toList ++ (sp ++ ('"' :: (k ++ '"' :: rest)))
      = ("\"username\":".toList ++ (sp ++ ('"' :: (k ++ ['"'])))) ++ rest := by simp
  rw [e, regexIterFrom_found user_regex _ rest _ (by simp) hm (by simp; omega)]
  rfl

theorem iterU_messages (k : Str) (hk : '"' ∉ k) (msgs : List Message) :
    (∀ m ∈ msgs, CleanEntry k m) →
    ∀ (first : Bool) (tail : Str),
      ∃ caps, regexIterFrom user_regex 0 (messagesJson first msgs ++ tail) =
          caps ++ regexIterFrom user_regex 0 tail ∧
        caps.map Prod.snd = msgs.map (fun m => m.username) := by
  induction msgs with
  | nil =>
    intro _ first tail
    exact ⟨[], by simp [messagesJson], rfl⟩
  | cons m rest ih =>
    intro hclean first tail
    obtain ⟨hmu, hmc, hm0, -⟩ := hclean m (List.mem_cons_self _ _)
    have hu : '"' ∉ m.username := by rw [hmu]; exact hk
    obtain ⟨caps, hcaps, hmap⟩ := ih (fun x hx => hclean x (List.mem_cons_of_mem _ hx)) false tail
    have hms : '"' ∉ showInt m.millis := by
      rw [showInt_of_nonneg _ (millis_nonneg m hm0)]
      exact not_mem_showNat _ (by decide) _
    have e : messagesJson first (m :: rest) ++ tail =
        ((if first then [] else ",\n".toList) ++ "        \x7b".toList)
          ++ ("\"username\":".toList ++ ([] ++ ('"' :: (m.username ++ '"' ::
            ((",\"content\":".toList ++ (('"' :: m.content) ++ ("\",\"timestamp\":".toList
              ++ (showInt m.millis ++ "\x7d".toList))))
                ++ (messagesJson false rest ++ tail)))))) := by
      simp [messagesJson, Message.toJson]
    obtain ⟨w, hw⟩ := iterU_unit [] m.username
      ((",\"content\":".toList ++ (('"' :: m.content) ++ ("\",\"timestamp\":".toList
        ++ (showInt m.millis ++ "\x7d".toList)))) ++ (messagesJson false rest ++ tail))
      (fun _ h => nomatch h) hu
    have hX : QuietBefore "\"username\":".toList
        (",\"content\":".toList ++ (('"' :: m.content) ++ ("\",\"timestamp\":".toList
          ++ (showInt m.millis ++ "\x7d".toList))))
        (messagesJson false rest ++ tail) := by
      apply quiet_append _ _ _ _ (quiet_msgAfter_A _)
      apply quiet_append
      · exact quiet_quoted "username".toList ":".toList m.content
          (",\"timestamp\":".toList ++ ((showInt m.millis ++ "\x7d".toList)
            ++ (messagesJson false rest ++ tail))) (by decide) hmc rfl
      · apply quiet_append _ _ _ _ (quiet_msgEnd_A _)
        apply quiet_run
        simp only [List.mem_append, not_or]
        exact ⟨hms, by decide⟩
    refine ⟨(w, m.username) :: caps, ?_, by simp [hmap]⟩
    rw [e, iterU_plain _ _ (by cases first <;> decide), hw, iterU_quiet _ _ hX, hcaps]
    rfl

theorem iterU_users (users : QueueMap) :
    (∀ e ∈ users, '"' ∉ e.1 ∧ '\x7d' ∉ e.1 ∧ ∀ m ∈ e.2.messages, CleanEntry e.1 m) →
    ∀ (first : Bool) (tail : Str),
      ∃ caps, regexIterFrom user_regex 0 (usersJson first users ++ tail) =
          caps ++ regexIterFrom user_regex 0 tail ∧
        caps.map Prod.snd = listedNames users := by
  induction users with
  | nil =>
    intro _ first tail
    exact ⟨[], by simp [usersJson], rfl⟩
  | cons e rest ih =>
    intro hclean first tail
    obtain ⟨name, q⟩ := e
    obtain ⟨hn, -, hmsgs⟩ := hclean (name, q) (List.mem_cons_self _ _)
    obtain ⟨caps2, hcaps2, hmap2⟩ :=
      ih (fun x hx => hclean x (List.mem_cons_of_mem _ hx)) false tail
    obtain ⟨caps1, hcaps1, hmap1⟩ := iterU_messages name hn q.messages hmsgs true
      ("\n      ]\n    \x7d".toList ++ (usersJson false rest ++ tail))
    have e1 : usersJson first ((name, q) :: rest) ++ tail =
        ((if first then [] else ",\n".toList) ++ "    \x7b\n      ".toList)
          ++ ("\"username\":".toList ++ (" ".toList ++ ('"' :: (name ++ '"' ::
            (",\n      \"messages\": [\n".toList ++ (messagesJson true q.messages
              ++ ("\n      ]\n    \x7d".toList ++ (usersJson false rest ++ tail)))))))) := by
      simp [usersJson, getAllMessages_eq]
    obtain ⟨w, hw⟩ := iterU_unit " ".toList name
      (",\n      \"messages\": [\n".toList ++ (messagesJson true q.messages
        ++ ("\n      ]\n    \x7d".toList ++ (usersJson false rest ++ tail))))
      (by decide) hn
    refine ⟨(w, name) :: (caps1 ++ caps2), ?_, by simp [listedNames, hmap1, hmap2]⟩
    rw [e1, iterU_plain _ _ (by cases first <;> decide), hw,
      iterU_quiet _ _ (quiet_userAfter_A _), hcaps1, iterU_plain _ _ (by decide), hcaps2]
    simp

theorem iterU_snapshot (lg : ChatLogger)
    (hclean : ∀ e ∈ lg.userQueues,
      '"' ∉ e.1 ∧ '\x7d' ∉ e.1 ∧ ∀ m ∈ e.2.messages, CleanEntry e.1 m) :
    (regexIter user_regex lg.snapshotText).map Prod.snd = listedNames lg.userQueues := by
  obtain ⟨caps, hcaps, hmap⟩ := iterU_users lg.userQueues hclean true "\n  ]\n\x7d".toList
  unfold regexIter snapshotText
  rw [List.append_assoc, iterU_quiet _ _ (quiet_docHead_A _), hcaps,
    ← List.append_nil "\n  ]\n\x7d".toList, iterU_plain _ _ (by decide)]
  simpa [regexIterFrom] using hmap

theorem loadUsers_max (caps : List (Str × Str)) (lg : ChatLogger) :
    (loadUsers caps lg).maxMessagesPerUser = lg.maxMessagesPerUser := by
  induction caps generalizing lg with
  | nil => rfl
  | cons c rest ih => simp [loadUsers, ih, ensureQueue_max]

theorem findQueue_loadUsers (caps : List (Str × Str)) :
    ∀ (lg : ChatLogger) (k : Str),
      findQueue (loadUsers caps lg).userQueues k =
        match findQueue lg.userQueues k with
        | some q => some q
        | none =>
          if k ∈ caps.map Prod.snd then some (UserMessageQueue.new k lg.maxMessagesPerUser)
          else none := by
  induction caps with
  | nil =>
    intro lg k
    cases h : findQueue lg.userQueues k <;> simp [loadUsers, h]
  | cons c rest ih =>
    intro lg k
    simp only [loadUsers]
    rw [ih (lg.ensureQueue c.2) k, ensureQueue_max]
    by_cases hk : k = c.2
    · subst hk
      rw [findQueue_ensureQueue_same]
      unfold queueOr
      cases h : findQueue lg.userQueues c.2 <;> simp
    · rw [findQueue_ensureQueue_other lg c.2 k hk]
      cases h : findQueue lg.userQueues k with
      | some q => rfl
      | none =>
        have e : (k ∈ (c :: rest).map Prod.snd) ↔ (k ∈ rest.map Prod.snd) := by
          simp [hk]
        simp only [e]

theorem loadMessages_reads (env : Env) (frags : List (Str × Str)) (msgs : List Message)
    (hall : List.Forall₂ ReadsAs frags msgs) :
    ∀ (n : Nat) (lg : ChatLogger),
      (∀ m ∈ msgs, ∃ q, findQueue lg.userQueues m.username = some q) →
      ∀ (key : Str) (q : UserMessageQueue), findQueue lg.userQueues key = some q →
        q.username = key →
        q.messages.length + (msgs.filter (fun m => decide (m.username = key))).length
          ≤ q.maxSize →
        ∃ q2, findQueue (loadMessages env frags n lg).userQueues key = some q2 ∧
          q2.messages.map (fun m => (m.username, m.content)) =
            q.messages.map (fun m => (m.username, m.content))
              ++ (msgs.filter (fun m => decide (m.username = key))).map
                  (fun m => (m.username, m.content)) := by
  induction hall with
  | nil =>
    intro n lg _ key q hq _ _
    exact ⟨q, by simpa [loadMessages] using hq, by simp⟩
  | @cons f m frags msgs hr _ ih =>
    intro n lg hqs key q hq hname hcap
    obtain ⟨t, hfj⟩ := hr
    obtain ⟨q0, hq0⟩ := hqs m (List.mem_cons_self _ _)
    have hstep : loadMessages env (f :: frags) n lg =
        loadMessages env frags (n + 2)
          { lg with userQueues :=
              (modifyQueue (fun x => x.addMessage (env.clock (n + 1)) m.content)
                lg.userQueues m.username) } := by
      simp only [loadMessages, hfj, hq0]
    rw [hstep]
    have hqs2 : ∀ x ∈ msgs, ∃ q1, findQueue
        (modifyQueue (fun x => x.addMessage (env.clock (n + 1)) m.content)
          lg.userQueues m.username) x.username = some q1 := by
      intro x hx
      obtain ⟨q1, hq1⟩ := hqs x (List.mem_cons_of_mem _ hx)
      by_cases hxm : x.username = m.username
      · rw [hxm, findQueue_modify_same, hq0]
        exact ⟨_, rfl⟩
      · rw [findQueue_modify_other _ _ _ _ hxm]
        exact ⟨q1, hq1⟩
    by_cases hkm : m.username = key
    · have hq1 : findQueue
          (modifyQueue (fun x => x.addMessage (env.clock (n + 1)) m.content)
            lg.userQueues m.username) key
          = some (q.addMessage (env.clock (n + 1)) m.content) := by
        rw [← hkm, findQueue_modify_same, hkm, hq]
        rfl
      have hfilter : (m :: msgs).filter (fun x => decide (x.username = key))
          = m :: msgs.filter (fun x => decide (x.username = key)) := by
        simp [List.filter, hkm]
      rw [hfilter] at hcap ⊢
      simp only [List.length_cons] at hcap
      have hadd := addMessage_messages_of_lt q (env.clock (n + 1)) m.content (by omega)
      have hmx : (q.addMessage (env.clock (n + 1)) m.content).maxSize = q.maxSize := rfl
      obtain ⟨q2, hq2, hview⟩ := ih (n + 2)
        ({ lg with userQueues :=
            (modifyQueue (fun x => x.addMessage (env.clock (n + 1)) m.content)
              lg.userQueues m.username) } : ChatLogger) hqs2 key
        (q.addMessage (env.clock (n + 1)) m.content) hq1 hname
        (by rw [hmx, hadd]; simp; omega)
      refine ⟨q2, hq2, ?_⟩
      rw [hview, hadd]
      simp [hname, hkm]
    · have hq1 : findQueue
          (modifyQueue (fun x => x.addMessage (env.clock (n + 1)) m.content)
            lg.userQueues m.username) key = some q := by
        rw [findQueue_modify_other _ _ _ _ (fun e => hkm e.symm), hq]
      have hfilter : (m :: msgs).filter (fun x => decide (x.username = key))
          = msgs.filter (fun x => decide (x.username = key)) := by
        simp [List.filter, hkm]
      rw [hfilter] at hcap ⊢
      exact ih (n + 2)
        ({ lg with userQueues :=
            (modifyQueue (fun x => x.addMessage (env.clock (n + 1)) m.content)
              lg.userQueues m.username) } : ChatLogger) hqs2 key q hq1 hname hcap

theorem mem_listedNames_key (users : QueueMap) (k : Str) (q : UserMessageQueue)
    (h : (k, q) ∈ users) : k ∈ listedNames users := by
  induction users with
  | nil => simp at h
  | cons e rest ih =>
    rcases List.mem_cons.mp h with h1 | h1
    · rw [← h1]
      simp [listedNames]
    · simp only [listedNames, List.mem_append]
      exact Or.inr (ih h1)

theorem mem_survivors (users : QueueMap) (m : Message) (h : m ∈ survivors users) :
    ∃ e ∈ users, m ∈ e.2.messages := by
  induction users with
  | nil => simp [survivors] at h
  | cons e rest ih =>
    simp only [survivors, List.mem_append] at h
    rcases h with h1 | h1
    · exact ⟨e, List.mem_cons_self _ _, (List.mem_filter.mp h1).1⟩
    · obtain ⟨e2, he2, hm⟩ := ih h1
      exact ⟨e2, List.mem_cons_of_mem _ he2, hm⟩

theorem survivors_filter_key (users : QueueMap) (hnodup : (users.map Prod.fst).Nodup)
    (hclean : ∀ e ∈ users, ∀ m ∈ e.2.messages, m.username = e.1) (k : Str)
    (q : UserMessageQueue) (hmem : (k, q) ∈ users) :
    (survivors users).filter (fun m => decide (m.username = k)) =
      q.messages.filter braceFree := by
  induction users with
  | nil => simp at hmem
  | cons e rest ih =>
    simp only [List.map_cons, List.nodup_cons] at hnodup
    have hrestclean : ∀ x ∈ rest, ∀ m ∈ x.2.messages, m.username = x.1 :=
      fun x hx => hclean x (List.mem_cons_of_mem _ hx)
    simp only [survivors, List.filter_append]
    rcases List.mem_cons.mp hmem with h1 | h1
    · subst h1
      have hrest : (survivors rest).filter (fun m => decide (m.username = k)) = [] := by
        rw [List.filter_eq_nil_iff]
        intro m hm
        obtain ⟨e2, he2, hm2⟩ := mem_survivors rest m hm
        have hu := hrestclean e2 he2 m hm2
        have hne : e2.1 ≠ k := by
          intro heq
          apply hnodup.1
          simp only [List.mem_map]
          exact ⟨e2, he2, heq⟩
        simp [hu, hne]
      have hfirst : (q.messages.filter braceFree).filter (fun m => decide (m.username = k))
          = q.messages.filter braceFree := by
        rw [List.filter_eq_self]
        intro m hm
        have hu := hclean (k, q) (List.mem_cons_self _ _) m (List.mem_filter.mp hm).1
        simp [hu]
      rw [hrest, hfirst]
      simp
    · have hne : e.1 ≠ k := by
        intro heq
        apply hnodup.1
        rw [heq]
        simp only [List.mem_map]
        exact ⟨(k, q), h1, rfl⟩
      have hfirst : (e.2.messages.filter braceFree).filter (fun m => decide (m.username = k))
          = [] := by
        rw [List.filter_eq_nil_iff]
        intro m hm
        have hu := hclean e (List.mem_cons_self _ _) m (List.mem_filter.mp hm).1
        simp [hu, hne]
      rw [hfirst, ih hnodup.2 hrestclean h1]
      simp

/-- C27, as amended.  Take a state of the logger whose keys are distinct and
hold neither a double quote nor a closing brace, whose queues are within the
capacity, and whose entries carry the key of their queue, a content without
double quote and a time at or after the epoch (within the 64-bit clock).
After `saveToJson` and the construction of a new logger on the same directory
and with the same capacity (which runs `loadFromJson`), every key has its
queue again, and this queue holds, in their order, exactly those entries of
the key whose content has no closing brace (user name and content; the time is
that of the reload).  So an entry whose content holds a closing brace is absent
after the reload, while its key and the other entries of the key are
restored. -/
theorem reload_drops_brace_entries (env0 env : Env) (sys : Sys)
    (hopen : env0.canOpen sys.logger.jsonFilePath = true)
    (hclean : SnapshotClean sys.logger) (k : Str) (q : UserMessageQueue)
    (hk : (k, q) ∈ sys.logger.userQueues) :
    ∃ q2, findQueue
        (ChatLogger.new env sys.logger.maxMessagesPerUser sys.logger.logDirectory
          (saveToJson env0 sys).files).logger.userQueues k = some q2 ∧
      q2.messages.map (fun m => (m.username, m.content)) =
        (q.messages.filter braceFree).map (fun m => (m.username, m.content)) ∧
      (∀ m ∈ q.messages, '\x7d' ∈ m.content → ∀ m2 ∈ q2.messages, m2.content ≠ m.content) := by
  obtain ⟨hnodup, hall⟩ := hclean
  have hclean2 : ∀ e ∈ sys.logger.userQueues,
      '"' ∉ e.1 ∧ '\x7d' ∉ e.1 ∧ ∀ m ∈ e.2.messages, CleanEntry e.1 m :=
    fun e he => ⟨(hall e he).1, (hall e he).2.1, (hall e he).2.2.2⟩
  have hnames : ∀ e ∈ sys.logger.userQueues, ∀ m ∈ e.2.messages, m.username = e.1 :=
    fun e he m hm => ((hall e he).2.2.2 m hm).1
  obtain ⟨frags, hfrags, hreads⟩ := iter_snapshot sys.logger hclean2
  have hcaps := iterU_snapshot sys.logger hclean2
  have hfile : readFile (saveToJson env0 sys).files
      (sys.logger.logDirectory ++ "/chat_data.json".toList) = some sys.logger.snapshotText := by
    unfold saveToJson
    rw [if_pos hopen]
    exact readFile_writeFile_same _ _ _
  have hnew : (ChatLogger.new env sys.logger.maxMessagesPerUser sys.logger.logDirectory
      (saveToJson env0 sys).files).logger =
      loadMessages env frags 0
        (loadUsers (regexIter user_regex sys.logger.snapshotText)
          { userQueues := [], maxMessagesPerUser := sys.logger.maxMessagesPerUser,
            logDirectory := sys.logger.logDirectory }) := by
    unfold ChatLogger.new loadFromJson
    simp only [jsonFilePath, hfile, hfrags]
  rw [hnew]
  have hfind : ∀ name, name ∈ listedNames sys.logger.userQueues →
      findQueue (loadUsers (regexIter user_regex sys.logger.snapshotText)
          { userQueues := [], maxMessagesPerUser := sys.logger.maxMessagesPerUser,
            logDirectory := sys.logger.logDirectory }).userQueues name
        = some (UserMessageQueue.new name sys.logger.maxMessagesPerUser) := by
    intro name hname
    rw [findQueue_loadUsers, hcaps]
    simp [findQueue, hname]
  have hqs : ∀ m ∈ survivors sys.logger.userQueues, ∃ q1,
      findQueue (loadUsers (regexIter user_regex sys.logger.snapshotText)
          { userQueues := [], maxMessagesPerUser := sys.logger.maxMessagesPerUser,
            logDirectory := sys.logger.logDirectory }).userQueues m.username = some q1 := by
    intro m hm
    obtain ⟨e, he, hme⟩ := mem_survivors _ m hm
    refine ⟨_, hfind m.username ?_⟩
    rw [hnames e he m hme]
    exact mem_listedNames_key _ e.1 e.2 he
  have hfilter := survivors_filter_key sys.logger.userQueues hnodup hnames k q hk
  have hcap : (UserMessageQueue.new k sys.logger.maxMessagesPerUser).messages.length
      + ((survivors sys.logger.userQueues).filter (fun m => decide (m.username = k))).length
      ≤ (UserMessageQueue.new k sys.logger.maxMessagesPerUser).maxSize := by
    rw [hfilter]
    have h1 : q.messages.length ≤ sys.logger.maxMessagesPerUser := (hall (k, q) hk).2.2.1
    have h2 := List.length_filter_le braceFree q.messages
    simp only [UserMessageQueue.new, List.length_nil]
    omega
  obtain ⟨q2, hq2, hview⟩ := loadMessages_reads env frags _ hreads 0 _ hqs k _
    (hfind k (mem_listedNames_key _ k q hk)) rfl hcap
  rw [hfilter] at hview
  have hview2 : q2.messages.map (fun m => (m.username, m.content)) =
      (q.messages.filter braceFree).map (fun m => (m.username, m.content)) := by
    simpa [UserMessageQueue.new] using hview
  refine ⟨q2, hq2, hview2, ?_⟩
  intro m _ hbrace m2 hm2 heq
  have hin : (m2.username, m2.content) ∈ q2.messages.map (fun m => (m.username, m.content)) :=
    List.mem_map.mpr ⟨m2, hm2, rfl⟩
  rw [hview2] at hin
  obtain ⟨m3, hm3, he3⟩ := List.mem_map.mp hin
  have hfree : braceFree m3 = true := (List.mem_filter.mp hm3).2
  have hc3 : m3.content = m2.content := by
    have := congrArg Prod.snd he3
    simpa using this
  rw [braceFree, decide_eq_true_eq, hc3, heq] at hfree
  exact hfree hbrace

/-- Witness for C27 as amended: the queue of `alice` holds `a}b` and `ok`; after
the reload it holds `ok` only. -/
theorem reload_drops_brace_entries_witness :
    (sampleEnv 0).canOpen
      (logMessage (sampleEnv 1)
        (logMessage (sampleEnv 0) (emptySys 3) "alice".toList "a\x7db".toList)
        "alice".toList "ok".toList).logger.jsonFilePath = true ∧
    (getUserMessages
        (ChatLogger.new (sampleEnv 9) 3 "logs".toList
          (logMessage (sampleEnv 1)
            (logMessage (sampleEnv 0) (emptySys 3) "alice".toList "a\x7db".toList)
            "alice".toList "ok".toList).files).logger "alice".toList).map
        (fun m => m.content) = ["ok".toList] ∧
    ∃ q2, findQueue
        (ChatLogger.new (sampleEnv 9)
          (logMessage (sampleEnv 1)
            (logMessage (sampleEnv 0) (emptySys 3) "alice".toList "a\x7db".toList)
            "alice".toList "ok".toList).logger.maxMessagesPerUser
          (logMessage (sampleEnv 1)
            (logMessage (sampleEnv 0) (emptySys 3) "alice".toList "a\x7db".toList)
            "alice".toList "ok".toList).logger.logDirectory
          (saveToJson (sampleEnv 0)
            (logMessage (sampleEnv 1)
              (logMessage (sampleEnv 0) (emptySys 3) "alice".toList "a\x7db".toList)
              "alice".toList "ok".toList)).files).logger.userQueues "alice".toList = some q2 ∧
      q2.messages.map (fun m => (m.username, m.content)) =
        (List.filter braceFree
          [{ username := "alice".toList, content := "a\x7db".toList, timestamp := 0 },
           { username := "alice".toList, content := "ok".toList, timestamp := 1 }]).map
          (fun m => (m.username, m.content)) ∧
      (∀ m ∈ ([{ username := "alice".toList, content := "a\x7db".toList, timestamp := 0 },
           { username := "alice".toList, content := "ok".toList, timestamp := 1 }] : List Message),
        '\x7d' ∈ m.content → ∀ m2 ∈ q2.messages, m2.content ≠ m.content) :=
  ⟨rfl, by decide!,
    reload_drops_brace_entries (sampleEnv 0) (sampleEnv 9)
      (logMessage (sampleEnv 1)
        (logMessage (sampleEnv 0) (emptySys 3) "alice".toList "a\x7db".toList)
        "alice".toList "ok".toList) rfl
      (by
        unfold SnapshotClean CleanEntry
        decide)
      "alice".toList
      { messages :=
          [{ username := "alice".toList, content := "a\x7db".toList, timestamp := 0 },
           { username := "alice".toList, content := "ok".toList, timestamp := 1 }],
        maxSize := 3, username := "alice".toList }
      (by decide)⟩

/-- Counterexample to C27 as stated.  Under the key `a}` the entries `x}y` and
`ok` are logged; the content `x}y` holds a closing brace and no double quote.
After the reload of the snapshot the key `a}` is known again, but its queue is
empty: the other entry, `ok`, is not restored either, because the closing brace
of the key cuts its fragment too. -/
theorem reload_drops_brace_entries_counterexample :
    (getUserMessages
        (logMessage (sampleEnv 1)
          (logMessage (sampleEnv 0) (emptySys 3) "a\x7d".toList "x\x7dy".toList)
          "a\x7d".toList "ok".toList).logger "a\x7d".toList).map (fun m => m.content)
      = ["x\x7dy".toList, "ok".toList] ∧
    '\x7d' ∈ "x\x7dy".toList ∧ '"' ∉ "x\x7dy".toList ∧
    getAllUsers
        (ChatLogger.new (sampleEnv 9) 3 "logs".toList
          (logMessage (sampleEnv 1)
            (logMessage (sampleEnv 0) (emptySys 3) "a\x7d".toList "x\x7dy".toList)
            "a\x7d".toList "ok".toList).files).logger = ["a\x7d".toList] ∧
    getUserMessages
        (ChatLogger.new (sampleEnv 9) 3 "logs".toList
          (logMessage (sampleEnv 1)
            (logMessage (sampleEnv 0) (emptySys 3) "a\x7d".toList "x\x7dy".toList)
            "a\x7d".toList "ok".toList).files).logger "a\x7d".toList = [] := by
  refine ⟨by decide!, by decide, by decide, ?_, ?_⟩
  · decide!
  · decide!

end ChatLog
